import Mathlib

/-!
Verification development for the `am_cassowary.h` incremental linear-constraint
solver (Cassowary algorithm).  The C source is shallowly embedded:

* `amcw_Num` (C `double`) is modelled as the exact rationals `ℚ`; every
  comparison that affects branching in the source goes through the same
  tolerance predicates (`amcw_approx`, `amcw_nearzero`) as the code.
* the open-addressing symbol-keyed hash tables are modelled as association
  lists; the model's list order stands for the table's iteration order
  (the spec's design notes sanction any table whose iteration yields every
  entry exactly once).  Lookups compare the 30-bit `id` only, exactly as
  `amcw_gettable` does.
* the two intrusive linked lists (infeasible rows, dirty variables), which
  the source threads through `infeasible_next` / `dirty_next` with a Dummy
  tag as on-list flag, are modelled as explicit `List amcw_Symbol` fields;
  the on-list flag corresponds to list membership (the side-index model the
  spec's design notes recommend for ports).
* heap handles (`amcw_Var *`, `amcw_Constraint *`) become keys into the
  solver state: a variable handle is its `amcw_Symbol`, a constraint handle
  the `Nat` id issued by `amcw_newconstraint`.  Null handles are `Option`.
* the unbounded simplex loops (`amcw_optimize`, `amcw_dual_optimize`) take a
  fuel parameter; exhausted fuel returns the state unchanged with a failure
  code (the source would keep looping).  C `assert`s are compiled out in
  release builds, so they are modelled as no-ops; where the source would
  dereference a failed lookup (undefined behaviour) the model keeps the
  state unchanged, and each such spot is commented.
-/

set_option linter.unusedVariables false

namespace AmCassowary

/-- C `amcw_Num` (double build), modelled as exact rationals. -/
abbrev amcw_Num := ℚ

/-! Mathlib's rational arithmetic (`Rat.add` etc.) is marked irreducible, so
terms built from it do not evaluate inside the kernel.  The model therefore
uses the following wrappers, which compute, and which are proved equal to the
ordinary field operations (`qadd_eq` and friends) for algebraic reasoning. -/

def qadd (a b : amcw_Num) : amcw_Num := mkRat (a.num * b.den + b.num * a.den) (a.den * b.den)

def qsub (a b : amcw_Num) : amcw_Num := qadd a (-b)

def qmul (a b : amcw_Num) : amcw_Num := mkRat (a.num * b.num) (a.den * b.den)

def qdiv (a b : amcw_Num) : amcw_Num := Rat.divInt (a.num * b.den) (a.den * b.num)

theorem qadd_eq (a b : amcw_Num) : qadd a b = a + b := (Rat.add_def' a b).symm

theorem qsub_eq (a b : amcw_Num) : qsub a b = a - b := by
  unfold qsub; rw [qadd_eq, ← sub_eq_add_neg]

theorem qmul_eq (a b : amcw_Num) : qmul a b = a * b := by
  unfold qmul; rw [Rat.mul_def, Rat.normalize_eq_mkRat]

theorem qdiv_eq (a b : amcw_Num) : qdiv a b = a / b := (Rat.div_def' a b).symm

def AMCW_OK : Int := 0
def AMCW_FAILED : Int := -1
def AMCW_UNSATISFIED : Int := -2
def AMCW_UNBOUND : Int := -3

def AMCW_LESSEQUAL : Nat := 1
def AMCW_EQUAL : Nat := 2
def AMCW_GREATEQUAL : Nat := 3

def AMCW_REQUIRED : amcw_Num := 1000000000
def AMCW_STRONG : amcw_Num := 1000000
def AMCW_MEDIUM : amcw_Num := 1000
def AMCW_WEAK : amcw_Num := 1

/-- `AMCW_NUM_EPS` for the double build: `1e-6`. -/
def AMCW_NUM_EPS : amcw_Num := mkRat 1 1000000

/-- `AMCW_NUM_MAX` (`DBL_MAX`), the exact integer value of the largest
double, `(2^53 - 1) * 2^971`, written in decimal so that it elaborates and
evaluates without deep recursion. -/
def AMCW_NUM_MAX : amcw_Num := mkRat (Int.ofNat 179769313486231570814527423731704356798070567525844996598917476803157260780028538760589558632766878171540458953514382464234321326889464182768467546703537516986049910576551282076245490090389328944075868508455133942304583236903222948165808559332123348274797826204144723168738177180919299881250404026184124858368) 1

/-- C `amcw_approx`: `a > b ? a - b < EPS : b - a < EPS`. -/
def amcw_approx (a b : amcw_Num) : Bool :=
  if a > b then qsub a b < AMCW_NUM_EPS else qsub b a < AMCW_NUM_EPS

/-- C `amcw_nearzero`. -/
def amcw_nearzero (a : amcw_Num) : Bool := amcw_approx a 0

/-- The 2-bit symbol kind (`AMCW_EXTERNAL` .. `AMCW_DUMMY`). -/
inductive SymType where
  | external
  | slack
  | error
  | dummy
deriving DecidableEq, Repr

/-- C `amcw_Symbol`: a 30-bit id and a 2-bit kind. -/
structure amcw_Symbol where
  id : Nat
  type : SymType
deriving DecidableEq, Repr

/-- C `amcw_null`: id 0, type 0 (external). -/
def amcw_null : amcw_Symbol := ⟨0, SymType.external⟩

def amcw_isexternal (k : amcw_Symbol) : Bool := k.type = SymType.external
def amcw_isslack (k : amcw_Symbol) : Bool := k.type = SymType.slack
def amcw_iserror (k : amcw_Symbol) : Bool := k.type = SymType.error
def amcw_isdummy (k : amcw_Symbol) : Bool := k.type = SymType.dummy
def amcw_ispivotable (k : amcw_Symbol) : Bool := amcw_isslack k || amcw_iserror k

/-- C `amcw_newsymbol`, taking and returning the solver's `symbol_count`:
`id = ++count; if (id > 0x3FFFFFFF) id = count = 1`. -/
def amcw_newsymbol (count : Nat) (ty : SymType) : amcw_Symbol × Nat :=
  let id := count + 1
  if id > 0x3FFFFFFF then (⟨1, ty⟩, 1) else (⟨id, ty⟩, id)

/-! ## Rows (linear expressions)

A row's term table is an association list in iteration order; the stored key
keeps its full symbol (id and kind), lookups match by id, as in the source. -/

abbrev Terms := List (amcw_Symbol × amcw_Num)

/-- C `amcw_gettable` on a term table: null key finds nothing, otherwise the
first entry with the same id. -/
def lookupTerm (ts : Terms) (k : amcw_Symbol) : Option amcw_Num :=
  if k.id = 0 then none
  else (ts.find? (fun t => t.1.id == k.id)).map (fun t => t.2)

/-- C `amcw_delkey` on a term table: drop the (first) entry with this id. -/
def eraseTerm : Terms → amcw_Symbol → Terms
  | [], _ => []
  | t :: ts, k => if t.1.id = k.id then ts else t :: eraseTerm ts k

structure amcw_Row where
  constant : amcw_Num
  terms : Terms
deriving DecidableEq, Repr

/-- C `amcw_initrow` (the key and infeasible link live in the solver model). -/
def amcw_initrow : amcw_Row := ⟨0, []⟩

/-- C `amcw_isconstant`: the term table is empty. -/
def amcw_isconstant (r : amcw_Row) : Bool := r.terms.isEmpty

/-- C `amcw_multiply`: scale the constant and every coefficient. -/
def amcw_multiply (r : amcw_Row) (m : amcw_Num) : amcw_Row :=
  ⟨qmul r.constant m, r.terms.map (fun t => (t.1, qmul t.2 m))⟩

/-- Term-table part of C `amcw_addvar`: accumulate into the entry for `s`
(keeping the stored key), dropping it when the result is near zero; a fresh
near-zero insertion is immediately deleted again, so the table is unchanged. -/
def addvarTerms : Terms → amcw_Symbol → amcw_Num → Terms
  | [], s, v => if amcw_nearzero v then [] else [(s, v)]
  | t :: ts, s, v =>
    if t.1.id = s.id then
      (if amcw_nearzero (qadd t.2 v) then ts else (t.1, qadd t.2 v) :: ts)
    else t :: addvarTerms ts s v

/-- C `amcw_addvar`: a null symbol is a no-op. -/
def amcw_addvar (r : amcw_Row) (s : amcw_Symbol) (v : amcw_Num) : amcw_Row :=
  if s.id = 0 then r else ⟨r.constant, addvarTerms r.terms s v⟩

/-- C `amcw_addrow`: `r += other * m`, term by term in iteration order. -/
def amcw_addrow (r : amcw_Row) (other : amcw_Row) (m : amcw_Num) : amcw_Row :=
  other.terms.foldl (fun acc t => amcw_addvar acc t.1 (qmul t.2 m))
    ⟨qadd r.constant (qmul other.constant m), r.terms⟩

/-- C `amcw_solvefor`: remove `entry`, scale by `-1/c`, and add `exit` with
coefficient `1/c`.  The source asserts `entry` is present; on a (never
occurring) absent entry the model returns the row unchanged. -/
def amcw_solvefor (r : amcw_Row) (entry exitSym : amcw_Symbol) : amcw_Row :=
  match lookupTerm r.terms entry with
  | none => r
  | some c =>
    let reciprocal := qdiv 1 c
    let r2 := amcw_multiply ⟨r.constant, eraseTerm r.terms entry⟩ (-reciprocal)
    if exitSym.id ≠ 0 then amcw_addvar r2 exitSym reciprocal else r2

/-- C `amcw_substitute`: if `entry` occurs with coefficient `c`, remove it and
add `c * other`. -/
def amcw_substitute (r : amcw_Row) (entry : amcw_Symbol) (other : amcw_Row) : amcw_Row :=
  match lookupTerm r.terms entry with
  | none => r
  | some c => amcw_addrow ⟨r.constant, eraseTerm r.terms entry⟩ other c

/-! ## Solver state

Heap objects are stored in the state: variables in `vars` keyed by their own
symbol, constraints in `constraints` keyed by the id that `amcw_newconstraint`
issues.  The two intrusive lists are explicit symbol lists. -/

structure amcw_Var where
  sym : amcw_Symbol
  refcount : Nat
  /-- C `var->constraint`: the owning edit constraint, if any. -/
  constraintId : Option Nat
  edit_value : amcw_Num
  value : amcw_Num
deriving DecidableEq, Repr

structure amcw_Constraint where
  expression : amcw_Row
  marker : amcw_Symbol
  other : amcw_Symbol
  relation : Nat
  strength : amcw_Num
deriving DecidableEq, Repr

structure amcw_Solver where
  objective : amcw_Row
  vars : List (amcw_Symbol × amcw_Var)
  constraints : List (Nat × amcw_Constraint)
  rows : List (amcw_Symbol × amcw_Row)
  symbol_count : Nat
  constraint_count : Nat
  auto_update : Bool
  infeasible_rows : List amcw_Symbol
  dirty_vars : List amcw_Symbol
deriving DecidableEq, Repr

/-- The state `amcw_newsolver` builds (allocator plumbing is out of scope). -/
def amcw_newsolver : amcw_Solver :=
  ⟨amcw_initrow, [], [], [], 0, 0, false, [], []⟩

/-- C `amcw_gettable` on `solver->rows`. -/
def getRow (s : amcw_Solver) (k : amcw_Symbol) : Option amcw_Row :=
  if k.id = 0 then none
  else (s.rows.find? (fun e => e.1.id == k.id)).map (fun e => e.2)

/-- C `amcw_gettable` on `solver->vars`. -/
def getVar (s : amcw_Solver) (k : amcw_Symbol) : Option amcw_Var :=
  if k.id = 0 then none
  else (s.vars.find? (fun e => e.1.id == k.id)).map (fun e => e.2)

/-- C `amcw_gettable` on `solver->constraints` (keyed by constraint id). -/
def getCons (s : amcw_Solver) (cid : Nat) : Option amcw_Constraint :=
  if cid = 0 then none
  else (s.constraints.find? (fun e => e.1 == cid)).map (fun e => e.2)

/-- Write back a mutated constraint record (the C code mutates it through the
heap pointer; entries with a different id are untouched). -/
def putCons (s : amcw_Solver) (cid : Nat) (c : amcw_Constraint) : amcw_Solver :=
  { s with constraints := s.constraints.map (fun e => if e.1 = cid then (e.1, c) else e) }

/-- Write back a mutated variable record. -/
def updateVar (s : amcw_Solver) (k : amcw_Symbol) (f : amcw_Var → amcw_Var) : amcw_Solver :=
  { s with vars := s.vars.map (fun e => if e.1.id = k.id then (e.1, f e.2) else e) }

def eraseRowKey : List (amcw_Symbol × amcw_Row) → amcw_Symbol → List (amcw_Symbol × amcw_Row)
  | [], _ => []
  | e :: es, k => if e.1.id = k.id then es else e :: eraseRowKey es k

/-- C `amcw_takerow`: delete the row keyed by `sym` and hand out its contents;
`none` when absent (`AMCW_FAILED` in the source). -/
def amcw_takerow (s : amcw_Solver) (sym : amcw_Symbol) : amcw_Solver × Option amcw_Row :=
  match getRow s sym with
  | none => (s, none)
  | some r => ({ s with rows := eraseRowKey s.rows sym }, some r)

/-- C `amcw_putrow`: overwrite the row stored under `sym`, inserting (at the
end, in iteration order) when absent. -/
def amcw_putrow (s : amcw_Solver) (sym : amcw_Symbol) (r : amcw_Row) : amcw_Solver :=
  if s.rows.any (fun e => e.1.id == sym.id) then
    { s with rows := s.rows.map (fun e => if e.1.id == sym.id then (e.1, r) else e) }
  else
    { s with rows := s.rows ++ [(sym, r)] }

/-- Replace only the constant of the row keyed by `k` (in-place mutation of a
looked-up row in the source). -/
def setRowConst (s : amcw_Solver) (k : amcw_Symbol) (v : amcw_Num) : amcw_Solver :=
  { s with rows := s.rows.map (fun e => if e.1.id = k.id then (e.1, ⟨v, e.2.terms⟩) else e) }

/-- Membership of the intrusive lists, by id (the source's Dummy-tag flag). -/
def onList (l : List amcw_Symbol) (k : amcw_Symbol) : Bool := l.any (fun x => x.id == k.id)

/-- C `amcw_infeasible`: enqueue the row keyed `k` when its constant is
negative and it is not already on the list. -/
def amcw_infeasible (s : amcw_Solver) (k : amcw_Symbol) : amcw_Solver :=
  match getRow s k with
  | none => s
  | some r =>
    if r.constant < 0 then
      if onList s.infeasible_rows k then s
      else { s with infeasible_rows := k :: s.infeasible_rows }
    else s

/-- C `amcw_markdirty` on a variable record. -/
def amcw_markdirty (s : amcw_Solver) (v : amcw_Var) : amcw_Solver :=
  if onList s.dirty_vars v.sym then s
  else { s with dirty_vars := v.sym :: s.dirty_vars }

/-- C `amcw_markdirty(solver, amcw_sym2var(solver, k))`; `amcw_sym2var` asserts
the variable exists, so a missing entry (undefined in C) is a no-op here. -/
def markdirtySym (s : amcw_Solver) (k : amcw_Symbol) : amcw_Solver :=
  match getVar s k with
  | none => s
  | some v => amcw_markdirty s v

/-- C `amcw_initsymbol`: allocate only when the symbol is null. -/
def initsymbol (s : amcw_Solver) (sym : amcw_Symbol) (ty : SymType) : amcw_Solver × amcw_Symbol :=
  if sym.id = 0 then
    let p := amcw_newsymbol s.symbol_count ty
    ({ s with symbol_count := p.2 }, p.1)
  else (s, sym)

/-- C `amcw_mergerow`: add `m` times the row basic in `var` (when there is
one), else `m * var` itself. -/
def amcw_mergerow (s : amcw_Solver) (row : amcw_Row) (var : amcw_Symbol) (m : amcw_Num) : amcw_Row :=
  match getRow s var with
  | some oldrow => amcw_addrow row oldrow m
  | none => amcw_addvar row var m

/-- `amcw_mergerow` targeted at the solver's objective. -/
def mergerowObj (s : amcw_Solver) (var : amcw_Symbol) (m : amcw_Num) : amcw_Solver :=
  { s with objective := amcw_mergerow s s.objective var m }

/-! ## Variable and constraint registry -/

/-- C `amcw_value`: null handle reads 0, otherwise the cached value field. -/
def amcw_value : Option amcw_Var → amcw_Num
  | none => 0
  | some v => v.value

/-- C `amcw_variableid`: -1 for a null handle. -/
def amcw_variableid : Option amcw_Var → Int
  | none => -1
  | some v => (v.sym.id : Int)

/-- C `amcw_newvariable`: fresh external symbol, refcount 1. -/
def amcw_newvariable (s : amcw_Solver) : amcw_Solver × amcw_Symbol :=
  let p := amcw_newsymbol s.symbol_count SymType.external
  ({ s with symbol_count := p.2,
            vars := s.vars ++ [(p.1, ⟨p.1, 1, none, 0, 0⟩)] }, p.1)

/-- C `amcw_newconstraint`: near-zero strength normalizes to REQUIRED. -/
def amcw_newconstraint (s : amcw_Solver) (strength : amcw_Num) : amcw_Solver × Nat :=
  let st := if amcw_nearzero strength then AMCW_REQUIRED else strength
  let cid := s.constraint_count + 1
  ({ s with constraint_count := cid,
            constraints := s.constraints ++ [(cid, ⟨amcw_initrow, amcw_null, amcw_null, 0, st⟩)] },
   cid)

/-- C `amcw_addterm`: fails on null handles or an installed constraint; a GE
relation negates the multiplier; the referenced variable gains a refcount. -/
def amcw_addterm (s : amcw_Solver) (cid : Nat) (vk : amcw_Symbol) (m : amcw_Num) : amcw_Solver × Int :=
  match getCons s cid, getVar s vk with
  | some cons, some v =>
    if cons.marker.id ≠ 0 then (s, AMCW_FAILED)
    else
      let m1 := if cons.relation = AMCW_GREATEQUAL then -m else m
      let s1 := putCons s cid { cons with expression := amcw_addvar cons.expression v.sym m1 }
      (updateVar s1 vk (fun v => { v with refcount := v.refcount + 1 }), AMCW_OK)
  | _, _ => (s, AMCW_FAILED)

/-- C `amcw_addconstant`: GE subtracts. -/
def amcw_addconstant (s : amcw_Solver) (cid : Nat) (c : amcw_Num) : amcw_Solver × Int :=
  match getCons s cid with
  | none => (s, AMCW_FAILED)
  | some cons =>
    if cons.marker.id ≠ 0 then (s, AMCW_FAILED)
    else
      let expr : amcw_Row :=
        ⟨qadd cons.expression.constant (if cons.relation = AMCW_GREATEQUAL then -c else c),
         cons.expression.terms⟩
      (putCons s cid { cons with expression := expr }, AMCW_OK)

/-- C `amcw_setrelation`: only settable once on an uninstalled constraint;
any relation other than GE flips the sign of the stored expression. -/
def amcw_setrelation (s : amcw_Solver) (cid : Nat) (relation : Nat) : amcw_Solver × Int :=
  match getCons s cid with
  | none => (s, AMCW_FAILED)
  | some cons =>
    if cons.marker.id ≠ 0 ∨ cons.relation ≠ 0 then (s, AMCW_FAILED)
    else
      let expr := if relation ≠ AMCW_GREATEQUAL then amcw_multiply cons.expression (-1) else cons.expression
      (putCons s cid { cons with expression := expr, relation := relation }, AMCW_OK)

/-- C `amcw_mergeconstraint`: `cons.expression += m * other.expression`
(sign-flipped under GE), taking a reference on every mentioned variable. -/
def amcw_mergeconstraint (s : amcw_Solver) (cid otherId : Nat) (m : amcw_Num) : amcw_Solver × Int :=
  match getCons s cid, getCons s otherId with
  | some cons, some other =>
    if cons.marker.id ≠ 0 then (s, AMCW_FAILED)
    else
      let m1 := if cons.relation = AMCW_GREATEQUAL then -m else m
      let s1 := other.expression.terms.foldl
        (fun st t => updateVar st t.1 (fun v => { v with refcount := v.refcount + 1 })) s
      let expr := amcw_addrow cons.expression other.expression m1
      (putCons s1 cid { cons with expression := expr }, AMCW_OK)
  | _, _ => (s, AMCW_FAILED)

/-! ## Tableau / pivot engine -/

/-- One step of C `amcw_substitute_rows`'s loop: substitute into the row keyed
`k`; an external key marks its variable dirty, any other key is checked for
infeasibility. -/
def substRowsStep (var : amcw_Symbol) (expr : amcw_Row) (s : amcw_Solver) (k : amcw_Symbol) : amcw_Solver :=
  let rs := s.rows.map (fun e => if e.1.id = k.id then (e.1, amcw_substitute e.2 var expr) else e)
  let s1 := { s with rows := rs }
  if amcw_isexternal k then markdirtySym s1 k else amcw_infeasible s1 k

/-- C `amcw_substitute_rows`: substitute into every row, then the objective.
The loop mutates rows in place and never adds or removes a key, so folding
over the key list in iteration order is the loop. -/
def amcw_substitute_rows (s : amcw_Solver) (var : amcw_Symbol) (expr : amcw_Row) : amcw_Solver :=
  let s1 := (s.rows.map (fun e => e.1)).foldl (substRowsStep var expr) s
  { s1 with objective := amcw_substitute s1.objective var expr }

/-- Enter selection in C `amcw_optimize`: the first non-dummy objective term
with a negative coefficient (null when none). -/
def chooseEnter (obj : amcw_Row) : amcw_Symbol :=
  match obj.terms.find? (fun t => !(amcw_isdummy t.1) && decide (t.2 < 0)) with
  | some t => t.1
  | none => amcw_null

/-- One candidate step of the leaving-row scan in C `amcw_optimize`:
skip rows not containing the entering symbol, rows with a non-pivotable key,
and rows with positive entering coefficient; otherwise replace the current
candidate when the ratio improves, or on an approximately equal ratio with a
smaller row-key id. -/
def leaveStep (enterSym : amcw_Symbol) (acc : amcw_Num × amcw_Symbol)
    (e : amcw_Symbol × amcw_Row) : amcw_Num × amcw_Symbol :=
  match lookupTerm e.2.terms enterSym with
  | none => acc
  | some c =>
    if !(amcw_ispivotable e.1) || decide (c > 0) then acc
    else
      let r := qdiv (-e.2.constant) c
      if decide (r < acc.1) || (amcw_approx r acc.1 && decide (e.1.id < acc.2.id)) then (r, e.1)
      else acc

/-- Leaving-row selection in C `amcw_optimize` (null when no candidate). -/
def chooseLeave (s : amcw_Solver) (enterSym : amcw_Symbol) : amcw_Symbol :=
  (s.rows.foldl (leaveStep enterSym) (AMCW_NUM_MAX, amcw_null)).2

/-- C `amcw_optimize` called on `&solver->objective` (so the loop's final
substitute into the external objective is skipped).  `fuel` bounds the number
of pivots; the source loops without bound.  A missing leaving row returns
`AMCW_FAILED` (the source asserts). -/
def amcw_optimize_main : Nat → amcw_Solver → amcw_Solver × Int
  | 0, s => (s, AMCW_FAILED)
  | fuel + 1, s =>
    let enterSym := chooseEnter s.objective
    if enterSym.id = 0 then (s, AMCW_OK)
    else
      let exitSym := chooseLeave s enterSym
      if exitSym.id = 0 then (s, AMCW_FAILED)
      else
        match amcw_takerow s exitSym with
        | (s1, none) => (s1, AMCW_FAILED)
        | (s1, some tmp0) =>
          let tmp := amcw_solvefor tmp0 enterSym exitSym
          let s2 := amcw_substitute_rows s1 enterSym tmp
          amcw_optimize_main fuel (amcw_putrow s2 enterSym tmp)

/-- C `amcw_optimize` called on a temporary objective (the artificial-variable
procedure): the entering symbol comes from that row, and after the shared
substitution it is substituted as well. -/
def amcw_optimize_aux : Nat → amcw_Solver → amcw_Row → amcw_Solver × amcw_Row × Int
  | 0, s, obj => (s, obj, AMCW_FAILED)
  | fuel + 1, s, obj =>
    let enterSym := chooseEnter obj
    if enterSym.id = 0 then (s, obj, AMCW_OK)
    else
      let exitSym := chooseLeave s enterSym
      if exitSym.id = 0 then (s, obj, AMCW_FAILED)
      else
        match amcw_takerow s exitSym with
        | (s1, none) => (s1, obj, AMCW_FAILED)
        | (s1, some tmp0) =>
          let tmp := amcw_solvefor tmp0 enterSym exitSym
          let s2 := amcw_substitute_rows s1 enterSym tmp
          let obj2 := amcw_substitute obj enterSym tmp
          amcw_optimize_aux fuel (amcw_putrow s2 enterSym tmp) obj2

/-- The value C `amcw_updatevars` publishes for a variable whose symbol is
`k`: the constant of the row keyed by it, or 0 when it is not basic. -/
def rowConstOr0 (s : amcw_Solver) (k : amcw_Symbol) : amcw_Num :=
  match getRow s k with
  | some r => r.constant
  | none => 0

/-- C `amcw_updatevars`'s loop body over the dirty list: publish the basic
row's constant (0 when the variable is not basic).  `amcw_sym2var` asserts the
variable exists; a missing one is skipped here. -/
def updList : List amcw_Symbol → amcw_Solver → amcw_Solver
  | [], s => s
  | k :: rest, s =>
    let s1 :=
      match getVar s k with
      | none => s
      | some v => updateVar s k (fun v => { v with value := rowConstOr0 s v.sym })
    updList rest s1

/-- C `amcw_updatevars`: drain the dirty list. -/
def amcw_updatevars (s : amcw_Solver) : amcw_Solver :=
  let s1 := updList s.dirty_vars s
  { s1 with dirty_vars := [] }

/-- The final sign-normalization of C `amcw_makerow`: a negative constant
flips the whole row. -/
def flipIfNeg (r : amcw_Row) : amcw_Row :=
  if r.constant < 0 then amcw_multiply r (-1) else r

/-- The merge loop of C `amcw_makerow`: each expression term marks its
variable dirty and is merged (substituting rows that are already basic). -/
def makerowMerge (s : amcw_Solver) (cons : amcw_Constraint) : amcw_Solver × amcw_Row :=
  cons.expression.terms.foldl
    (fun acc t =>
      let s1 := markdirtySym acc.1 t.1
      (s1, amcw_mergerow s1 acc.2 t.1 t.2))
    (s, ⟨cons.expression.constant, []⟩)

/-- C `amcw_makerow`: compile the constraint into a canonical row, allocating
marker/other symbols and adding error terms to the objective per the
relation/strength table; finally flip the row if its constant is negative. -/
def amcw_makerow (s : amcw_Solver) (cons : amcw_Constraint) : amcw_Solver × amcw_Constraint × amcw_Row :=
  let p := makerowMerge s cons
  let s1 := p.1
  let row1 := p.2
  if cons.relation ≠ AMCW_EQUAL then
    let q := initsymbol s1 cons.marker SymType.slack
    let s2 := q.1
    let marker := q.2
    let row2 := amcw_addvar row1 marker (-1)
    if cons.strength < AMCW_REQUIRED then
      let q2 := initsymbol s2 cons.other SymType.error
      let s3 := q2.1
      let otherSym := q2.2
      let row3 := amcw_addvar row2 otherSym 1
      let s4 := { s3 with objective := amcw_addvar s3.objective otherSym cons.strength }
      (s4, { cons with marker := marker, other := otherSym }, flipIfNeg row3)
    else
      (s2, { cons with marker := marker }, flipIfNeg row2)
  else if cons.strength ≥ AMCW_REQUIRED then
    let q := initsymbol s1 cons.marker SymType.dummy
    let row2 := amcw_addvar row1 q.2 1
    (q.1, { cons with marker := q.2 }, flipIfNeg row2)
  else
    let q := initsymbol s1 cons.marker SymType.error
    let s2 := q.1
    let marker := q.2
    let q2 := initsymbol s2 cons.other SymType.error
    let s3 := q2.1
    let otherSym := q2.2
    let row2 := amcw_addvar (amcw_addvar row1 marker (-1)) otherSym 1
    let obj := amcw_addvar (amcw_addvar s3.objective marker cons.strength) otherSym cons.strength
    ({ s3 with objective := obj }, { cons with marker := marker, other := otherSym }, flipIfNeg row2)

/-- C `amcw_remove_errors`: subtract the strength contribution of each error
marker from the objective, zero the objective constant if it became constant,
and null both markers. -/
def amcw_remove_errors (s : amcw_Solver) (cons : amcw_Constraint) : amcw_Solver × amcw_Constraint :=
  let s1 := if amcw_iserror cons.marker then mergerowObj s cons.marker (-cons.strength) else s
  let s2 := if amcw_iserror cons.other then mergerowObj s1 cons.other (-cons.strength) else s1
  let s3 := if amcw_isconstant s2.objective then { s2 with objective := ⟨0, s2.objective.terms⟩ } else s2
  (s3, { cons with marker := amcw_null, other := amcw_null })

/-- Accumulator of C `amcw_get_leaving_row`'s scan. -/
structure LeaveAcc where
  r1 : amcw_Num
  first : amcw_Symbol
  r2 : amcw_Num
  second : amcw_Symbol
  third : amcw_Symbol
deriving DecidableEq, Repr

/-- C `amcw_get_leaving_row`: prefer rows where the marker is negative (by
ratio), then non-external rows with positive marker (by ratio), then any
external row. -/
def amcw_get_leaving_row (s : amcw_Solver) (marker : amcw_Symbol) : amcw_Symbol :=
  let fin := s.rows.foldl
    (fun (acc : LeaveAcc) e =>
      match lookupTerm e.2.terms marker with
      | none => acc
      | some c =>
        if amcw_isexternal e.1 then { acc with third := e.1 }
        else if c < 0 then
          let r := qdiv (-e.2.constant) c
          if r < acc.r1 then { acc with r1 := r, first := e.1 } else acc
        else
          let r := qdiv e.2.constant c
          if r < acc.r2 then { acc with r2 := r, second := e.1 } else acc)
    ⟨AMCW_NUM_MAX, amcw_null, AMCW_NUM_MAX, amcw_null, amcw_null⟩
  if fin.first.id ≠ 0 then fin.first
  else if fin.second.id ≠ 0 then fin.second
  else fin.third

/-- C `amcw_remove` on a constraint record (`amcw_remove` is also called
internally on records not yet written back to the table).  When the marker is
not basic and `amcw_get_leaving_row` finds nothing the source's assertion
fails (undefined in release); the model skips the pivot. -/
def amcw_removeC (fuel : Nat) (s : amcw_Solver) (cons : amcw_Constraint) : amcw_Solver × amcw_Constraint :=
  if cons.marker.id = 0 then (s, cons)
  else
    let marker := cons.marker
    let p := amcw_remove_errors s cons
    let s1 := p.1
    let s2 :=
      match amcw_takerow s1 marker with
      | (sA, some _) => sA
      | (sA, none) =>
        let exitSym := amcw_get_leaving_row sA marker
        if exitSym.id = 0 then sA
        else
          match amcw_takerow sA exitSym with
          | (sB, some tmp) => amcw_substitute_rows sB marker (amcw_solvefor tmp marker exitSym)
          | (sB, none) => sB
    let s3 := (amcw_optimize_main fuel s2).1
    (if s3.auto_update then amcw_updatevars s3 else s3, p.2)

/-- Public C `amcw_remove`, by constraint id (null or uninstalled: no-op). -/
def amcw_remove (fuel : Nat) (s : amcw_Solver) (cid : Nat) : amcw_Solver :=
  match getCons s cid with
  | none => s
  | some cons =>
    if cons.marker.id = 0 then s
    else
      let p := amcw_removeC fuel s cons
      putCons p.1 cid p.2

/-- The column-deletion loop at the end of C `amcw_add_with_artificial`:
erase the artificial's term from every row and from the objective. -/
def delColA (s : amcw_Solver) (a : amcw_Symbol) : amcw_Solver :=
  if a.id = 0 then s
  else
    { s with
      rows := s.rows.map (fun e => (e.1, ⟨e.2.constant, eraseTerm e.2.terms a⟩)),
      objective := ⟨s.objective.constant, eraseTerm s.objective.terms a⟩ }

/-- The tail of C `amcw_add_with_artificial`: on a non-OK result the
constraint is removed. -/
def artFinish (fuel : Nat) (s : amcw_Solver) (cons : amcw_Constraint) (ret : Int) :
    amcw_Solver × amcw_Constraint × Int :=
  if ret ≠ AMCW_OK then
    let p := amcw_removeC fuel s cons
    (p.1, p.2, ret)
  else (s, cons, ret)

/-- C `amcw_add_with_artificial`: install the row under an ephemeral slack
symbol `a` (the counter is immediately decremented), minimize a copy of the
row, declare UNBOUND unless the minimum is near zero, then eliminate `a`
(pivoting it out if still basic), and on failure remove the constraint.
The two early returns (a basic constant `a`-row, and no pivotable entry in
`a`'s row) skip both the column deletion and the removal, as in the source. -/
def amcw_add_with_artificial (fuel : Nat) (s : amcw_Solver) (row : amcw_Row)
    (cons : amcw_Constraint) : amcw_Solver × amcw_Constraint × Int :=
  let pa := amcw_newsymbol s.symbol_count SymType.slack
  let a := pa.1
  let s0 := { s with symbol_count := pa.2 - 1 }
  let tmp := amcw_addrow amcw_initrow row 1
  let s1 := amcw_putrow s0 a row
  let res := amcw_optimize_aux fuel s1 tmp
  let s2 := res.1
  let ret := if amcw_nearzero res.2.1.constant then AMCW_OK else AMCW_UNBOUND
  match amcw_takerow s2 a with
  | (s3, some tmp3) =>
    if amcw_isconstant tmp3 then (s3, cons, ret)
    else
      match tmp3.terms.find? (fun t => amcw_ispivotable t.1) with
      | none => (s3, cons, AMCW_UNBOUND)
      | some te =>
        let tmp4 := amcw_solvefor tmp3 te.1 a
        let s4 := amcw_putrow (amcw_substitute_rows s3 te.1 tmp4) te.1 tmp4
        artFinish fuel (delColA s4 a) cons ret
  | (s3, none) => artFinish fuel (delColA s3 a) cons ret

/-- The subject-installation tail of C `amcw_try_addrow`: solve the row for
the subject, substitute everywhere, and store it. -/
def tryAddPivot (s : amcw_Solver) (row : amcw_Row) (cons : amcw_Constraint)
    (subject : amcw_Symbol) : amcw_Solver × amcw_Constraint × Int :=
  let row1 := amcw_solvefor row subject amcw_null
  let s1 := amcw_substitute_rows s subject row1
  (amcw_putrow s1 subject row1, cons, AMCW_OK)

/-- C `amcw_try_addrow`: pick a subject (first external term; else the marker
or other when pivotable with negative coefficient; else, when only dummy
terms remain, the marker for a near-zero constant and UNSATISFIED otherwise;
else the artificial-variable procedure).  The source dereferences the
marker/other term lookups unconditionally; an absent term (which cannot occur
for rows built by `amcw_makerow`) selects no subject here. -/
def amcw_try_addrow (fuel : Nat) (s : amcw_Solver) (row : amcw_Row)
    (cons : amcw_Constraint) : amcw_Solver × amcw_Constraint × Int :=
  let subj0 :=
    match row.terms.find? (fun t => amcw_isexternal t.1) with
    | some t => t.1
    | none => amcw_null
  let subj1 :=
    if subj0.id = 0 && amcw_ispivotable cons.marker then
      match lookupTerm row.terms cons.marker with
      | some c => if c < 0 then cons.marker else amcw_null
      | none => amcw_null
    else subj0
  let subj2 :=
    if subj1.id = 0 && amcw_ispivotable cons.other then
      match lookupTerm row.terms cons.other with
      | some c => if c < 0 then cons.other else amcw_null
      | none => amcw_null
    else subj1
  if subj2.id ≠ 0 then tryAddPivot s row cons subj2
  else if row.terms.all (fun t => amcw_isdummy t.1) then
    if amcw_nearzero row.constant then
      if cons.marker.id ≠ 0 then tryAddPivot s row cons cons.marker
      else amcw_add_with_artificial fuel s row cons
    else (s, cons, AMCW_UNSATISFIED)
  else amcw_add_with_artificial fuel s row cons

/-- C `amcw_add`: compile the row, try to install it, and on failure roll
back (markers cleared by `amcw_remove_errors`, symbol counter restored); on
success run primal simplex and optionally publish. -/
def amcw_add (fuel : Nat) (s : amcw_Solver) (cid : Nat) : amcw_Solver × Int :=
  match getCons s cid with
  | none => (s, AMCW_FAILED)
  | some cons =>
    if cons.marker.id ≠ 0 then (s, AMCW_FAILED)
    else
      let oldsym := s.symbol_count
      let p := amcw_makerow s cons
      let q := amcw_try_addrow fuel p.1 p.2.2 p.2.1
      let ret := q.2.2
      if ret ≠ AMCW_OK then
        let r := amcw_remove_errors q.1 q.2.1
        (putCons { r.1 with symbol_count := oldsym } cid r.2, ret)
      else
        let s3 := putCons q.1 cid q.2.1
        let s4 := (amcw_optimize_main fuel s3).1
        (if s4.auto_update then amcw_updatevars s4 else s4, AMCW_OK)

/-! ## Strength changes, edits, suggestions -/

/-- C `amcw_setstrength`: near-zero normalizes to REQUIRED; equal strength is
a no-op returning OK; crossing the REQUIRED boundary re-adds; otherwise an
installed constraint's error coefficients in the objective are adjusted by
the difference and the objective re-optimized. -/
def amcw_setstrength (fuel : Nat) (s : amcw_Solver) (cid : Nat) (strength : amcw_Num) :
    amcw_Solver × Int :=
  match getCons s cid with
  | none => (s, AMCW_FAILED)
  | some cons =>
    let strength := if amcw_nearzero strength then AMCW_REQUIRED else strength
    if cons.strength = strength then (s, AMCW_OK)
    else if cons.strength ≥ AMCW_REQUIRED ∨ strength ≥ AMCW_REQUIRED then
      let p := amcw_removeC fuel s cons
      let s2 := putCons p.1 cid { p.2 with strength := strength }
      amcw_add fuel s2 cid
    else
      let s1 :=
        if cons.marker.id ≠ 0 then
          let diff := qsub strength cons.strength
          let sA := mergerowObj (mergerowObj s cons.marker diff) cons.other diff
          let sB := (amcw_optimize_main fuel sA).1
          if sB.auto_update then amcw_updatevars sB else sB
        else s
      (putCons s1 cid { cons with strength := strength }, AMCW_OK)

/-- C `amcw_hasedit`. -/
def amcw_hasedit (s : amcw_Solver) (vk : amcw_Symbol) : Bool :=
  match getVar s vk with
  | some v => v.constraintId.isSome
  | none => false

/-- C `amcw_hasconstraint`. -/
def amcw_hasconstraint (s : amcw_Solver) (cid : Nat) : Bool :=
  match getCons s cid with
  | some cons => cons.marker.id ≠ 0
  | none => false

/-- C `amcw_autoupdate`. -/
def amcw_autoupdate (s : amcw_Solver) (b : Bool) : amcw_Solver :=
  { s with auto_update := b }

/-- C `amcw_addedit`: cap the strength at STRONG; re-strengthen an existing
edit via `amcw_setstrength`; otherwise build and add the internal equality
`v = value` (the failed-add assertion is compiled out, so OK is returned and
the constraint recorded regardless). -/
def amcw_addedit (fuel : Nat) (s : amcw_Solver) (vk : amcw_Symbol) (strength : amcw_Num) :
    amcw_Solver × Int :=
  match getVar s vk with
  | none => (s, AMCW_FAILED)
  | some v =>
    let strength := if strength ≥ AMCW_STRONG then AMCW_STRONG else strength
    match v.constraintId with
    | some cid => amcw_setstrength fuel s cid strength
    | none =>
      let p := amcw_newconstraint s strength
      let s1 := p.1
      let cid := p.2
      let s2 := (amcw_setrelation s1 cid AMCW_EQUAL).1
      let s3 := (amcw_addterm s2 cid vk 1).1
      let s4 := (amcw_addconstant s3 cid (-v.value)).1
      let s5 := (amcw_add fuel s4 cid).1
      let s6 := updateVar s5 vk (fun v => { v with constraintId := some cid, edit_value := v.value })
      (s6, AMCW_OK)

/-- One row of the third case of C `amcw_delta_edit_constant`: a row
containing the marker as a term gets `coeff * delta` added to its constant;
external keys mark their variable dirty, others are checked infeasible. -/
def deltaStep (delta : amcw_Num) (marker : amcw_Symbol) (s : amcw_Solver) (k : amcw_Symbol) :
    amcw_Solver :=
  match getRow s k with
  | none => s
  | some r =>
    match lookupTerm r.terms marker with
    | none => s
    | some c =>
      let s1 := setRowConst s k (qadd r.constant (qmul c delta))
      if amcw_isexternal k then markdirtySym s1 k else amcw_infeasible s1 k

/-- C `amcw_delta_edit_constant`: apply `delta` to the edit constraint's
marker row (constant -= delta) or other row (constant += delta) when basic,
else to every row containing the marker as a term. -/
def amcw_delta_edit_constant (s : amcw_Solver) (delta : amcw_Num) (cons : amcw_Constraint) :
    amcw_Solver :=
  match getRow s cons.marker with
  | some r => amcw_infeasible (setRowConst s cons.marker (qsub r.constant delta)) cons.marker
  | none =>
    match getRow s cons.other with
    | some r => amcw_infeasible (setRowConst s cons.other (qadd r.constant delta)) cons.other
    | none => (s.rows.map (fun e => e.1)).foldl (deltaStep delta cons.marker) s

/-- Enter selection of C `amcw_dual_optimize`: among the infeasible row's
non-dummy terms with positive coefficient, minimize the objective coefficient
(0 when absent) over the term coefficient; the first minimum wins. -/
def dualEnter (s : amcw_Solver) (r : amcw_Row) : amcw_Symbol :=
  (r.terms.foldl
    (fun (acc : amcw_Num × amcw_Symbol) t =>
      if amcw_isdummy t.1 || decide (t.2 ≤ 0) then acc
      else
        let rq := match lookupTerm s.objective.terms t.1 with
          | some oc => qdiv oc t.2
          | none => 0
        if acc.1 > rq then (rq, t.1) else acc)
    (AMCW_NUM_MAX, amcw_null)).2

/-- C `amcw_dual_optimize`: drain the infeasible list, re-pivoting each still
negative row on its selected entering symbol.  The source asserts the popped
key is still basic and that an entering symbol exists; the model skips such
rows.  `fuel` bounds the iterations. -/
def amcw_dual_optimize : Nat → amcw_Solver → amcw_Solver
  | 0, s => s
  | fuel + 1, s =>
    match s.infeasible_rows with
    | [] => s
    | leave :: rest =>
      let s0 := { s with infeasible_rows := rest }
      match getRow s0 leave with
      | none => amcw_dual_optimize fuel s0
      | some r =>
        if amcw_nearzero r.constant || decide (r.constant ≥ 0) then amcw_dual_optimize fuel s0
        else
          let enterSym := dualEnter s0 r
          if enterSym.id = 0 then amcw_dual_optimize fuel s0
          else
            match amcw_takerow s0 leave with
            | (s1, none) => amcw_dual_optimize fuel s1
            | (s1, some tmp0) =>
              let tmp := amcw_solvefor tmp0 enterSym leave
              let s2 := amcw_substitute_rows s1 enterSym tmp
              amcw_dual_optimize fuel (amcw_putrow s2 enterSym tmp)

/-- C `amcw_suggest`: auto-install a MEDIUM edit when none exists, compute
`delta = value - edit_value`, store the new edit value, apply the delta to
the edit constraint's rows, run dual simplex, optionally publish. -/
def amcw_suggest (fuel : Nat) (s : amcw_Solver) (vk : amcw_Symbol) (value : amcw_Num) :
    amcw_Solver :=
  match getVar s vk with
  | none => s
  | some v =>
    let s1 := if v.constraintId.isSome then s else (amcw_addedit fuel s vk AMCW_MEDIUM).1
    match getVar s1 vk with
    | none => s1
    | some v1 =>
      match v1.constraintId.bind (getCons s1) with
      | none => s1
      | some cons =>
        let delta := qsub value v1.edit_value
        let s2 := updateVar s1 vk (fun v => { v with edit_value := value })
        let s3 := amcw_delta_edit_constant s2 delta cons
        let s4 := amcw_dual_optimize fuel s3
        if s4.auto_update then amcw_updatevars s4 else s4

/-- C `amcw_delvariable`: decrement the refcount; at zero drop the table
entry, remove the owning edit constraint, and free the record. -/
def amcw_delvariable (fuel : Nat) (s : amcw_Solver) (vk : amcw_Symbol) : amcw_Solver :=
  match getVar s vk with
  | none => s
  | some v =>
    if v.refcount ≤ 1 then
      let s1 := { s with vars := s.vars.filter (fun e => !(e.1.id == vk.id)) }
      match v.constraintId with
      | none => s1
      | some cid => amcw_remove fuel s1 cid
    else updateVar s vk (fun v => { v with refcount := v.refcount - 1 })

/-- C `amcw_delconstraint`: remove, drop the table entry, release every
referenced variable, free the record. -/
def amcw_delconstraint (fuel : Nat) (s : amcw_Solver) (cid : Nat) : amcw_Solver :=
  match getCons s cid with
  | none => s
  | some cons =>
    let p := amcw_removeC fuel s cons
    let s1 := { p.1 with constraints := p.1.constraints.filter (fun e => !(e.1 == cid)) }
    p.2.expression.terms.foldl (fun st t => amcw_delvariable fuel st t.1) s1

/-- C `amcw_resetconstraint`: remove, clear the relation, release referenced
variables, empty the expression. -/
def amcw_resetconstraint (fuel : Nat) (s : amcw_Solver) (cid : Nat) : amcw_Solver :=
  match getCons s cid with
  | none => s
  | some cons =>
    let p := amcw_removeC fuel s cons
    let s1 := p.2.expression.terms.foldl (fun st t => amcw_delvariable fuel st t.1) p.1
    putCons s1 cid { p.2 with relation := 0, expression := amcw_initrow }

/-- C `amcw_deledit`: delete the owning edit constraint and clear the link. -/
def amcw_deledit (fuel : Nat) (s : amcw_Solver) (vk : amcw_Symbol) : amcw_Solver :=
  match getVar s vk with
  | none => s
  | some v =>
    match v.constraintId with
    | none => s
    | some cid =>
      let s1 := amcw_delconstraint fuel s cid
      updateVar s1 vk (fun v => { v with constraintId := none, edit_value := 0 })

/-- C `amcw_cloneconstraint`: a fresh constraint with the same expression,
relation, and (unless overridden) strength. -/
def amcw_cloneconstraint (s : amcw_Solver) (otherId : Nat) (strength : amcw_Num) :
    amcw_Solver × Option Nat :=
  match getCons s otherId with
  | none => (s, none)
  | some other =>
    let st := if amcw_nearzero strength then other.strength else strength
    let p := amcw_newconstraint s st
    let s1 := (amcw_mergeconstraint p.1 p.2 otherId 1).1
    match getCons s1 p.2 with
    | none => (s1, some p.2)
    | some c => (putCons s1 p.2 { c with relation := other.relation }, some p.2)

end AmCassowary

namespace AmCassowary

/-! ## Generic helpers -/

theorem foldl_preserve {α β : Type _} (P : β → Prop) (f : β → α → β) :
    ∀ (l : List α) (b : β), P b → (∀ b a, a ∈ l → P b → P (f b a)) → P (l.foldl f b)
  | [], b, hb, _ => hb
  | a :: l, b, hb, hf =>
    foldl_preserve P f l (f b a) (hf b a (List.mem_cons_self a l) hb)
      (fun b x hx hb => hf b x (List.mem_cons_of_mem a hx) hb)

/-! ## C9: null-variable value read -/

/-- C9: `amcw_value` on a null variable handle returns 0 without failing, and
on a non-null handle returns exactly the cached `value` field. -/
theorem c9_value_read :
    amcw_value none = 0 ∧ ∀ v : amcw_Var, amcw_value (some v) = v.value :=
  ⟨rfl, fun _ => rfl⟩

/-! ## C4: symbol allocation -/

/-- C4 counterexample: with the counter at `2^30 - 1` (the top of the id
range), the next allocation wraps to id 1, which is not strictly greater
than the previously issued id `2^30 - 1`: monotonicity fails at wraparound. -/
theorem c4_counterexample :
    (amcw_newsymbol 0x3FFFFFFF SymType.external).1.id = 1 ∧
    ¬ (0x3FFFFFFF < (amcw_newsymbol 0x3FFFFFFF SymType.external).1.id) := by
  constructor
  · rfl
  · decide

/-- C4 (amended): every issued id lies in `1 .. 2^30 - 1` and the counter
equals the issued id; the id is strictly greater than the previous counter
value whenever the counter has not yet reached `2^30 - 1`, and wraps to 1
otherwise. -/
theorem c4_symbol_allocation (count : Nat) (ty : SymType) :
    1 ≤ (amcw_newsymbol count ty).1.id ∧
    (amcw_newsymbol count ty).1.id ≤ 0x3FFFFFFF ∧
    (amcw_newsymbol count ty).2 = (amcw_newsymbol count ty).1.id ∧
    (amcw_newsymbol count ty).1.type = ty ∧
    (count < 0x3FFFFFFF → (amcw_newsymbol count ty).1.id = count + 1 ∧ count < (amcw_newsymbol count ty).1.id) ∧
    (0x3FFFFFFF ≤ count → (amcw_newsymbol count ty).1.id = 1) := by
  by_cases h : count + 1 > 0x3FFFFFFF
  · have he : amcw_newsymbol count ty = (⟨1, ty⟩, 1) := by
      unfold amcw_newsymbol; rw [if_pos h]
    rw [he]
    exact ⟨by show (1:ℕ) ≤ 1; omega, by show (1:ℕ) ≤ 0x3FFFFFFF; omega, rfl, rfl,
      fun hlt => absurd hlt (by omega), fun _ => rfl⟩
  · have he : amcw_newsymbol count ty = (⟨count + 1, ty⟩, count + 1) := by
      unfold amcw_newsymbol; rw [if_neg h]
    rw [he]
    exact ⟨by show 1 ≤ count + 1; omega, by show count + 1 ≤ 0x3FFFFFFF; omega, rfl, rfl,
      fun _ => ⟨rfl, by show count < count + 1; omega⟩, fun hge => absurd hge (by omega)⟩

/-- C4 witness: a concrete non-wrapping allocation. -/
theorem c4_symbol_allocation_witness :
    (amcw_newsymbol 5 SymType.slack).1.id = 5 + 1 ∧ 5 < (amcw_newsymbol 5 SymType.slack).1.id :=
  (c4_symbol_allocation 5 SymType.slack).2.2.2.2.1 (by omega)

/-! ## C10: set_strength no-op on equal strength -/

/-- C10: when the normalized strength (REQUIRED for near-zero, otherwise the
argument) equals the constraint's current strength, `amcw_setstrength`
returns OK and the whole solver state is unchanged. -/
theorem c10_setstrength_noop (fuel : Nat) (s : amcw_Solver) (cid : Nat)
    (strength : amcw_Num) (cons : amcw_Constraint)
    (hc : getCons s cid = some cons)
    (heq : (if amcw_nearzero strength then AMCW_REQUIRED else strength) = cons.strength) :
    amcw_setstrength fuel s cid strength = (s, AMCW_OK) := by
  unfold amcw_setstrength
  rw [hc]
  simp only [heq, if_pos rfl, if_true, eq_self_iff_true]

/-- A one-constraint solver state used to exercise `c10_setstrength_noop`. -/
def w10state : amcw_Solver :=
  { amcw_newsolver with
    constraint_count := 1,
    constraints := [(1, ⟨amcw_initrow, amcw_null, amcw_null, AMCW_EQUAL, AMCW_WEAK⟩)] }

/-- C10 witness: a concrete equal-strength call leaves the state unchanged. -/
theorem c10_setstrength_noop_witness :
    amcw_setstrength 3 w10state 1 AMCW_WEAK = (w10state, AMCW_OK) :=
  c10_setstrength_noop 3 w10state 1 AMCW_WEAK
    ⟨amcw_initrow, amcw_null, amcw_null, AMCW_EQUAL, AMCW_WEAK⟩ (by decide) (by decide)

/-! ## C8: row term normalization -/

/-- No stored term coefficient is within EPS of zero. -/
def NoNearZeroTerms (ts : Terms) : Prop := ∀ t ∈ ts, amcw_nearzero t.2 = false

instance (ts : Terms) : Decidable (NoNearZeroTerms ts) := by
  unfold NoNearZeroTerms; infer_instance

theorem mem_addvarTerms (ts : Terms) (s : amcw_Symbol) (v : amcw_Num) :
    ∀ t ∈ addvarTerms ts s v, (t ∈ ts ∧ amcw_nearzero t.2 = false → False) →
      amcw_nearzero t.2 = false → True := by
  intro t _ _ _; trivial

theorem addvarTerms_nonearzero (ts : Terms) (s : amcw_Symbol) (v : amcw_Num)
    (h : NoNearZeroTerms ts) : NoNearZeroTerms (addvarTerms ts s v) := by
  induction ts with
  | nil =>
    intro t ht
    unfold addvarTerms at ht
    by_cases hz : amcw_nearzero v
    · rw [if_pos hz] at ht; exact absurd ht (List.not_mem_nil t)
    · rw [if_neg hz] at ht
      rcases List.mem_singleton.mp ht with rfl
      exact Bool.eq_false_iff.mpr hz
  | cons a as ih =>
    intro t ht
    unfold addvarTerms at ht
    by_cases hid : a.1.id = s.id
    · rw [if_pos hid] at ht
      by_cases hz : amcw_nearzero (qadd a.2 v)
      · rw [if_pos hz] at ht
        exact h t (List.mem_cons_of_mem a ht)
      · rw [if_neg hz] at ht
        rcases List.mem_cons.mp ht with rfl | hmem
        · exact Bool.eq_false_iff.mpr hz
        · exact h t (List.mem_cons_of_mem a hmem)
    · rw [if_neg hid] at ht
      rcases List.mem_cons.mp ht with rfl | hmem
      · exact h t (List.mem_cons_self _ _)
      · exact ih (fun u hu => h u (List.mem_cons_of_mem a hu)) t hmem

theorem mem_eraseTerm (ts : Terms) (k : amcw_Symbol) :
    ∀ t ∈ eraseTerm ts k, t ∈ ts := by
  induction ts with
  | nil => intro t ht; exact absurd ht (List.not_mem_nil t)
  | cons a as ih =>
    intro t ht
    unfold eraseTerm at ht
    by_cases hid : a.1.id = k.id
    · rw [if_pos hid] at ht; exact List.mem_cons_of_mem a ht
    · rw [if_neg hid] at ht
      rcases List.mem_cons.mp ht with rfl | hmem
      · exact List.mem_cons_self _ _
      · exact List.mem_cons_of_mem a (ih t hmem)

theorem addvar_nonearzero (r : amcw_Row) (s : amcw_Symbol) (v : amcw_Num)
    (h : NoNearZeroTerms r.terms) : NoNearZeroTerms (amcw_addvar r s v).terms := by
  unfold amcw_addvar
  by_cases h0 : s.id = 0
  · rw [if_pos h0]; exact h
  · rw [if_neg h0]; exact addvarTerms_nonearzero r.terms s v h

theorem addrow_nonearzero (r other : amcw_Row) (m : amcw_Num)
    (h : NoNearZeroTerms r.terms) : NoNearZeroTerms (amcw_addrow r other m).terms := by
  unfold amcw_addrow
  exact foldl_preserve (fun acc => NoNearZeroTerms acc.terms)
    (fun acc t => amcw_addvar acc t.1 (qmul t.2 m)) other.terms
    ⟨qadd r.constant (qmul other.constant m), r.terms⟩ h
    (fun acc t _ hacc => addvar_nonearzero acc t.1 (qmul t.2 m) hacc)

theorem substitute_nonearzero (r : amcw_Row) (entry : amcw_Symbol) (other : amcw_Row)
    (h : NoNearZeroTerms r.terms) : NoNearZeroTerms (amcw_substitute r entry other).terms := by
  unfold amcw_substitute
  cases hl : lookupTerm r.terms entry with
  | none => exact h
  | some c =>
    exact addrow_nonearzero ⟨r.constant, eraseTerm r.terms entry⟩ other c
      (fun t ht => h t (mem_eraseTerm r.terms entry t ht))

/-- C8 counterexample: `amcw_multiply` can scale a stored coefficient into
the near-zero band without dropping the term — a row satisfying the
invariant stops satisfying it, refuting the claim for `multiply`. -/
theorem c8_counterexample :
    NoNearZeroTerms ([(⟨1, SymType.slack⟩, 1)] : Terms) ∧
    amcw_multiply ⟨0, [(⟨1, SymType.slack⟩, 1)]⟩ (mkRat 1 10000000)
      = ⟨0, [(⟨1, SymType.slack⟩, mkRat 1 10000000)]⟩ ∧
    amcw_nearzero (mkRat 1 10000000) = true := by
  exact ⟨by decide, by decide, by decide⟩

/-- C8 (amended): `add_var` accumulates and erases near-zero results and is a
no-op on a null symbol, so rows built through `add_var` (hence `add_row` and
`substitute`) never store a near-zero coefficient, and a row is constant
exactly when its term table is empty; `multiply` (hence `solve_for`), by
contrast, can scale stored coefficients into the near-zero band. -/
theorem c8_row_normalization :
    (∀ (r : amcw_Row) (s : amcw_Symbol) (v : amcw_Num),
      NoNearZeroTerms r.terms → NoNearZeroTerms (amcw_addvar r s v).terms) ∧
    (∀ (r : amcw_Row) (ty : SymType) (v : amcw_Num), amcw_addvar r ⟨0, ty⟩ v = r) ∧
    (∀ (r other : amcw_Row) (m : amcw_Num),
      NoNearZeroTerms r.terms → NoNearZeroTerms (amcw_addrow r other m).terms) ∧
    (∀ (r : amcw_Row) (entry : amcw_Symbol) (other : amcw_Row),
      NoNearZeroTerms r.terms → NoNearZeroTerms (amcw_substitute r entry other).terms) ∧
    (∀ r : amcw_Row, amcw_isconstant r = true ↔ r.terms = []) := by
  refine ⟨addvar_nonearzero, ?_, addrow_nonearzero, substitute_nonearzero, ?_⟩
  · intro r ty v
    unfold amcw_addvar
    rw [if_pos rfl]
  · intro r
    unfold amcw_isconstant
    exact List.isEmpty_iff

/-- C8 witness: the preservation statements applied at a concrete row. -/
theorem c8_row_normalization_witness :
    NoNearZeroTerms ((amcw_addvar ⟨0, [(⟨1, SymType.slack⟩, 1)]⟩ ⟨2, SymType.error⟩ 3).terms) :=
  c8_row_normalization.1 ⟨0, [(⟨1, SymType.slack⟩, 1)]⟩ ⟨2, SymType.error⟩ 3 (by decide)

/-! ## C6: idempotence of update_vars -/

/-- Generic in-place value update of an association list: the lookup after
the update is the lookup before, mapped when the ids agree. -/
theorem find?_mapval {α β : Type _} (key : α → Nat) (l : List (α × β)) (kid : Nat)
    (f : α × β → α × β) (hf : ∀ e, key (f e).1 = key e.1) (i : Nat) :
    (l.map (fun e => if key e.1 = kid then f e else e)).find? (fun e => key e.1 == i)
    = if i = kid then (l.find? (fun e => key e.1 == i)).map f
      else l.find? (fun e => key e.1 == i) := by
  induction l with
  | nil => by_cases h : i = kid <;> simp [h]
  | cons e es ih =>
    by_cases hk : key e.1 = kid
    · by_cases hi : key e.1 = i
      · have h1 : i = kid := by rw [← hi, hk]
        simp only [List.map_cons, if_pos hk]
        rw [@List.find?_cons_of_pos _ (fun e => key e.1 == i) (f e) _
          (by simp only []; rw [hf]; simpa using hi)]
        rw [@List.find?_cons_of_pos _ (fun e => key e.1 == i) e _ (by simpa using hi)]
        simp [h1]
      · simp only [List.map_cons, if_pos hk]
        rw [@List.find?_cons_of_neg _ (fun e => key e.1 == i) (f e) _
          (by simp only []; rw [hf]; simpa using hi)]
        rw [@List.find?_cons_of_neg _ (fun e => key e.1 == i) e _ (by simpa using hi)]
        exact ih
    · by_cases hi : key e.1 = i
      · have h1 : ¬ i = kid := by rw [← hi]; exact hk
        simp only [List.map_cons, if_neg hk]
        rw [@List.find?_cons_of_pos _ (fun e => key e.1 == i) e _ (by simpa using hi)]
        rw [@List.find?_cons_of_pos _ (fun e => key e.1 == i) e _ (by simpa using hi)]
        simp [h1]
      · simp only [List.map_cons, if_neg hk]
        rw [@List.find?_cons_of_neg _ (fun e => key e.1 == i) e _ (by simpa using hi)]
        rw [@List.find?_cons_of_neg _ (fun e => key e.1 == i) e _ (by simpa using hi)]
        exact ih

theorem getVar_updateVar (s : amcw_Solver) (k : amcw_Symbol) (f : amcw_Var → amcw_Var)
    (sym : amcw_Symbol) :
    getVar (updateVar s k f) sym
      = if sym.id = k.id then (getVar s sym).map f else getVar s sym := by
  unfold getVar updateVar
  by_cases h0 : sym.id = 0
  · simp only [if_pos h0]
    by_cases h : sym.id = k.id <;> simp [h]
  · simp only [if_neg h0]
    rw [find?_mapval (fun a => a.id) s.vars k.id (fun e => (e.1, f e.2)) (fun e => rfl) sym.id]
    by_cases h : sym.id = k.id
    · simp only [if_pos h, Option.map_map]
      rfl
    · simp only [if_neg h]

/-- Fields other than `vars` are untouched by the update-vars loop. -/
theorem updList_frame : ∀ (l : List amcw_Symbol) (s : amcw_Solver),
    (updList l s).rows = s.rows ∧ (updList l s).objective = s.objective ∧
    (updList l s).dirty_vars = s.dirty_vars ∧ (updList l s).constraints = s.constraints ∧
    (updList l s).infeasible_rows = s.infeasible_rows ∧
    (updList l s).symbol_count = s.symbol_count ∧
    (updList l s).auto_update = s.auto_update ∧
    (updList l s).constraint_count = s.constraint_count
  | [], s => ⟨rfl, rfl, rfl, rfl, rfl, rfl, rfl, rfl⟩
  | k :: rest, s => by
    unfold updList
    cases h : getVar s k with
    | none => exact updList_frame rest s
    | some v => exact updList_frame rest _

theorem getVar_eq_of_id (s : amcw_Solver) (k sym : amcw_Symbol) (h : k.id = sym.id) :
    getVar s k = getVar s sym := by
  unfold getVar
  rw [h]

theorem getVar_updList_notmem : ∀ (l : List amcw_Symbol) (s : amcw_Solver) (sym : amcw_Symbol),
    sym.id ∉ l.map (fun x => x.id) → getVar (updList l s) sym = getVar s sym
  | [], s, sym, _ => rfl
  | k :: rest, s, sym, h => by
    have hk : sym.id ≠ k.id := fun he => h (by rw [List.map_cons]; exact he ▸ List.mem_cons_self _ _)
    have hr : sym.id ∉ rest.map (fun x => x.id) :=
      fun he => h (by rw [List.map_cons]; exact List.mem_cons_of_mem _ he)
    unfold updList
    cases hv : getVar s k with
    | none => exact getVar_updList_notmem rest s sym hr
    | some v =>
      rw [getVar_updList_notmem rest _ sym hr, getVar_updateVar, if_neg hk]

theorem getVar_updList_mem : ∀ (l : List amcw_Symbol) (s : amcw_Solver) (sym : amcw_Symbol)
    (v : amcw_Var), sym.id ∈ l.map (fun x => x.id) → getVar s sym = some v →
    getVar (updList l s) sym = some { v with value := rowConstOr0 s v.sym }
  | [], s, sym, v, h, _ => absurd h (List.not_mem_nil _)
  | k :: rest, s, sym, v, h, hv => by
    unfold updList
    by_cases hid : sym.id = k.id
    · have hvk : getVar s k = some v := by rw [getVar_eq_of_id s k sym hid.symm]; exact hv
      rw [hvk]
      by_cases hmem : sym.id ∈ rest.map (fun x => x.id)
      · have hv1 : getVar (updateVar s k (fun v => { v with value := rowConstOr0 s v.sym })) sym
            = some { v with value := rowConstOr0 s v.sym } := by
          rw [getVar_updateVar, if_pos hid, hv]; rfl
        have hrec := getVar_updList_mem rest _ sym { v with value := rowConstOr0 s v.sym } hmem hv1
        rw [hrec]
        rfl
      · rw [getVar_updList_notmem rest _ sym hmem, getVar_updateVar, if_pos hid, hv]
        rfl
    · have hmem : sym.id ∈ rest.map (fun x => x.id) := by
        rcases (by simpa using h : sym.id = k.id ∨ ∃ a ∈ rest, a.id = sym.id) with he | ⟨a, ha, hae⟩
        · exact absurd he hid
        · exact List.mem_map.mpr ⟨a, ha, hae⟩
      cases hvk : getVar s k with
      | none => exact getVar_updList_mem rest s sym v hmem hv
      | some v0 =>
        have hv1 : getVar (updateVar s k (fun v => { v with value := rowConstOr0 s v.sym })) sym
            = some v := by
          rw [getVar_updateVar, if_neg hid, hv]
        have hrec := getVar_updList_mem rest _ sym v hmem hv1
        rw [hrec]
        rfl

theorem solver_set_dirty_self (s : amcw_Solver) (h : s.dirty_vars = []) :
    { s with dirty_vars := [] } = s := by
  cases s
  simp_all

/-- C6: `amcw_updatevars` publishes, for each dirty variable, the constant of
the row keyed by its symbol (0 when not basic), empties the dirty list, and a
second immediate call is the identity on the whole solver state. -/
theorem c6_updatevars_idempotent (s : amcw_Solver) :
    amcw_updatevars (amcw_updatevars s) = amcw_updatevars s ∧
    (amcw_updatevars s).dirty_vars = [] ∧
    (∀ sym v, sym ∈ s.dirty_vars → getVar s sym = some v →
      getVar (amcw_updatevars s) sym = some { v with value := rowConstOr0 s v.sym }) := by
  refine ⟨rfl, rfl, ?_⟩
  · intro sym v hmem hv
    show getVar { updList s.dirty_vars s with dirty_vars := [] } sym = _
    have : getVar { updList s.dirty_vars s with dirty_vars := [] } sym
        = getVar (updList s.dirty_vars s) sym := rfl
    rw [this]
    exact getVar_updList_mem s.dirty_vars s sym v
      (List.mem_map.mpr ⟨sym, hmem, rfl⟩) hv

/-- One dirty variable whose symbol keys a basic row with constant 7. -/
def w6state : amcw_Solver :=
  { amcw_newsolver with
    symbol_count := 1,
    vars := [(⟨1, SymType.external⟩, ⟨⟨1, SymType.external⟩, 1, none, 0, 0⟩)],
    rows := [(⟨1, SymType.external⟩, ⟨7, []⟩)],
    dirty_vars := [⟨1, SymType.external⟩] }

/-- C6 witness: the dirty variable of a concrete state receives its row
constant. -/
theorem c6_updatevars_idempotent_witness :
    getVar (amcw_updatevars w6state) ⟨1, SymType.external⟩
      = some { sym := ⟨1, SymType.external⟩, refcount := 1, constraintId := none,
               edit_value := 0, value := rowConstOr0 w6state ⟨1, SymType.external⟩ } :=
  (c6_updatevars_idempotent w6state).2.2 ⟨1, SymType.external⟩
    ⟨⟨1, SymType.external⟩, 1, none, 0, 0⟩ (by decide) (by decide)

/-! ## C5: suggest delta application -/

/-- Effect of the third case of `amcw_delta_edit_constant` on a single row. -/
def deltaRowUpd (marker : amcw_Symbol) (d : amcw_Num) (r : amcw_Row) : amcw_Row :=
  match lookupTerm r.terms marker with
  | some cf => ⟨qadd r.constant (qmul cf d), r.terms⟩
  | none => r

theorem getRow_setRowConst (s : amcw_Solver) (k : amcw_Symbol) (val : amcw_Num)
    (k' : amcw_Symbol) :
    getRow (setRowConst s k val) k'
      = if k'.id = k.id then (getRow s k').map (fun r => ⟨val, r.terms⟩) else getRow s k' := by
  unfold getRow setRowConst
  by_cases h0 : k'.id = 0
  · simp only [if_pos h0]
    by_cases h : k'.id = k.id <;> simp [h]
  · simp only [if_neg h0]
    rw [find?_mapval (fun a => a.id) s.rows k.id (fun e => (e.1, ⟨val, e.2.terms⟩))
      (fun e => rfl) k'.id]
    by_cases h : k'.id = k.id
    · simp only [if_pos h, Option.map_map]
      rfl
    · simp only [if_neg h]

theorem infeasible_frame (s : amcw_Solver) (k : amcw_Symbol) :
    (amcw_infeasible s k).rows = s.rows ∧ (amcw_infeasible s k).vars = s.vars ∧
    (amcw_infeasible s k).objective = s.objective ∧
    (amcw_infeasible s k).dirty_vars = s.dirty_vars ∧
    (amcw_infeasible s k).constraints = s.constraints ∧
    (amcw_infeasible s k).symbol_count = s.symbol_count ∧
    (amcw_infeasible s k).auto_update = s.auto_update := by
  unfold amcw_infeasible
  cases getRow s k with
  | none => exact ⟨rfl, rfl, rfl, rfl, rfl, rfl, rfl⟩
  | some r =>
    dsimp only
    by_cases h : r.constant < 0
    · rw [if_pos h]
      by_cases h2 : onList s.infeasible_rows k = true
      · rw [if_pos h2]; exact ⟨rfl, rfl, rfl, rfl, rfl, rfl, rfl⟩
      · rw [if_neg h2]; exact ⟨rfl, rfl, rfl, rfl, rfl, rfl, rfl⟩
    · rw [if_neg h]; exact ⟨rfl, rfl, rfl, rfl, rfl, rfl, rfl⟩

theorem getRow_congr_rows (s s' : amcw_Solver) (h : s.rows = s'.rows) (k : amcw_Symbol) :
    getRow s k = getRow s' k := by
  unfold getRow
  rw [h]

theorem getVar_congr_vars (s s' : amcw_Solver) (h : s.vars = s'.vars) (k : amcw_Symbol) :
    getVar s k = getVar s' k := by
  unfold getVar
  rw [h]

theorem markdirtySym_frame (s : amcw_Solver) (k : amcw_Symbol) :
    (markdirtySym s k).rows = s.rows ∧ (markdirtySym s k).vars = s.vars ∧
    (markdirtySym s k).objective = s.objective ∧
    (markdirtySym s k).infeasible_rows = s.infeasible_rows ∧
    (markdirtySym s k).constraints = s.constraints ∧
    (markdirtySym s k).symbol_count = s.symbol_count ∧
    (markdirtySym s k).auto_update = s.auto_update := by
  unfold markdirtySym amcw_markdirty
  cases getVar s k with
  | none => exact ⟨rfl, rfl, rfl, rfl, rfl, rfl, rfl⟩
  | some v =>
    dsimp only
    by_cases h : onList s.dirty_vars v.sym = true
    · rw [if_pos h]; exact ⟨rfl, rfl, rfl, rfl, rfl, rfl, rfl⟩
    · rw [if_neg h]; exact ⟨rfl, rfl, rfl, rfl, rfl, rfl, rfl⟩

theorem onList_cons (k : amcw_Symbol) (l : List amcw_Symbol) (k' : amcw_Symbol) :
    onList (k :: l) k' = (k.id == k'.id || onList l k') := rfl

theorem infeasible_onList_self (s : amcw_Solver) (k : amcw_Symbol) (r : amcw_Row)
    (hr : getRow s k = some r) :
    onList (amcw_infeasible s k).infeasible_rows k
      = (onList s.infeasible_rows k || decide (r.constant < 0)) := by
  unfold amcw_infeasible
  rw [hr]
  dsimp only
  by_cases h : r.constant < 0
  · rw [if_pos h]
    by_cases h2 : onList s.infeasible_rows k = true
    · rw [if_pos h2, h2]
      simp
    · rw [if_neg h2]
      show onList (k :: s.infeasible_rows) k = _
      rw [onList_cons]
      simp [h, Nat.beq_refl]
  · rw [if_neg h]
    simp [h]

theorem infeasible_onList_mono (s : amcw_Solver) (k k' : amcw_Symbol)
    (h : onList s.infeasible_rows k' = true) :
    onList (amcw_infeasible s k).infeasible_rows k' = true := by
  unfold amcw_infeasible
  cases getRow s k with
  | none => exact h
  | some r =>
    dsimp only
    by_cases hc : r.constant < 0
    · rw [if_pos hc]
      by_cases h2 : onList s.infeasible_rows k = true
      · rw [if_pos h2]; exact h
      · rw [if_neg h2]
        show onList (k :: s.infeasible_rows) k' = true
        rw [onList_cons, h]
        simp
    · rw [if_neg hc]; exact h

theorem markdirtySym_onList_mono (s : amcw_Solver) (k k' : amcw_Symbol)
    (h : onList s.dirty_vars k' = true) :
    onList (markdirtySym s k).dirty_vars k' = true := by
  unfold markdirtySym amcw_markdirty
  cases getVar s k with
  | none => exact h
  | some v =>
    dsimp only
    by_cases h2 : onList s.dirty_vars v.sym = true
    · rw [if_pos h2]; exact h
    · rw [if_neg h2]
      show onList (v.sym :: s.dirty_vars) k' = true
      rw [onList_cons, h]
      simp

theorem getVar_find_sym (s : amcw_Solver) (k : amcw_Symbol) (v : amcw_Var)
    (hvs : ∀ p ∈ s.vars, p.2.sym = p.1) (hv : getVar s k = some v) :
    v.sym.id = k.id := by
  unfold getVar at hv
  by_cases h0 : k.id = 0
  · rw [if_pos h0] at hv; exact absurd hv (by simp)
  · rw [if_neg h0] at hv
    cases hf : s.vars.find? (fun e => e.1.id == k.id) with
    | none => rw [hf] at hv; exact absurd hv (by simp)
    | some p =>
      rw [hf] at hv
      have hp := List.find?_some hf
      have hmem := List.mem_of_find?_eq_some hf
      have : p.2 = v := by simpa using hv
      rw [← this, hvs p hmem]
      simpa using hp

theorem markdirtySym_onList_self (s : amcw_Solver) (k : amcw_Symbol)
    (hvs : ∀ p ∈ s.vars, p.2.sym = p.1) (hsome : (getVar s k).isSome = true) :
    onList (markdirtySym s k).dirty_vars k = true := by
  unfold markdirtySym amcw_markdirty
  cases hv : getVar s k with
  | none => rw [hv] at hsome; exact absurd hsome (by simp)
  | some v =>
    dsimp only
    have hid : v.sym.id = k.id := getVar_find_sym s k v hvs hv
    by_cases h2 : onList s.dirty_vars v.sym = true
    · rw [if_pos h2]
      unfold onList at h2 ⊢
      rcases List.any_eq_true.mp h2 with ⟨a, ha, he⟩
      exact List.any_eq_true.mpr ⟨a, ha, by rw [Nat.beq_eq_true_eq] at he ⊢; rw [he, hid]⟩
    · rw [if_neg h2]
      show onList (v.sym :: s.dirty_vars) k = true
      rw [onList_cons]
      simp [hid]

theorem getRow_eq_of_id (s : amcw_Solver) (k k' : amcw_Symbol) (h : k.id = k'.id) :
    getRow s k = getRow s k' := by
  unfold getRow
  rw [h]

theorem getRow_none_of_notmem (s : amcw_Solver) (k : amcw_Symbol)
    (h : k.id ∉ s.rows.map (fun e => e.1.id)) : getRow s k = none := by
  unfold getRow
  by_cases h0 : k.id = 0
  · rw [if_pos h0]
  · rw [if_neg h0]
    cases hf : s.rows.find? (fun e => e.1.id == k.id) with
    | none => rfl
    | some p =>
      have hp := List.find?_some hf
      have hmem := List.mem_of_find?_eq_some hf
      exact absurd (List.mem_map.mpr ⟨p, hmem, by simpa using hp⟩) h

theorem getRow_deltaStep_ne (d : amcw_Num) (m : amcw_Symbol) (st : amcw_Solver)
    (k0 k : amcw_Symbol) (hne : k.id ≠ k0.id) :
    getRow (deltaStep d m st k0) k = getRow st k := by
  unfold deltaStep
  cases getRow st k0 with
  | none => rfl
  | some r =>
    dsimp only
    cases lookupTerm r.terms m with
    | none => rfl
    | some cf =>
      dsimp only
      by_cases he : amcw_isexternal k0 = true
      · rw [if_pos he]
        rw [getRow_congr_rows _ _ (markdirtySym_frame _ k0).1 k]
        rw [getRow_setRowConst, if_neg hne]
      · rw [if_neg he]
        rw [getRow_congr_rows _ _ (infeasible_frame _ k0).1 k]
        rw [getRow_setRowConst, if_neg hne]

theorem deltaStep_vars (d : amcw_Num) (m : amcw_Symbol) (st : amcw_Solver) (k0 : amcw_Symbol) :
    (deltaStep d m st k0).vars = st.vars := by
  unfold deltaStep
  cases getRow st k0 with
  | none => rfl
  | some r =>
    dsimp only
    cases lookupTerm r.terms m with
    | none => rfl
    | some cf =>
      dsimp only
      by_cases he : amcw_isexternal k0 = true
      · rw [if_pos he]
        exact (markdirtySym_frame _ k0).2.1
      · rw [if_neg he]
        exact (infeasible_frame _ k0).2.1

theorem deltaStep_mono_dirty (d : amcw_Num) (m : amcw_Symbol) (st : amcw_Solver)
    (k0 k : amcw_Symbol) (h : onList st.dirty_vars k = true) :
    onList (deltaStep d m st k0).dirty_vars k = true := by
  unfold deltaStep
  cases getRow st k0 with
  | none => exact h
  | some r =>
    dsimp only
    cases lookupTerm r.terms m with
    | none => exact h
    | some cf =>
      dsimp only
      by_cases he : amcw_isexternal k0 = true
      · rw [if_pos he]
        exact markdirtySym_onList_mono _ k0 k h
      · rw [if_neg he]
        rw [(infeasible_frame _ k0).2.2.2.1]
        exact h

theorem deltaStep_mono_infeasible (d : amcw_Num) (m : amcw_Symbol) (st : amcw_Solver)
    (k0 k : amcw_Symbol) (h : onList st.infeasible_rows k = true) :
    onList (deltaStep d m st k0).infeasible_rows k = true := by
  unfold deltaStep
  cases getRow st k0 with
  | none => exact h
  | some r =>
    dsimp only
    cases lookupTerm r.terms m with
    | none => exact h
    | some cf =>
      dsimp only
      by_cases he : amcw_isexternal k0 = true
      · rw [if_pos he]
        rw [(markdirtySym_frame _ k0).2.2.2.1]
        exact h
      · rw [if_neg he]
        exact infeasible_onList_mono _ k0 k h

theorem deltaFold_vars (d : amcw_Num) (m : amcw_Symbol) :
    ∀ (ks : List amcw_Symbol) (st : amcw_Solver),
    (ks.foldl (deltaStep d m) st).vars = st.vars := by
  intro ks st
  induction ks generalizing st with
  | nil => rfl
  | cons k0 rest ih =>
    rw [List.foldl_cons, ih, deltaStep_vars]

theorem deltaFold_mono_dirty (d : amcw_Num) (m : amcw_Symbol) :
    ∀ (ks : List amcw_Symbol) (st : amcw_Solver) (k : amcw_Symbol),
    onList st.dirty_vars k = true → onList (ks.foldl (deltaStep d m) st).dirty_vars k = true := by
  intro ks
  induction ks with
  | nil => intro st k h; exact h
  | cons k0 rest ih =>
    intro st k h
    rw [List.foldl_cons]
    exact ih _ k (deltaStep_mono_dirty d m st k0 k h)

theorem deltaFold_mono_infeasible (d : amcw_Num) (m : amcw_Symbol) :
    ∀ (ks : List amcw_Symbol) (st : amcw_Solver) (k : amcw_Symbol),
    onList st.infeasible_rows k = true →
    onList (ks.foldl (deltaStep d m) st).infeasible_rows k = true := by
  intro ks
  induction ks with
  | nil => intro st k h; exact h
  | cons k0 rest ih =>
    intro st k h
    rw [List.foldl_cons]
    exact ih _ k (deltaStep_mono_infeasible d m st k0 k h)

/-- Characterization of the own-key effect of one `deltaStep`. -/
theorem getRow_deltaStep_self (d : amcw_Num) (m : amcw_Symbol) (st : amcw_Solver)
    (k0 : amcw_Symbol) (r : amcw_Row) (hr : getRow st k0 = some r) :
    getRow (deltaStep d m st k0) k0 = some (deltaRowUpd m d r) := by
  unfold deltaStep deltaRowUpd
  rw [hr]
  dsimp only
  cases lookupTerm r.terms m with
  | none => exact hr
  | some cf =>
    dsimp only
    by_cases he : amcw_isexternal k0 = true
    · rw [if_pos he]
      rw [getRow_congr_rows _ _ (markdirtySym_frame _ k0).1 k0]
      rw [getRow_setRowConst, if_pos rfl, hr]
      rfl
    · rw [if_neg he]
      rw [getRow_congr_rows _ _ (infeasible_frame _ k0).1 k0]
      rw [getRow_setRowConst, if_pos rfl, hr]
      rfl

/-- Folding `deltaStep` over distinct keys applies `deltaRowUpd` to every
basic row at once. -/
theorem deltaFold_getRow (s : amcw_Solver) (d : amcw_Num) (m : amcw_Symbol) :
    ∀ (ks : List amcw_Symbol) (st : amcw_Solver),
    (ks.map (fun x => x.id)).Nodup →
    (∀ k : amcw_Symbol, k.id ∈ ks.map (fun x => x.id) → getRow st k = getRow s k) →
    (∀ k : amcw_Symbol, k.id ∉ ks.map (fun x => x.id) →
      getRow st k = (getRow s k).map (deltaRowUpd m d)) →
    ∀ k, getRow (ks.foldl (deltaStep d m) st) k = (getRow s k).map (deltaRowUpd m d) := by
  intro ks
  induction ks with
  | nil =>
    intro st _ _ hout k
    exact hout k (List.not_mem_nil _)
  | cons k0 rest ih =>
    intro st hnd hin hout k
    rw [List.map_cons] at hnd
    have hnd0 : k0.id ∉ rest.map (fun x => x.id) := (List.nodup_cons.mp hnd).1
    have hndr : (rest.map (fun x => x.id)).Nodup := (List.nodup_cons.mp hnd).2
    rw [List.foldl_cons]
    apply ih (deltaStep d m st k0) hndr
    · intro k' hk'
      have hne : k'.id ≠ k0.id := fun he => hnd0 (he ▸ hk')
      rw [getRow_deltaStep_ne d m st k0 k' hne]
      exact hin k' (by rw [List.map_cons]; exact List.mem_cons_of_mem _ hk')
    · intro k' hk'
      by_cases he : k'.id = k0.id
      · have hink : getRow st k' = getRow s k' := by
          apply hin
          rw [List.map_cons, he]
          exact List.mem_cons_self _ _
        have h01 : getRow st k0 = getRow st k' := getRow_eq_of_id st k0 k' he.symm
        have h02 : getRow s k0 = getRow s k' := getRow_eq_of_id s k0 k' he.symm
        cases hr : getRow s k' with
        | none =>
          have hnone : getRow st k0 = none := by rw [h01, hink, hr]
          have : deltaStep d m st k0 = st := by
            unfold deltaStep
            rw [hnone]
          rw [this, hink, hr]
          rfl
        | some r =>
          have hsome : getRow st k0 = some r := by rw [h01, hink, hr]
          have := getRow_deltaStep_self d m st k0 r hsome
          rw [getRow_eq_of_id _ k' k0 he, this]
          rfl
      · have hnotin : k'.id ∉ (k0 :: rest).map (fun x => x.id) := by
          rw [List.map_cons]
          intro hmem
          rcases List.mem_cons.mp hmem with h1 | h1
          · exact he h1
          · exact hk' h1
        rw [getRow_deltaStep_ne d m st k0 k' he]
        exact hout k' hnotin

/-- Marking behaviour of the fold: a basic row containing the marker gets its
variable marked dirty (external key) or is enqueued infeasible when its new
constant is negative (other keys). -/
theorem deltaFold_marks (s : amcw_Solver) (d : amcw_Num) (m : amcw_Symbol)
    (hvs : ∀ p ∈ s.vars, p.2.sym = p.1) :
    ∀ (ks : List amcw_Symbol) (st : amcw_Solver),
    (ks.map (fun x => x.id)).Nodup →
    (∀ k : amcw_Symbol, k.id ∈ ks.map (fun x => x.id) → getRow st k = getRow s k) →
    st.vars = s.vars →
    ∀ k0 ∈ ks, ∀ (r : amcw_Row) (cf : amcw_Num),
      getRow s k0 = some r → lookupTerm r.terms m = some cf →
      (amcw_isexternal k0 = true → (getVar s k0).isSome = true →
        onList (ks.foldl (deltaStep d m) st).dirty_vars k0 = true) ∧
      (amcw_isexternal k0 = false → qadd r.constant (qmul cf d) < 0 →
        onList (ks.foldl (deltaStep d m) st).infeasible_rows k0 = true) := by
  intro ks
  induction ks with
  | nil => intro st _ _ _ k0 hk0; exact absurd hk0 (List.not_mem_nil _)
  | cons kh rest ih =>
    intro st hnd hin hvars k0 hk0 r cf hr hcf
    rw [List.map_cons] at hnd
    have hnd0 : kh.id ∉ rest.map (fun x => x.id) := (List.nodup_cons.mp hnd).1
    have hndr : (rest.map (fun x => x.id)).Nodup := (List.nodup_cons.mp hnd).2
    rw [List.foldl_cons]
    have hinStep : ∀ k : amcw_Symbol, k.id ∈ rest.map (fun x => x.id) →
        getRow (deltaStep d m st kh) k = getRow s k := by
      intro k' hk'
      have hne : k'.id ≠ kh.id := fun he => hnd0 (he ▸ hk')
      rw [getRow_deltaStep_ne d m st kh k' hne]
      exact hin k' (by rw [List.map_cons]; exact List.mem_cons_of_mem _ hk')
    have hvarsStep : (deltaStep d m st kh).vars = s.vars := by
      rw [deltaStep_vars]; exact hvars
    rcases List.mem_cons.mp hk0 with heq | hmem
    · subst heq
      have hstk : getRow st k0 = some r := by
        rw [hin k0 (by rw [List.map_cons]; exact List.mem_cons_self _ _), hr]
      constructor
      · intro hext hvsome
        apply deltaFold_mono_dirty
        unfold deltaStep
        rw [hstk]
        dsimp only
        rw [hcf]
        dsimp only
        rw [if_pos hext]
        apply markdirtySym_onList_self
        · intro p hp
          have : (setRowConst st k0 (qadd r.constant (qmul cf d))).vars = s.vars := hvars
          rw [this] at hp
          exact hvs p hp
        · have : getVar (setRowConst st k0 (qadd r.constant (qmul cf d))) k0 = getVar s k0 :=
            getVar_congr_vars _ _ (by exact hvars) k0
          rw [this]
          exact hvsome
      · intro hext hneg
        apply deltaFold_mono_infeasible
        unfold deltaStep
        rw [hstk]
        dsimp only
        rw [hcf]
        dsimp only
        rw [if_neg (by rw [hext]; exact Bool.false_ne_true)]
        have hrownew : getRow (setRowConst st k0 (qadd r.constant (qmul cf d))) k0
            = some ⟨qadd r.constant (qmul cf d), r.terms⟩ := by
          rw [getRow_setRowConst, if_pos rfl, hstk]
          rfl
        rw [infeasible_onList_self _ k0 _ hrownew]
        simp [hneg]
    · exact ih (deltaStep d m st kh) hndr hinStep hvarsStep k0 hmem r cf hr hcf

theorem substRowsStep_vars (var : amcw_Symbol) (expr : amcw_Row) (s : amcw_Solver)
    (k : amcw_Symbol) : (substRowsStep var expr s k).vars = s.vars := by
  unfold substRowsStep
  by_cases he : amcw_isexternal k = true
  · rw [if_pos he]
    exact (markdirtySym_frame _ k).2.1
  · rw [if_neg he]
    exact (infeasible_frame _ k).2.1

theorem substitute_rows_vars (s : amcw_Solver) (var : amcw_Symbol) (expr : amcw_Row) :
    (amcw_substitute_rows s var expr).vars = s.vars := by
  unfold amcw_substitute_rows
  show ((s.rows.map (fun e => e.1)).foldl (substRowsStep var expr) s).vars = s.vars
  exact foldl_preserve (fun st => st.vars = s.vars) (substRowsStep var expr) _ s rfl
    (fun st k _ hst => by
      show (substRowsStep var expr st k).vars = s.vars
      rw [substRowsStep_vars]; exact hst)

theorem takerow_vars (s : amcw_Solver) (k : amcw_Symbol) :
    (amcw_takerow s k).1.vars = s.vars := by
  unfold amcw_takerow
  cases getRow s k with
  | none => rfl
  | some r => rfl

theorem putrow_vars (s : amcw_Solver) (k : amcw_Symbol) (r : amcw_Row) :
    (amcw_putrow s k r).vars = s.vars := by
  unfold amcw_putrow
  by_cases h : s.rows.any (fun e => e.1.id == k.id) = true
  · rw [if_pos h]
  · rw [if_neg h]

theorem dual_optimize_vars : ∀ (fuel : Nat) (s : amcw_Solver),
    (amcw_dual_optimize fuel s).vars = s.vars
  | 0, s => rfl
  | fuel + 1, s => by
    unfold amcw_dual_optimize
    cases s.infeasible_rows with
    | nil => rfl
    | cons leave rest =>
      dsimp only
      cases getRow { s with infeasible_rows := rest } leave with
      | none => exact dual_optimize_vars fuel _
      | some r =>
        dsimp only
        by_cases h1 : (amcw_nearzero r.constant || decide (r.constant ≥ 0)) = true
        · rw [if_pos h1]
          exact dual_optimize_vars fuel _
        · rw [if_neg h1]
          by_cases h2 : (dualEnter { s with infeasible_rows := rest } r).id = 0
          · rw [if_pos h2]
            exact dual_optimize_vars fuel _
          · rw [if_neg h2]
            cases htk : amcw_takerow { s with infeasible_rows := rest } leave with
            | mk s1 o =>
              cases o with
              | none =>
                dsimp only
                rw [dual_optimize_vars fuel s1]
                have : s1.vars = ({ s with infeasible_rows := rest } : amcw_Solver).vars := by
                  have := takerow_vars { s with infeasible_rows := rest } leave
                  rw [htk] at this
                  exact this
                exact this
              | some tmp0 =>
                dsimp only
                rw [dual_optimize_vars fuel]
                rw [putrow_vars, substitute_rows_vars]
                have : s1.vars = ({ s with infeasible_rows := rest } : amcw_Solver).vars := by
                  have := takerow_vars { s with infeasible_rows := rest } leave
                  rw [htk] at this
                  exact this
                exact this

theorem delta_edit_constant_vars (s : amcw_Solver) (d : amcw_Num) (c : amcw_Constraint) :
    (amcw_delta_edit_constant s d c).vars = s.vars := by
  unfold amcw_delta_edit_constant
  cases getRow s c.marker with
  | some r =>
    dsimp only
    rw [(infeasible_frame _ c.marker).2.1]
    rfl
  | none =>
    dsimp only
    cases getRow s c.other with
    | some r =>
      dsimp only
      rw [(infeasible_frame _ c.other).2.1]
      rfl
    | none =>
      dsimp only
      exact deltaFold_vars d c.marker _ s

theorem getVar_updList_none : ∀ (l : List amcw_Symbol) (s : amcw_Solver) (sym : amcw_Symbol),
    getVar s sym = none → getVar (updList l s) sym = none
  | [], s, sym, h => h
  | k :: rest, s, sym, h => by
    unfold updList
    cases hv : getVar s k with
    | none => exact getVar_updList_none rest s sym h
    | some v =>
      apply getVar_updList_none rest
      rw [getVar_updateVar]
      by_cases hid : sym.id = k.id
      · rw [if_pos hid, h]
        rfl
      · rw [if_neg hid]
        exact h

theorem updatevars_edit_value (s : amcw_Solver) (sym : amcw_Symbol) :
    (getVar (amcw_updatevars s) sym).map (fun u => u.edit_value)
      = (getVar s sym).map (fun u => u.edit_value) := by
  have hgv : getVar (amcw_updatevars s) sym = getVar (updList s.dirty_vars s) sym := rfl
  rw [hgv]
  cases hv : getVar s sym with
  | none =>
    rw [getVar_updList_none s.dirty_vars s sym hv]
  | some v =>
    by_cases hmem : sym.id ∈ s.dirty_vars.map (fun x => x.id)
    · rw [getVar_updList_mem s.dirty_vars s sym v hmem hv]
      rfl
    · rw [getVar_updList_notmem s.dirty_vars s sym hmem, hv]

theorem find?_of_mem_nodup : ∀ (l : List (amcw_Symbol × amcw_Row)) (e : amcw_Symbol × amcw_Row),
    e ∈ l → (l.map (fun x => x.1.id)).Nodup →
    l.find? (fun x => x.1.id == e.1.id) = some e
  | [], e, hmem, _ => absurd hmem (List.not_mem_nil _)
  | p :: rest, e, hmem, hnd => by
    rw [List.map_cons] at hnd
    rcases List.mem_cons.mp hmem with heq | hmem2
    · subst heq
      rw [@List.find?_cons_of_pos _ (fun x => x.1.id == e.1.id) e rest (by simp)]
    · have hne : ¬ ((fun x => x.1.id == e.1.id) p) = true := by
        intro hbe
        have hpe : p.1.id = e.1.id := by simpa using hbe
        exact (List.nodup_cons.mp hnd).1
          (hpe ▸ List.mem_map.mpr ⟨e, hmem2, rfl⟩)
      rw [@List.find?_cons_of_neg _ (fun x => x.1.id == e.1.id) p rest hne]
      exact find?_of_mem_nodup rest e hmem2 (List.nodup_cons.mp hnd).2

theorem getRow_of_mem_nodup (s : amcw_Solver) (e : amcw_Symbol × amcw_Row)
    (hmem : e ∈ s.rows) (hnd : (s.rows.map (fun x => x.1.id)).Nodup) (h0 : e.1.id ≠ 0) :
    getRow s e.1 = some e.2 := by
  unfold getRow
  rw [if_neg h0, find?_of_mem_nodup s.rows e hmem hnd]
  rfl

/-- C5: for a variable with an installed edit constraint, `amcw_suggest`
stores the new edit value, and `amcw_delta_edit_constant` (which it invokes
with `delta = x - edit_value`) behaves per the claim's three cases: a basic
marker row's constant is decremented by delta (enqueued infeasible when
negative), else a basic other row's constant is incremented likewise, else
every row containing the marker as a term gets `coeff*delta` added to its
constant, external-keyed rows marking their variable dirty and other rows
enqueued infeasible when driven negative. -/
theorem c5_suggest_delta (fuel : Nat) (s : amcw_Solver) (vk : amcw_Symbol) (x : amcw_Num)
    (v : amcw_Var) (cid : Nat) (cons : amcw_Constraint)
    (hv : getVar s vk = some v) (hcid : v.constraintId = some cid)
    (hcons : getCons s cid = some cons) :
    ((getVar (amcw_suggest fuel s vk x) vk).map (fun u => u.edit_value) = some x) ∧
    (∀ (s' : amcw_Solver) (d : amcw_Num) (c : amcw_Constraint) (r : amcw_Row),
      getRow s' c.marker = some r →
      getRow (amcw_delta_edit_constant s' d c) c.marker = some ⟨qsub r.constant d, r.terms⟩ ∧
      (∀ k : amcw_Symbol, k.id ≠ c.marker.id →
        getRow (amcw_delta_edit_constant s' d c) k = getRow s' k) ∧
      (amcw_delta_edit_constant s' d c).vars = s'.vars ∧
      onList (amcw_delta_edit_constant s' d c).infeasible_rows c.marker
        = (onList s'.infeasible_rows c.marker || decide (qsub r.constant d < 0))) ∧
    (∀ (s' : amcw_Solver) (d : amcw_Num) (c : amcw_Constraint) (r : amcw_Row),
      getRow s' c.marker = none → getRow s' c.other = some r →
      getRow (amcw_delta_edit_constant s' d c) c.other = some ⟨qadd r.constant d, r.terms⟩ ∧
      (∀ k : amcw_Symbol, k.id ≠ c.other.id →
        getRow (amcw_delta_edit_constant s' d c) k = getRow s' k) ∧
      onList (amcw_delta_edit_constant s' d c).infeasible_rows c.other
        = (onList s'.infeasible_rows c.other || decide (qadd r.constant d < 0))) ∧
    (∀ (s' : amcw_Solver) (d : amcw_Num) (c : amcw_Constraint),
      getRow s' c.marker = none → getRow s' c.other = none →
      (s'.rows.map (fun e => e.1.id)).Nodup →
      ∀ k : amcw_Symbol,
        getRow (amcw_delta_edit_constant s' d c) k
          = (getRow s' k).map (deltaRowUpd c.marker d)) ∧
    (∀ (s' : amcw_Solver) (d : amcw_Num) (c : amcw_Constraint),
      getRow s' c.marker = none → getRow s' c.other = none →
      (s'.rows.map (fun e => e.1.id)).Nodup →
      (∀ p ∈ s'.vars, p.2.sym = p.1) →
      ∀ e ∈ s'.rows, e.1.id ≠ 0 → ∀ cf : amcw_Num, lookupTerm e.2.terms c.marker = some cf →
        (amcw_isexternal e.1 = true → (getVar s' e.1).isSome = true →
          onList (amcw_delta_edit_constant s' d c).dirty_vars e.1 = true) ∧
        (amcw_isexternal e.1 = false → qadd e.2.constant (qmul cf d) < 0 →
          onList (amcw_delta_edit_constant s' d c).infeasible_rows e.1 = true)) := by
  refine ⟨?_, ?_, ?_, ?_, ?_⟩
  · -- the suggest pipeline stores the new edit value
    unfold amcw_suggest
    rw [hv]
    dsimp only
    rw [hcid]
    simp only [Option.isSome_some, eq_self_iff_true, if_true]
    rw [hv]
    dsimp only
    rw [hcid]
    simp only [Option.some_bind]
    rw [hcons]
    dsimp only
    set s2 := updateVar s vk (fun u => { u with edit_value := x }) with hs2
    set s3 := amcw_delta_edit_constant s2 (qsub x v.edit_value) cons with hs3
    set s4 := amcw_dual_optimize fuel s3 with hs4
    have h2 : getVar s2 vk = some { v with edit_value := x } := by
      rw [hs2, getVar_updateVar, if_pos rfl, hv]
      rfl
    have h3 : getVar s3 vk = getVar s2 vk :=
      getVar_congr_vars _ _ (by rw [hs3, delta_edit_constant_vars]) vk
    have h4 : getVar s4 vk = getVar s3 vk :=
      getVar_congr_vars _ _ (by rw [hs4, dual_optimize_vars]) vk
    by_cases hau : s4.auto_update = true
    · rw [if_pos hau, updatevars_edit_value, h4, h3, h2]
      rfl
    · rw [if_neg hau, h4, h3, h2]
      rfl
  · -- marker basic
    intro s' d c r hm
    unfold amcw_delta_edit_constant
    rw [hm]
    dsimp only
    have hrow : getRow (setRowConst s' c.marker (qsub r.constant d)) c.marker
        = some ⟨qsub r.constant d, r.terms⟩ := by
      rw [getRow_setRowConst, if_pos rfl, hm]
      rfl
    refine ⟨?_, ?_, ?_, ?_⟩
    · rw [getRow_congr_rows _ _ (infeasible_frame _ c.marker).1 c.marker]
      exact hrow
    · intro k hk
      rw [getRow_congr_rows _ _ (infeasible_frame _ c.marker).1 k]
      rw [getRow_setRowConst, if_neg hk]
    · rw [(infeasible_frame _ c.marker).2.1]
      rfl
    · rw [infeasible_onList_self _ c.marker _ hrow]
      rfl
  · -- other basic
    intro s' d c r hm ho
    unfold amcw_delta_edit_constant
    rw [hm, ho]
    dsimp only
    have hrow : getRow (setRowConst s' c.other (qadd r.constant d)) c.other
        = some ⟨qadd r.constant d, r.terms⟩ := by
      rw [getRow_setRowConst, if_pos rfl, ho]
      rfl
    refine ⟨?_, ?_, ?_⟩
    · rw [getRow_congr_rows _ _ (infeasible_frame _ c.other).1 c.other]
      exact hrow
    · intro k hk
      rw [getRow_congr_rows _ _ (infeasible_frame _ c.other).1 k]
      rw [getRow_setRowConst, if_neg hk]
    · rw [infeasible_onList_self _ c.other _ hrow]
      rfl
  · -- neither basic: every row gets the per-term update
    intro s' d c hm ho hnd k
    unfold amcw_delta_edit_constant
    rw [hm, ho]
    dsimp only
    apply deltaFold_getRow s' d c.marker (s'.rows.map (fun e => e.1)) s'
    · rw [List.map_map]
      exact hnd
    · intro k' _; rfl
    · intro k' hk'
      rw [List.map_map] at hk'
      rw [getRow_none_of_notmem s' k' hk']
      rfl
  · -- neither basic: dirty / infeasible marking
    intro s' d c hm ho hnd hvs e hemem h0 cf hcf
    unfold amcw_delta_edit_constant
    rw [hm, ho]
    dsimp only
    have hre : getRow s' e.1 = some e.2 := getRow_of_mem_nodup s' e hemem hnd h0
    exact deltaFold_marks s' d c.marker hvs (s'.rows.map (fun x => x.1)) s'
      (by rw [List.map_map]; exact hnd) (fun _ _ => rfl) rfl e.1
      (List.mem_map.mpr ⟨e, hemem, rfl⟩) e.2 cf hre hcf

/-- A concrete pre-suggest state: required `x + y = 20` installed, then a
STRONG edit on `x` (built through the public operations). -/
def w5state : amcw_Solver :=
  let p1 := amcw_newvariable amcw_newsolver
  let p2 := amcw_newvariable p1.1
  let p3 := amcw_newconstraint p2.1 AMCW_REQUIRED
  let s4 := (amcw_setrelation p3.1 p3.2 AMCW_EQUAL).1
  let s5 := (amcw_addterm s4 p3.2 p1.2 1).1
  let s6 := (amcw_addterm s5 p3.2 p2.2 1).1
  let s7 := (amcw_addconstant s6 p3.2 (-20)).1
  let s8 := (amcw_add 16 s7 p3.2).1
  (amcw_addedit 16 s8 p1.2 AMCW_STRONG).1

def w5x : amcw_Symbol := ⟨1, SymType.external⟩

def w5var : amcw_Var := ⟨⟨1, SymType.external⟩, 3, some 2, 0, 0⟩

def w5cons : amcw_Constraint :=
  ⟨⟨0, [(⟨1, SymType.external⟩, 1)]⟩, ⟨4, SymType.error⟩, ⟨5, SymType.error⟩, 2, AMCW_STRONG⟩

/-- C5 witness: suggesting `x = 5` on the concrete state stores the new edit
value. -/
theorem c5_suggest_delta_witness :
    (getVar (amcw_suggest 16 w5state w5x 5) w5x).map (fun u => u.edit_value) = some 5 :=
  (c5_suggest_delta 16 w5state w5x 5 w5var 2 w5cons (by decide) (by decide) (by decide)).1

/-! ## C3: primal simplex pivot selection -/

theorem find?_split {α : Type _} (p : α → Bool) :
    ∀ (l : List α) (a : α), l.find? p = some a →
    ∃ l1 l2, l = l1 ++ a :: l2 ∧ p a = true ∧ ∀ x ∈ l1, p x = false
  | [], a, h => by simp at h
  | x :: xs, a, h => by
    by_cases hx : p x = true
    · rw [@List.find?_cons_of_pos _ p x xs hx] at h
      rcases Option.some_injective _ h with rfl
      exact ⟨[], xs, rfl, hx, fun y hy => absurd hy (List.not_mem_nil _)⟩
    · rw [@List.find?_cons_of_neg _ p x xs hx] at h
      rcases find?_split p xs a h with ⟨l1, l2, heq, hpa, hl1⟩
      refine ⟨x :: l1, l2, by rw [heq]; rfl, hpa, ?_⟩
      intro y hy
      rcases List.mem_cons.mp hy with rfl | hy2
      · exact Bool.eq_false_iff.mpr hx
      · exact hl1 y hy2

theorem approx_refl (a : amcw_Num) : amcw_approx a a = true := by
  unfold amcw_approx
  rw [if_neg (lt_irrefl a)]
  rw [qsub_eq, sub_self]
  show decide ((0:ℚ) < AMCW_NUM_EPS) = true
  rw [decide_eq_true_eq]
  show (0:ℚ) < mkRat 1 1000000
  rw [Rat.mkRat_eq_divInt, Rat.divInt_eq_div]
  norm_num

/-- The candidate condition of the leaving-row scan in `amcw_optimize`: a
pivotable key whose row carries the entering symbol with non-positive
coefficient. -/
def leaveCandP (enterSym : amcw_Symbol) (e : amcw_Symbol × amcw_Row) : Prop :=
  amcw_ispivotable e.1 = true ∧ ∃ c, lookupTerm e.2.terms enterSym = some c ∧ ¬ c > 0

/-- The ratio `-constant / coefficient` the scan minimizes. -/
def leaveRatioOf (enterSym : amcw_Symbol) (e : amcw_Symbol × amcw_Row) : amcw_Num :=
  match lookupTerm e.2.terms enterSym with
  | some c => qdiv (-e.2.constant) c
  | none => 0

theorem leaveStep_skip (enterSym : amcw_Symbol) (acc : amcw_Num × amcw_Symbol)
    (e : amcw_Symbol × amcw_Row) (h : ¬ leaveCandP enterSym e) :
    leaveStep enterSym acc e = acc := by
  unfold leaveStep
  cases hlk : lookupTerm e.2.terms enterSym with
  | none => rfl
  | some c =>
    dsimp only
    by_cases hpiv : amcw_ispivotable e.1 = true
    · have hcgt : c > 0 := by
        by_contra hc
        exact h ⟨hpiv, c, hlk, hc⟩
      rw [if_pos (by simp [hcgt])]
    · have hp : amcw_ispivotable e.1 = false := Bool.eq_false_iff.mpr hpiv
      rw [if_pos (by simp [hp])]

theorem leaveStep_cand (enterSym : amcw_Symbol) (acc : amcw_Num × amcw_Symbol)
    (e : amcw_Symbol × amcw_Row) (c : amcw_Num)
    (hlk : lookupTerm e.2.terms enterSym = some c)
    (hpiv : amcw_ispivotable e.1 = true) (hc : ¬ c > 0) :
    leaveStep enterSym acc e
      = (if leaveRatioOf enterSym e < acc.1 ∨
           (amcw_approx (leaveRatioOf enterSym e) acc.1 = true ∧ e.1.id < acc.2.id)
         then (leaveRatioOf enterSym e, e.1) else acc) := by
  unfold leaveStep leaveRatioOf
  rw [hlk]
  dsimp only
  rw [hpiv]
  rw [if_neg (by simp [hc])]
  by_cases h1 : qdiv (-e.2.constant) c < acc.1
  · rw [if_pos (by simp [h1]), if_pos (Or.inl h1)]
  · by_cases h2 : amcw_approx (qdiv (-e.2.constant) c) acc.1 = true ∧ e.1.id < acc.2.id
    · rw [if_pos (by simp [h1, h2.1, h2.2]), if_pos (Or.inr h2)]
    · rw [if_neg ?hneg1, if_neg (by intro hor; rcases hor with h | h; exact h1 h; exact h2 h)]
      case hneg1 =>
        simp only [Bool.or_eq_true, decide_eq_true_eq, Bool.and_eq_true]
        intro hor
        rcases hor with h | ⟨ha, hb⟩
        · exact h1 h
        · exact h2 ⟨ha, by simpa using hb⟩

/-- Invariant carried by the leaving-row scan: either nothing qualifying has
been seen, or the accumulator holds a seen candidate of minimal ratio whose
key id is minimal among the equal-ratio minimizers. -/
def LeaveInv (enterSym : amcw_Symbol) (seen : List (amcw_Symbol × amcw_Row))
    (acc : amcw_Num × amcw_Symbol) : Prop :=
  (acc = (AMCW_NUM_MAX, amcw_null) ∧ ∀ e ∈ seen, ¬ leaveCandP enterSym e) ∨
  (∃ e, e ∈ seen ∧ leaveCandP enterSym e ∧
    acc.1 = leaveRatioOf enterSym e ∧ acc.2 = e.1 ∧
    (∀ e2 ∈ seen, leaveCandP enterSym e2 →
      leaveRatioOf enterSym e ≤ leaveRatioOf enterSym e2) ∧
    (∀ e2 ∈ seen, leaveCandP enterSym e2 →
      leaveRatioOf enterSym e2 = leaveRatioOf enterSym e → e.1.id ≤ e2.1.id))

theorem leaveFoldInv (enterSym : amcw_Symbol) :
    ∀ (l seen : List (amcw_Symbol × amcw_Row)) (acc : amcw_Num × amcw_Symbol),
    (∀ e1 e2, e1 ∈ seen ++ l → e2 ∈ seen ++ l →
      leaveCandP enterSym e1 → leaveCandP enterSym e2 →
      amcw_approx (leaveRatioOf enterSym e1) (leaveRatioOf enterSym e2) = true →
      leaveRatioOf enterSym e1 = leaveRatioOf enterSym e2) →
    (∀ e ∈ seen ++ l, leaveCandP enterSym e → leaveRatioOf enterSym e < AMCW_NUM_MAX) →
    LeaveInv enterSym seen acc →
    LeaveInv enterSym (seen ++ l) (l.foldl (leaveStep enterSym) acc) := by
  intro l
  induction l with
  | nil =>
    intro seen acc _ _ hacc
    rw [List.append_nil]
    exact hacc
  | cons e0 rest ih =>
    intro seen acc hsep hmax hacc
    have hassoc : seen ++ e0 :: rest = (seen ++ [e0]) ++ rest := by
      rw [List.append_assoc]
      rfl
    rw [hassoc, List.foldl_cons]
    apply ih (seen ++ [e0]) (leaveStep enterSym acc e0)
    · exact fun e1 e2 h1 h2 => hsep e1 e2 (by rw [hassoc]; exact h1) (by rw [hassoc]; exact h2)
    · exact fun e he => hmax e (by rw [hassoc]; exact he)
    · by_cases hcand : leaveCandP enterSym e0
      · rcases hcand with ⟨hpiv, c, hlk, hc⟩
        rw [leaveStep_cand enterSym acc e0 c hlk hpiv hc]
        have he0seen : e0 ∈ seen ++ e0 :: rest := by
          rw [List.mem_append]
          exact Or.inr (List.mem_cons_self _ _)
        have he0max : leaveRatioOf enterSym e0 < AMCW_NUM_MAX :=
          hmax e0 he0seen ⟨hpiv, c, hlk, hc⟩
        rcases hacc with ⟨haccv, hnone⟩ | ⟨e, hemem, hecand, hr, hk, hmin, hid⟩
        · rw [haccv]
          rw [if_pos (Or.inl he0max)]
          right
          refine ⟨e0, List.mem_append.mpr (Or.inr (List.mem_singleton.mpr rfl)), ⟨hpiv, c, hlk, hc⟩, rfl, rfl, ?_, ?_⟩
          · intro e2 he2 hc2
            rcases List.mem_append.mp he2 with h | h
            · exact absurd hc2 (hnone e2 h)
            · rcases List.mem_singleton.mp h with rfl
              exact le_refl _
          · intro e2 he2 hc2 _
            rcases List.mem_append.mp he2 with h | h
            · exact absurd hc2 (hnone e2 h)
            · rcases List.mem_singleton.mp h with rfl
              exact le_refl _
        · have heseen : e ∈ seen ++ e0 :: rest := by
            rw [List.mem_append]; exact Or.inl hemem
          by_cases hlt : leaveRatioOf enterSym e0 < acc.1
          · rw [if_pos (Or.inl hlt)]
            right
            refine ⟨e0, List.mem_append.mpr (Or.inr (List.mem_singleton.mpr rfl)), ⟨hpiv, c, hlk, hc⟩, rfl, rfl, ?_, ?_⟩
            · intro e2 he2 hc2
              rcases List.mem_append.mp he2 with h | h
              · calc leaveRatioOf enterSym e0 ≤ acc.1 := le_of_lt hlt
                  _ = leaveRatioOf enterSym e := hr
                  _ ≤ leaveRatioOf enterSym e2 := hmin e2 h hc2
              · rcases List.mem_singleton.mp h with rfl
                exact le_refl _
            · intro e2 he2 hc2 heq
              rcases List.mem_append.mp he2 with h | h
              · exfalso
                have h1 : leaveRatioOf enterSym e ≤ leaveRatioOf enterSym e2 := hmin e2 h hc2
                rw [heq] at h1
                rw [hr] at hlt
                exact absurd (lt_of_lt_of_le hlt h1) (lt_irrefl _)
              · rcases List.mem_singleton.mp h with rfl
                exact le_refl _
          · have hge : acc.1 ≤ leaveRatioOf enterSym e0 := le_of_not_lt hlt
            by_cases happ : amcw_approx (leaveRatioOf enterSym e0) acc.1 = true
            · have heq0 : leaveRatioOf enterSym e0 = leaveRatioOf enterSym e := by
                apply hsep e0 e he0seen heseen ⟨hpiv, c, hlk, hc⟩ hecand
                rw [← hr]
                exact happ
              by_cases hidlt : e0.1.id < acc.2.id
              · rw [if_pos (Or.inr ⟨happ, hidlt⟩)]
                right
                refine ⟨e0, List.mem_append.mpr (Or.inr (List.mem_singleton.mpr rfl)), ⟨hpiv, c, hlk, hc⟩, rfl, rfl, ?_, ?_⟩
                · intro e2 he2 hc2
                  rcases List.mem_append.mp he2 with h | h
                  · rw [heq0]
                    exact hmin e2 h hc2
                  · rcases List.mem_singleton.mp h with rfl
                    exact le_refl _
                · intro e2 he2 hc2 heq2
                  rcases List.mem_append.mp he2 with h | h
                  · have : e.1.id ≤ e2.1.id := hid e2 h hc2 (by rw [heq2, heq0])
                    rw [hk] at hidlt
                    exact le_of_lt (lt_of_lt_of_le hidlt this)
                  · rcases List.mem_singleton.mp h with rfl
                    exact le_refl _
              · rw [if_neg (by
                  intro hor
                  rcases hor with h | ⟨_, h⟩
                  · exact hlt h
                  · exact hidlt h)]
                right
                refine ⟨e, by rw [List.mem_append]; exact Or.inl hemem, hecand, hr, hk, ?_, ?_⟩
                · intro e2 he2 hc2
                  rcases List.mem_append.mp he2 with h | h
                  · exact hmin e2 h hc2
                  · rcases List.mem_singleton.mp h with rfl
                    rw [heq0]
                · intro e2 he2 hc2 heq2
                  rcases List.mem_append.mp he2 with h | h
                  · exact hid e2 h hc2 heq2
                  · rcases List.mem_singleton.mp h with rfl
                    rw [hk] at hidlt
                    exact le_of_not_lt hidlt
            · have hne : leaveRatioOf enterSym e0 ≠ leaveRatioOf enterSym e := by
                intro heq0
                apply happ
                rw [← hr] at heq0
                rw [heq0]
                exact approx_refl _
              rw [if_neg (by
                intro hor
                rcases hor with h | ⟨h, _⟩
                · exact hlt h
                · exact happ h)]
              right
              refine ⟨e, by rw [List.mem_append]; exact Or.inl hemem, hecand, hr, hk, ?_, ?_⟩
              · intro e2 he2 hc2
                rcases List.mem_append.mp he2 with h | h
                · exact hmin e2 h hc2
                · rcases List.mem_singleton.mp h with rfl
                  rw [← hr]
                  exact hge
              · intro e2 he2 hc2 heq2
                rcases List.mem_append.mp he2 with h | h
                · exact hid e2 h hc2 heq2
                · rcases List.mem_singleton.mp h with rfl
                  exact absurd heq2 hne
      · rw [leaveStep_skip enterSym acc e0 hcand]
        rcases hacc with ⟨haccv, hnone⟩ | ⟨e, hemem, hecand, hr, hk, hmin, hid⟩
        · left
          refine ⟨haccv, ?_⟩
          intro e2 he2
          rcases List.mem_append.mp he2 with h | h
          · exact hnone e2 h
          · rcases List.mem_singleton.mp h with rfl
            exact hcand
        · right
          refine ⟨e, by rw [List.mem_append]; exact Or.inl hemem, hecand, hr, hk, ?_, ?_⟩
          · intro e2 he2 hc2
            rcases List.mem_append.mp he2 with h | h
            · exact hmin e2 h hc2
            · rcases List.mem_singleton.mp h with rfl
              exact absurd hc2 hcand
          · intro e2 he2 hc2 heq2
            rcases List.mem_append.mp he2 with h | h
            · exact hid e2 h hc2 heq2
            · rcases List.mem_singleton.mp h with rfl
              exact absurd hc2 hcand

/-- A solver state with one negative objective term and two candidate leaving
rows whose ratios are 1 and 9999999/10^7: strictly different, but
approximately equal within EPS. -/
def sC3 : amcw_Solver :=
  { amcw_newsolver with
    symbol_count := 9,
    objective := ⟨0, [(⟨9, SymType.error⟩, -1)]⟩,
    rows := [(⟨5, SymType.slack⟩, ⟨1, [(⟨9, SymType.error⟩, -1)]⟩),
             (⟨7, SymType.slack⟩, ⟨mkRat 9999999 10000000, [(⟨9, SymType.error⟩, -1)]⟩)] }

/-- C3 counterexample: both rows are pivotable candidates carrying the
entering symbol with negative coefficient, and their ratios are within EPS of
each other, yet `amcw_optimize`'s scan selects row-key id 7 over the smaller
id 5 (the strictly smaller ratio wins regardless of id), and the pivot of
`amcw_optimize` removes row 7 — refuting the claimed smaller-id tie-break for
EPS-ties. -/
theorem c3_counterexample :
    chooseEnter sC3.objective = ⟨9, SymType.error⟩ ∧
    chooseLeave sC3 ⟨9, SymType.error⟩ = ⟨7, SymType.slack⟩ ∧
    (amcw_optimize_main 1 sC3).1.rows.map (fun e => e.1)
      = [⟨5, SymType.slack⟩, ⟨9, SymType.error⟩] ∧
    amcw_approx (leaveRatioOf ⟨9, SymType.error⟩ (sC3.rows.get ⟨0, by decide⟩))
      (leaveRatioOf ⟨9, SymType.error⟩ (sC3.rows.get ⟨1, by decide⟩)) = true ∧
    amcw_ispivotable ⟨5, SymType.slack⟩ = true ∧
    lookupTerm ([(⟨9, SymType.error⟩, (-1 : amcw_Num))] : Terms) ⟨9, SymType.error⟩
      = some (-1) ∧
    (5 : Nat) < 7 := by
  exact ⟨by decide, by decide, by decide, by decide, by decide, by decide, by decide⟩

/-- C3 (amended): the entering symbol is the first non-dummy objective term
with strictly negative coefficient and `amcw_optimize` returns OK when none
exists; the leaving row is chosen among pivotable rows carrying the entering
symbol with non-positive coefficient, minimizing `-constant/coefficient`, and
the smaller row-key id wins only on exactly equal ratios — the claimed
smaller-id tie-break within EPS therefore holds whenever all candidate
ratios that are approximately equal are in fact equal. -/
theorem c3_pivot_selection :
    (∀ (s : amcw_Solver) (fuel : Nat),
      (∀ t ∈ s.objective.terms, amcw_isdummy t.1 = true ∨ 0 ≤ t.2) →
      amcw_optimize_main (fuel + 1) s = (s, AMCW_OK)) ∧
    (∀ (obj : amcw_Row) (e : amcw_Symbol), chooseEnter obj = e → e.id ≠ 0 →
      ∃ l1 c l2, obj.terms = l1 ++ (e, c) :: l2 ∧ amcw_isdummy e = false ∧ c < 0 ∧
        ∀ t ∈ l1, ¬ (amcw_isdummy t.1 = false ∧ t.2 < 0)) ∧
    (∀ (s : amcw_Solver) (enterSym : amcw_Symbol),
      (∀ e1 e2, e1 ∈ s.rows → e2 ∈ s.rows →
        leaveCandP enterSym e1 → leaveCandP enterSym e2 →
        amcw_approx (leaveRatioOf enterSym e1) (leaveRatioOf enterSym e2) = true →
        leaveRatioOf enterSym e1 = leaveRatioOf enterSym e2) →
      (∀ e ∈ s.rows, leaveCandP enterSym e → leaveRatioOf enterSym e < AMCW_NUM_MAX) →
      ((∀ e ∈ s.rows, ¬ leaveCandP enterSym e) → chooseLeave s enterSym = amcw_null) ∧
      (∀ e0 ∈ s.rows, leaveCandP enterSym e0 →
        ∃ e, e ∈ s.rows ∧ leaveCandP enterSym e ∧ chooseLeave s enterSym = e.1 ∧
          (∀ e2 ∈ s.rows, leaveCandP enterSym e2 →
            leaveRatioOf enterSym e ≤ leaveRatioOf enterSym e2) ∧
          (∀ e2 ∈ s.rows, leaveCandP enterSym e2 →
            leaveRatioOf enterSym e2 = leaveRatioOf enterSym e → e.1.id ≤ e2.1.id))) := by
  refine ⟨?_, ?_, ?_⟩
  · intro s fuel hno
    have henter : chooseEnter s.objective = amcw_null := by
      unfold chooseEnter
      rw [List.find?_eq_none.mpr]
      intro t ht
      rcases hno t ht with h | h
      · simp [h]
      · simp [not_lt.mpr h]
    unfold amcw_optimize_main
    rw [henter]
    rfl
  · intro obj e hce hne
    unfold chooseEnter at hce
    cases hf : obj.terms.find? (fun t => !(amcw_isdummy t.1) && decide (t.2 < 0)) with
    | none =>
      rw [hf] at hce
      dsimp only at hce
      exact absurd (show e.id = 0 by rw [← hce]; rfl) hne
    | some t =>
      rw [hf] at hce
      dsimp only at hce
      rcases find?_split _ obj.terms t hf with ⟨l1, l2, heq, hpt, hl1⟩
      have hdc : amcw_isdummy t.1 = false ∧ t.2 < 0 := by
        have h := hpt
        simp only [Bool.and_eq_true, Bool.not_eq_true', decide_eq_true_eq] at h
        exact h
      refine ⟨l1, t.2, l2, ?_, ?_, hdc.2, ?_⟩
      · rw [heq, ← hce]
      · rw [← hce]; exact hdc.1
      · intro u hu hcontra
        have h2 := hl1 u hu
        rw [hcontra.1] at h2
        simp only [Bool.not_false, Bool.true_and, decide_eq_false_iff_not] at h2
        exact h2 hcontra.2
  · intro s enterSym hsep hmax
    have hinv := leaveFoldInv enterSym s.rows [] (AMCW_NUM_MAX, amcw_null)
      (by simpa using hsep) (by simpa using hmax)
      (Or.inl ⟨rfl, fun e he => absurd he (List.not_mem_nil _)⟩)
    rw [List.nil_append] at hinv
    constructor
    · intro hnone
      rcases hinv with ⟨hval, _⟩ | ⟨e, hemem, hecand, _⟩
      · unfold chooseLeave
        rw [hval]
      · exact absurd hecand (hnone e hemem)
    · intro e0 he0 hc0
      rcases hinv with ⟨_, hnone⟩ | ⟨e, hemem, hecand, hr, hk, hmin, hid⟩
      · exact absurd hc0 (hnone e0 he0)
      · exact ⟨e, hemem, hecand, hk, hmin, hid⟩

def w3s : amcw_Solver :=
  { amcw_newsolver with
    symbol_count := 9,
    objective := ⟨0, [(⟨9, SymType.error⟩, -1)]⟩,
    rows := [(⟨5, SymType.slack⟩, ⟨1, [(⟨9, SymType.error⟩, -1)]⟩)] }

/-- Witness for C3: on the empty solver the optimize loop returns OK at once,
and on a single-candidate tableau the leaving scan returns that row's key. -/
theorem c3_pivot_selection_witness :
    amcw_optimize_main 1 amcw_newsolver = (amcw_newsolver, AMCW_OK) ∧
    chooseLeave w3s ⟨9, SymType.error⟩ = ⟨5, SymType.slack⟩ := by
  constructor
  · exact c3_pivot_selection.1 amcw_newsolver 0
      (fun t ht => absurd ht (List.not_mem_nil t))
  · have hrows : w3s.rows
        = [(⟨5, SymType.slack⟩, ⟨1, [(⟨9, SymType.error⟩, (-1 : amcw_Num))]⟩)] := rfl
    have hsep : ∀ e1 e2, e1 ∈ w3s.rows → e2 ∈ w3s.rows →
        leaveCandP ⟨9, SymType.error⟩ e1 → leaveCandP ⟨9, SymType.error⟩ e2 →
        amcw_approx (leaveRatioOf ⟨9, SymType.error⟩ e1)
          (leaveRatioOf ⟨9, SymType.error⟩ e2) = true →
        leaveRatioOf ⟨9, SymType.error⟩ e1 = leaveRatioOf ⟨9, SymType.error⟩ e2 := by
      intro e1 e2 h1 h2 _ _ _
      rw [hrows] at h1 h2
      rcases List.mem_singleton.mp h1 with rfl
      rcases List.mem_singleton.mp h2 with rfl
      rfl
    have hmax : ∀ e ∈ w3s.rows, leaveCandP ⟨9, SymType.error⟩ e →
        leaveRatioOf ⟨9, SymType.error⟩ e < AMCW_NUM_MAX := by
      intro e he _
      rw [hrows] at he
      rcases List.mem_singleton.mp he with rfl
      decide
    have hcand : leaveCandP ⟨9, SymType.error⟩
        (⟨5, SymType.slack⟩, ⟨1, [(⟨9, SymType.error⟩, (-1 : amcw_Num))]⟩) :=
      ⟨by decide, ⟨-1, by decide, by decide⟩⟩
    rcases (c3_pivot_selection.2.2 w3s ⟨9, SymType.error⟩ hsep hmax).2
        (⟨5, SymType.slack⟩, ⟨1, [(⟨9, SymType.error⟩, (-1 : amcw_Num))]⟩)
        (by rw [hrows]; exact List.mem_singleton.mpr rfl) hcand
      with ⟨e, hemem, _, hk, _, _⟩
    rw [hrows] at hemem
    rcases List.mem_singleton.mp hemem with rfl
    exact hk

end AmCassowary

namespace AmCassowary

/-! ## C7: frame lemmas through the add pipeline -/

theorem getCons_congr_constraints (s s' : amcw_Solver) (h : s.constraints = s'.constraints)
    (cid : Nat) : getCons s cid = getCons s' cid := by
  unfold getCons
  rw [h]

theorem getCons_putCons (s : amcw_Solver) (cid : Nat) (c : amcw_Constraint) (i : Nat) :
    getCons (putCons s cid c) i
      = if i = cid then (getCons s i).map (fun _ => c) else getCons s i := by
  unfold getCons putCons
  by_cases h0 : i = 0
  · simp only [if_pos h0]
    by_cases h : i = cid <;> simp [h]
  · simp only [if_neg h0]
    rw [find?_mapval (fun a => a) s.constraints cid (fun e => (e.1, c)) (fun e => rfl) i]
    by_cases h : i = cid
    · simp only [if_pos h, Option.map_map]
      rfl
    · simp only [if_neg h]

theorem getCons_putCons_self (s : amcw_Solver) (cid : Nat) (c d : amcw_Constraint)
    (h : getCons s cid = some d) : getCons (putCons s cid c) cid = some c := by
  rw [getCons_putCons, if_pos rfl, h]
  rfl

theorem initsymbol_constraints (s : amcw_Solver) (k : amcw_Symbol) (ty : SymType) :
    (initsymbol s k ty).1.constraints = s.constraints := by
  unfold initsymbol
  split <;> rfl

theorem initsymbol_vars (s : amcw_Solver) (k : amcw_Symbol) (ty : SymType) :
    (initsymbol s k ty).1.vars = s.vars := by
  unfold initsymbol
  split <;> rfl

theorem substRowsStep_constraints (var : amcw_Symbol) (expr : amcw_Row) (s : amcw_Solver)
    (k : amcw_Symbol) : (substRowsStep var expr s k).constraints = s.constraints := by
  unfold substRowsStep
  by_cases he : amcw_isexternal k = true
  · rw [if_pos he]
    exact (markdirtySym_frame _ k).2.2.2.2.1
  · rw [if_neg he]
    exact (infeasible_frame _ k).2.2.2.2.1

theorem substitute_rows_constraints (s : amcw_Solver) (var : amcw_Symbol) (expr : amcw_Row) :
    (amcw_substitute_rows s var expr).constraints = s.constraints := by
  unfold amcw_substitute_rows
  show ((s.rows.map (fun e => e.1)).foldl (substRowsStep var expr) s).constraints = s.constraints
  exact foldl_preserve (fun st => st.constraints = s.constraints) (substRowsStep var expr) _ s rfl
    (fun st k _ hst => by
      show (substRowsStep var expr st k).constraints = s.constraints
      rw [substRowsStep_constraints]
      exact hst)

theorem takerow_constraints (s : amcw_Solver) (k : amcw_Symbol) :
    (amcw_takerow s k).1.constraints = s.constraints := by
  unfold amcw_takerow
  cases getRow s k with
  | none => rfl
  | some r => rfl

theorem putrow_constraints (s : amcw_Solver) (k : amcw_Symbol) (r : amcw_Row) :
    (amcw_putrow s k r).constraints = s.constraints := by
  unfold amcw_putrow
  by_cases h : s.rows.any (fun e => e.1.id == k.id) = true
  · rw [if_pos h]
  · rw [if_neg h]

theorem optimize_main_frame : ∀ (fuel : Nat) (s : amcw_Solver),
    (amcw_optimize_main fuel s).1.constraints = s.constraints ∧
    (amcw_optimize_main fuel s).1.vars = s.vars
  | 0, s => ⟨rfl, rfl⟩
  | fuel + 1, s => by
    unfold amcw_optimize_main
    by_cases h1 : (chooseEnter s.objective).id = 0
    · rw [if_pos h1]
      exact ⟨rfl, rfl⟩
    · rw [if_neg h1]
      by_cases h2 : (chooseLeave s (chooseEnter s.objective)).id = 0
      · rw [if_pos h2]
        exact ⟨rfl, rfl⟩
      · rw [if_neg h2]
        cases htk : amcw_takerow s (chooseLeave s (chooseEnter s.objective)) with
        | mk s1 o =>
          have hs1c : s1.constraints = s.constraints := by
            have := takerow_constraints s (chooseLeave s (chooseEnter s.objective))
            rw [htk] at this
            exact this
          have hs1v : s1.vars = s.vars := by
            have := takerow_vars s (chooseLeave s (chooseEnter s.objective))
            rw [htk] at this
            exact this
          cases o with
          | none => exact ⟨hs1c, hs1v⟩
          | some tmp0 =>
            dsimp only
            have hrec := optimize_main_frame fuel
              (amcw_putrow (amcw_substitute_rows s1 (chooseEnter s.objective)
                (amcw_solvefor tmp0 (chooseEnter s.objective)
                  (chooseLeave s (chooseEnter s.objective))))
                (chooseEnter s.objective)
                (amcw_solvefor tmp0 (chooseEnter s.objective)
                  (chooseLeave s (chooseEnter s.objective))))
            refine ⟨?_, ?_⟩
            · rw [hrec.1, putrow_constraints, substitute_rows_constraints, hs1c]
            · rw [hrec.2, putrow_vars, substitute_rows_vars, hs1v]

theorem optimize_aux_frame : ∀ (fuel : Nat) (s : amcw_Solver) (obj : amcw_Row),
    (amcw_optimize_aux fuel s obj).1.constraints = s.constraints ∧
    (amcw_optimize_aux fuel s obj).1.vars = s.vars
  | 0, s, obj => ⟨rfl, rfl⟩
  | fuel + 1, s, obj => by
    unfold amcw_optimize_aux
    by_cases h1 : (chooseEnter obj).id = 0
    · rw [if_pos h1]
      exact ⟨rfl, rfl⟩
    · rw [if_neg h1]
      by_cases h2 : (chooseLeave s (chooseEnter obj)).id = 0
      · rw [if_pos h2]
        exact ⟨rfl, rfl⟩
      · rw [if_neg h2]
        cases htk : amcw_takerow s (chooseLeave s (chooseEnter obj)) with
        | mk s1 o =>
          have hs1c : s1.constraints = s.constraints := by
            have := takerow_constraints s (chooseLeave s (chooseEnter obj))
            rw [htk] at this
            exact this
          have hs1v : s1.vars = s.vars := by
            have := takerow_vars s (chooseLeave s (chooseEnter obj))
            rw [htk] at this
            exact this
          cases o with
          | none => exact ⟨hs1c, hs1v⟩
          | some tmp0 =>
            dsimp only
            have hrec := optimize_aux_frame fuel
              (amcw_putrow (amcw_substitute_rows s1 (chooseEnter obj)
                (amcw_solvefor tmp0 (chooseEnter obj) (chooseLeave s (chooseEnter obj))))
                (chooseEnter obj)
                (amcw_solvefor tmp0 (chooseEnter obj) (chooseLeave s (chooseEnter obj))))
              (amcw_substitute obj (chooseEnter obj)
                (amcw_solvefor tmp0 (chooseEnter obj) (chooseLeave s (chooseEnter obj))))
            refine ⟨?_, ?_⟩
            · rw [hrec.1, putrow_constraints, substitute_rows_constraints, hs1c]
            · rw [hrec.2, putrow_vars, substitute_rows_vars, hs1v]

theorem getVar_updList_isSome (l : List amcw_Symbol) (s : amcw_Solver) (sym : amcw_Symbol) :
    (getVar (updList l s) sym).isSome = (getVar s sym).isSome := by
  cases hv : getVar s sym with
  | none => rw [getVar_updList_none l s sym hv]
  | some v =>
    by_cases hm : sym.id ∈ l.map (fun x => x.id)
    · rw [getVar_updList_mem l s sym v hm hv]
      rfl
    · rw [getVar_updList_notmem l s sym hm, hv]

theorem updatevars_getVar_isSome (s : amcw_Solver) (sym : amcw_Symbol) :
    (getVar (amcw_updatevars s) sym).isSome = (getVar s sym).isSome := by
  have h : getVar (amcw_updatevars s) sym = getVar (updList s.dirty_vars s) sym := rfl
  rw [h, getVar_updList_isSome]

theorem updatevars_constraints (s : amcw_Solver) :
    (amcw_updatevars s).constraints = s.constraints := by
  have h : (amcw_updatevars s).constraints = (updList s.dirty_vars s).constraints := rfl
  rw [h]
  exact (updList_frame s.dirty_vars s).2.2.2.1

theorem remove_errors_frame (s : amcw_Solver) (cons : amcw_Constraint) :
    (amcw_remove_errors s cons).1.constraints = s.constraints ∧
    (amcw_remove_errors s cons).1.vars = s.vars := by
  unfold amcw_remove_errors
  dsimp only
  by_cases h1 : amcw_iserror cons.marker = true
  · rw [if_pos h1]
    by_cases h2 : amcw_iserror cons.other = true
    · rw [if_pos h2]
      constructor <;> (split <;> rfl)
    · rw [if_neg h2]
      constructor <;> (split <;> rfl)
  · rw [if_neg h1]
    by_cases h2 : amcw_iserror cons.other = true
    · rw [if_pos h2]
      constructor <;> (split <;> rfl)
    · rw [if_neg h2]
      constructor <;> (split <;> rfl)

end AmCassowary

namespace AmCassowary

theorem makerowMerge_frame (s : amcw_Solver) (cons : amcw_Constraint) :
    (makerowMerge s cons).1.constraints = s.constraints ∧
    (makerowMerge s cons).1.vars = s.vars := by
  unfold makerowMerge
  exact foldl_preserve
    (fun (acc : amcw_Solver × amcw_Row) =>
      acc.1.constraints = s.constraints ∧ acc.1.vars = s.vars)
    (fun acc t =>
      let s1 := markdirtySym acc.1 t.1
      (s1, amcw_mergerow s1 acc.2 t.1 t.2))
    cons.expression.terms (s, ⟨cons.expression.constant, []⟩) ⟨rfl, rfl⟩
    (fun b a _ hb => by
      refine ⟨?_, ?_⟩
      · show (markdirtySym b.1 a.1).constraints = s.constraints
        rw [(markdirtySym_frame b.1 a.1).2.2.2.2.1]
        exact hb.1
      · show (markdirtySym b.1 a.1).vars = s.vars
        rw [(markdirtySym_frame b.1 a.1).2.1]
        exact hb.2)

theorem makerow_frame (s : amcw_Solver) (cons : amcw_Constraint) :
    (amcw_makerow s cons).1.constraints = s.constraints ∧
    (amcw_makerow s cons).1.vars = s.vars := by
  have hmm := makerowMerge_frame s cons
  unfold amcw_makerow
  dsimp only
  split
  · split
    · refine ⟨?_, ?_⟩
      · show (initsymbol (initsymbol (makerowMerge s cons).1 cons.marker SymType.slack).1
            cons.other SymType.error).1.constraints = s.constraints
        rw [initsymbol_constraints, initsymbol_constraints]
        exact hmm.1
      · show (initsymbol (initsymbol (makerowMerge s cons).1 cons.marker SymType.slack).1
            cons.other SymType.error).1.vars = s.vars
        rw [initsymbol_vars, initsymbol_vars]
        exact hmm.2
    · refine ⟨?_, ?_⟩
      · show (initsymbol (makerowMerge s cons).1 cons.marker SymType.slack).1.constraints
          = s.constraints
        rw [initsymbol_constraints]
        exact hmm.1
      · show (initsymbol (makerowMerge s cons).1 cons.marker SymType.slack).1.vars = s.vars
        rw [initsymbol_vars]
        exact hmm.2
  · split
    · refine ⟨?_, ?_⟩
      · show (initsymbol (makerowMerge s cons).1 cons.marker SymType.dummy).1.constraints
          = s.constraints
        rw [initsymbol_constraints]
        exact hmm.1
      · show (initsymbol (makerowMerge s cons).1 cons.marker SymType.dummy).1.vars = s.vars
        rw [initsymbol_vars]
        exact hmm.2
    · refine ⟨?_, ?_⟩
      · show (initsymbol (initsymbol (makerowMerge s cons).1 cons.marker SymType.error).1
            cons.other SymType.error).1.constraints = s.constraints
        rw [initsymbol_constraints, initsymbol_constraints]
        exact hmm.1
      · show (initsymbol (initsymbol (makerowMerge s cons).1 cons.marker SymType.error).1
            cons.other SymType.error).1.vars = s.vars
        rw [initsymbol_vars, initsymbol_vars]
        exact hmm.2

theorem remove_errors_snd (s : amcw_Solver) (cons : amcw_Constraint) :
    (amcw_remove_errors s cons).2 = { cons with marker := amcw_null, other := amcw_null } := rfl

theorem removeC_frame (fuel : Nat) (s : amcw_Solver) (cons : amcw_Constraint) :
    (amcw_removeC fuel s cons).1.constraints = s.constraints ∧
    (∀ sym, (getVar (amcw_removeC fuel s cons).1 sym).isSome = (getVar s sym).isSome) := by
  unfold amcw_removeC
  by_cases h0 : cons.marker.id = 0
  · rw [if_pos h0]
    exact ⟨rfl, fun sym => rfl⟩
  · rw [if_neg h0]
    dsimp only
    have hre := remove_errors_frame s cons
    have hmid : ∀ (s2 : amcw_Solver), s2.constraints = s.constraints → s2.vars = s.vars →
        (if (amcw_optimize_main fuel s2).1.auto_update then
            amcw_updatevars (amcw_optimize_main fuel s2).1
          else (amcw_optimize_main fuel s2).1).constraints = s.constraints ∧
        (∀ sym, (getVar (if (amcw_optimize_main fuel s2).1.auto_update then
              amcw_updatevars (amcw_optimize_main fuel s2).1
            else (amcw_optimize_main fuel s2).1) sym).isSome = (getVar s sym).isSome) := by
      intro s2 hc hv
      have hopt := optimize_main_frame fuel s2
      by_cases ha : (amcw_optimize_main fuel s2).1.auto_update = true
      · rw [if_pos ha]
        refine ⟨?_, ?_⟩
        · rw [updatevars_constraints, hopt.1, hc]
        · intro sym
          rw [updatevars_getVar_isSome,
            getVar_congr_vars _ s2 hopt.2 sym, getVar_congr_vars s2 s hv sym]
      · rw [if_neg ha]
        refine ⟨?_, ?_⟩
        · rw [hopt.1, hc]
        · intro sym
          rw [getVar_congr_vars _ s2 hopt.2 sym, getVar_congr_vars s2 s hv sym]
    cases htk : amcw_takerow (amcw_remove_errors s cons).1 cons.marker with
    | mk sA o =>
      have hAc : sA.constraints = s.constraints := by
        have := takerow_constraints (amcw_remove_errors s cons).1 cons.marker
        rw [htk] at this
        rw [this, hre.1]
      have hAv : sA.vars = s.vars := by
        have := takerow_vars (amcw_remove_errors s cons).1 cons.marker
        rw [htk] at this
        rw [this, hre.2]
      cases o with
      | some r => exact hmid sA hAc hAv
      | none =>
        dsimp only
        by_cases hex : (amcw_get_leaving_row sA cons.marker).id = 0
        · rw [if_pos hex]
          exact hmid sA hAc hAv
        · rw [if_neg hex]
          cases htk2 : amcw_takerow sA (amcw_get_leaving_row sA cons.marker) with
          | mk sB o2 =>
            have hBc : sB.constraints = s.constraints := by
              have := takerow_constraints sA (amcw_get_leaving_row sA cons.marker)
              rw [htk2] at this
              rw [this, hAc]
            have hBv : sB.vars = s.vars := by
              have := takerow_vars sA (amcw_get_leaving_row sA cons.marker)
              rw [htk2] at this
              rw [this, hAv]
            cases o2 with
            | none => exact hmid sB hBc hBv
            | some tmp =>
              dsimp only
              refine hmid _ ?_ ?_
              · rw [substitute_rows_constraints, hBc]
              · rw [substitute_rows_vars, hBv]

theorem removeC_snd (fuel : Nat) (s : amcw_Solver) (cons : amcw_Constraint) :
    (amcw_removeC fuel s cons).2.strength = cons.strength := by
  unfold amcw_removeC
  by_cases h0 : cons.marker.id = 0
  · rw [if_pos h0]
  · rw [if_neg h0]
    rfl

theorem delColA_frame (s : amcw_Solver) (a : amcw_Symbol) :
    (delColA s a).constraints = s.constraints ∧ (delColA s a).vars = s.vars := by
  unfold delColA
  split <;> exact ⟨rfl, rfl⟩

theorem tryAddPivot_frame (s : amcw_Solver) (row : amcw_Row) (cons : amcw_Constraint)
    (subject : amcw_Symbol) :
    (tryAddPivot s row cons subject).1.constraints = s.constraints ∧
    (tryAddPivot s row cons subject).1.vars = s.vars := by
  unfold tryAddPivot
  refine ⟨?_, ?_⟩
  · show (amcw_putrow (amcw_substitute_rows s subject (amcw_solvefor row subject amcw_null))
      subject (amcw_solvefor row subject amcw_null)).constraints = s.constraints
    rw [putrow_constraints, substitute_rows_constraints]
  · show (amcw_putrow (amcw_substitute_rows s subject (amcw_solvefor row subject amcw_null))
      subject (amcw_solvefor row subject amcw_null)).vars = s.vars
    rw [putrow_vars, substitute_rows_vars]

theorem artFinish_frame (fuel : Nat) (s : amcw_Solver) (cons : amcw_Constraint) (ret : Int) :
    (artFinish fuel s cons ret).1.constraints = s.constraints ∧
    (∀ sym, (getVar (artFinish fuel s cons ret).1 sym).isSome = (getVar s sym).isSome) ∧
    (artFinish fuel s cons ret).2.1.strength = cons.strength := by
  unfold artFinish
  split
  · have h := removeC_frame fuel s cons
    exact ⟨h.1, h.2, removeC_snd fuel s cons⟩
  · exact ⟨rfl, fun sym => rfl, rfl⟩

end AmCassowary

namespace AmCassowary

theorem optimize_aux_constraints (fuel : Nat) (s : amcw_Solver) (obj : amcw_Row) :
    (amcw_optimize_aux fuel s obj).1.constraints = s.constraints :=
  (optimize_aux_frame fuel s obj).1

theorem optimize_aux_vars (fuel : Nat) (s : amcw_Solver) (obj : amcw_Row) :
    (amcw_optimize_aux fuel s obj).1.vars = s.vars :=
  (optimize_aux_frame fuel s obj).2

theorem add_with_artificial_frame (fuel : Nat) (s : amcw_Solver) (row : amcw_Row)
    (cons : amcw_Constraint) :
    (amcw_add_with_artificial fuel s row cons).1.constraints = s.constraints ∧
    (∀ sym, (getVar (amcw_add_with_artificial fuel s row cons).1 sym).isSome
      = (getVar s sym).isSome) ∧
    (amcw_add_with_artificial fuel s row cons).2.1.strength = cons.strength := by
  unfold amcw_add_with_artificial
  dsimp only
  split
  · rename_i s3 tmp3 heq
    have hc := congrArg (fun p => (p : amcw_Solver × Option amcw_Row).1.constraints) heq
    have hv := congrArg (fun p => (p : amcw_Solver × Option amcw_Row).1.vars) heq
    simp only [takerow_constraints, optimize_aux_constraints, putrow_constraints] at hc
    simp only [takerow_vars, optimize_aux_vars, putrow_vars] at hv
    have hc3 : s3.constraints = s.constraints := hc.symm
    have hv3 : s3.vars = s.vars := hv.symm
    split
    · exact ⟨hc3, fun sym => getVar_congr_vars _ s hv3 sym ▸ rfl, rfl⟩
    · split
      · exact ⟨hc3, fun sym => getVar_congr_vars _ s hv3 sym ▸ rfl, rfl⟩
      · rename_i te hfe
        have hart := artFinish_frame fuel
          (delColA (amcw_putrow (amcw_substitute_rows s3 te.1 (amcw_solvefor tmp3 te.1
            (amcw_newsymbol s.symbol_count SymType.slack).1)) te.1
            (amcw_solvefor tmp3 te.1 (amcw_newsymbol s.symbol_count SymType.slack).1))
            (amcw_newsymbol s.symbol_count SymType.slack).1) cons
          (if amcw_nearzero (amcw_optimize_aux fuel
              (amcw_putrow { s with symbol_count := (amcw_newsymbol s.symbol_count
                SymType.slack).2 - 1 } (amcw_newsymbol s.symbol_count SymType.slack).1 row)
              (amcw_addrow amcw_initrow row 1)).2.1.constant
            then AMCW_OK else AMCW_UNBOUND)
        refine ⟨?_, ?_, hart.2.2⟩
        · rw [hart.1, (delColA_frame _ _).1, putrow_constraints, substitute_rows_constraints, hc3]
        · intro sym
          rw [hart.2.1 sym]
          have hveq : (delColA (amcw_putrow (amcw_substitute_rows s3 te.1 (amcw_solvefor tmp3
              te.1 (amcw_newsymbol s.symbol_count SymType.slack).1)) te.1
              (amcw_solvefor tmp3 te.1 (amcw_newsymbol s.symbol_count SymType.slack).1))
              (amcw_newsymbol s.symbol_count SymType.slack).1).vars = s.vars := by
            rw [(delColA_frame _ _).2, putrow_vars, substitute_rows_vars, hv3]
          rw [getVar_congr_vars _ s hveq sym]
  · rename_i s3 heq
    have hc := congrArg (fun p => (p : amcw_Solver × Option amcw_Row).1.constraints) heq
    have hv := congrArg (fun p => (p : amcw_Solver × Option amcw_Row).1.vars) heq
    simp only [takerow_constraints, optimize_aux_constraints, putrow_constraints] at hc
    simp only [takerow_vars, optimize_aux_vars, putrow_vars] at hv
    have hc3 : s3.constraints = s.constraints := hc.symm
    have hv3 : s3.vars = s.vars := hv.symm
    have hart := artFinish_frame fuel (delColA s3 (amcw_newsymbol s.symbol_count SymType.slack).1)
      cons
      (if amcw_nearzero (amcw_optimize_aux fuel
          (amcw_putrow { s with symbol_count := (amcw_newsymbol s.symbol_count
            SymType.slack).2 - 1 } (amcw_newsymbol s.symbol_count SymType.slack).1 row)
          (amcw_addrow amcw_initrow row 1)).2.1.constant
        then AMCW_OK else AMCW_UNBOUND)
    refine ⟨?_, ?_, hart.2.2⟩
    · rw [hart.1, (delColA_frame _ _).1, hc3]
    · intro sym
      rw [hart.2.1 sym]
      have hveq : (delColA s3 (amcw_newsymbol s.symbol_count SymType.slack).1).vars = s.vars := by
        rw [(delColA_frame _ _).2, hv3]
      rw [getVar_congr_vars _ s hveq sym]

end AmCassowary

namespace AmCassowary

theorem try_addrow_frame (fuel : Nat) (s : amcw_Solver) (row : amcw_Row)
    (cons : amcw_Constraint) :
    (amcw_try_addrow fuel s row cons).1.constraints = s.constraints ∧
    (∀ sym, (getVar (amcw_try_addrow fuel s row cons).1 sym).isSome
      = (getVar s sym).isSome) ∧
    (amcw_try_addrow fuel s row cons).2.1.strength = cons.strength := by
  unfold amcw_try_addrow
  dsimp only
  have main : ∀ (subj : amcw_Symbol),
      ((if subj.id ≠ 0 then tryAddPivot s row cons subj
        else if row.terms.all (fun t => amcw_isdummy t.1) then
          if amcw_nearzero row.constant then
            if cons.marker.id ≠ 0 then tryAddPivot s row cons cons.marker
            else amcw_add_with_artificial fuel s row cons
          else (s, cons, AMCW_UNSATISFIED)
        else amcw_add_with_artificial fuel s row cons)).1.constraints = s.constraints ∧
      (∀ sym, (getVar ((if subj.id ≠ 0 then tryAddPivot s row cons subj
        else if row.terms.all (fun t => amcw_isdummy t.1) then
          if amcw_nearzero row.constant then
            if cons.marker.id ≠ 0 then tryAddPivot s row cons cons.marker
            else amcw_add_with_artificial fuel s row cons
          else (s, cons, AMCW_UNSATISFIED)
        else amcw_add_with_artificial fuel s row cons)).1 sym).isSome
          = (getVar s sym).isSome) ∧
      ((if subj.id ≠ 0 then tryAddPivot s row cons subj
        else if row.terms.all (fun t => amcw_isdummy t.1) then
          if amcw_nearzero row.constant then
            if cons.marker.id ≠ 0 then tryAddPivot s row cons cons.marker
            else amcw_add_with_artificial fuel s row cons
          else (s, cons, AMCW_UNSATISFIED)
        else amcw_add_with_artificial fuel s row cons)).2.1.strength = cons.strength := by
    intro subj
    by_cases h1 : subj.id ≠ 0
    · rw [if_pos h1]
      exact ⟨(tryAddPivot_frame s row cons subj).1,
        fun sym => congrArg Option.isSome
          (getVar_congr_vars _ s (tryAddPivot_frame s row cons subj).2 sym), rfl⟩
    · rw [if_neg h1]
      by_cases h2 : row.terms.all (fun t => amcw_isdummy t.1) = true
      · rw [if_pos h2]
        by_cases h3 : amcw_nearzero row.constant = true
        · rw [if_pos h3]
          by_cases h4 : cons.marker.id ≠ 0
          · rw [if_pos h4]
            exact ⟨(tryAddPivot_frame s row cons cons.marker).1,
              fun sym => congrArg Option.isSome
                (getVar_congr_vars _ s (tryAddPivot_frame s row cons cons.marker).2 sym), rfl⟩
          · rw [if_neg h4]
            have h := add_with_artificial_frame fuel s row cons
            exact ⟨h.1, h.2.1, h.2.2⟩
        · rw [if_neg h3]
          exact ⟨rfl, fun sym => rfl, rfl⟩
      · rw [if_neg h2]
        have h := add_with_artificial_frame fuel s row cons
        exact ⟨h.1, h.2.1, h.2.2⟩
  exact main _

end AmCassowary

namespace AmCassowary

end AmCassowary

namespace AmCassowary

/-! ## C1: symbol-predicate preservation through the tableau engine -/

/-- Every term key of the table satisfies `g`. -/
def TermsOk (g : amcw_Symbol → Prop) (ts : Terms) : Prop := ∀ t ∈ ts, g t.1

/-- Every term key of the row satisfies `g`. -/
def RowOk (g : amcw_Symbol → Prop) (r : amcw_Row) : Prop := TermsOk g r.terms

/-- Every row key and every term key of the tableau (objective included)
satisfies `g`. -/
def SolverOk (g : amcw_Symbol → Prop) (st : amcw_Solver) : Prop :=
  RowOk g st.objective ∧ ∀ e ∈ st.rows, g e.1 ∧ RowOk g e.2

theorem TermsOk_addvarTerms (g : amcw_Symbol → Prop) (s : amcw_Symbol) (v : amcw_Num)
    (hg : g s) : ∀ (ts : Terms), TermsOk g ts → TermsOk g (addvarTerms ts s v)
  | [], _ => by
    intro t ht
    unfold addvarTerms at ht
    by_cases hz : amcw_nearzero v = true
    · rw [if_pos hz] at ht
      exact absurd ht (List.not_mem_nil t)
    · rw [if_neg hz] at ht
      rcases List.mem_singleton.mp ht with rfl
      exact hg
  | e :: ts, h => by
    intro t ht
    unfold addvarTerms at ht
    by_cases hid : e.1.id = s.id
    · rw [if_pos hid] at ht
      by_cases hz : amcw_nearzero (qadd e.2 v) = true
      · rw [if_pos hz] at ht
        exact h t (List.mem_cons_of_mem e ht)
      · rw [if_neg hz] at ht
        rcases List.mem_cons.mp ht with rfl | hmem
        · exact h e (List.mem_cons_self e ts)
        · exact h t (List.mem_cons_of_mem e hmem)
    · rw [if_neg hid] at ht
      rcases List.mem_cons.mp ht with rfl | hmem
      · exact h _ (List.mem_cons_self _ _)
      · exact TermsOk_addvarTerms g s v hg ts (fun u hu => h u (List.mem_cons_of_mem e hu))
          t hmem

theorem RowOk_addvar (g : amcw_Symbol → Prop) (r : amcw_Row) (s : amcw_Symbol)
    (v : amcw_Num) (hr : RowOk g r) (hg : g s) : RowOk g (amcw_addvar r s v) := by
  unfold amcw_addvar
  by_cases h0 : s.id = 0
  · rw [if_pos h0]
    exact hr
  · rw [if_neg h0]
    exact TermsOk_addvarTerms g s v hg r.terms hr

theorem RowOk_multiply (g : amcw_Symbol → Prop) (r : amcw_Row) (m : amcw_Num)
    (hr : RowOk g r) : RowOk g (amcw_multiply r m) := by
  intro t ht
  rcases List.mem_map.mp ht with ⟨u, hu, rfl⟩
  exact hr u hu

theorem TermsOk_eraseTerm (g : amcw_Symbol → Prop) (ts : Terms) (k : amcw_Symbol)
    (h : TermsOk g ts) : TermsOk g (eraseTerm ts k) :=
  fun t ht => h t (mem_eraseTerm ts k t ht)

theorem RowOk_addrow (g : amcw_Symbol → Prop) (r other : amcw_Row) (m : amcw_Num)
    (hr : RowOk g r) (ho : RowOk g other) : RowOk g (amcw_addrow r other m) := by
  unfold amcw_addrow
  exact foldl_preserve (RowOk g) _ other.terms _ hr
    (fun b t ht hb => RowOk_addvar g b t.1 (qmul t.2 m) hb (ho t ht))

theorem RowOk_solvefor (g : amcw_Symbol → Prop) (r : amcw_Row) (entry exitSym : amcw_Symbol)
    (hr : RowOk g r) (he : g exitSym) : RowOk g (amcw_solvefor r entry exitSym) := by
  unfold amcw_solvefor
  cases lookupTerm r.terms entry with
  | none => exact hr
  | some c =>
    dsimp only
    by_cases h0 : exitSym.id ≠ 0
    · rw [if_pos h0]
      exact RowOk_addvar g _ exitSym _
        (RowOk_multiply g ⟨r.constant, eraseTerm r.terms entry⟩ _
          (TermsOk_eraseTerm g r.terms entry hr)) he
    · rw [if_neg h0]
      exact RowOk_multiply g ⟨r.constant, eraseTerm r.terms entry⟩ _
        (TermsOk_eraseTerm g r.terms entry hr)

theorem RowOk_substitute (g : amcw_Symbol → Prop) (r : amcw_Row) (entry : amcw_Symbol)
    (other : amcw_Row) (hr : RowOk g r) (ho : RowOk g other) :
    RowOk g (amcw_substitute r entry other) := by
  unfold amcw_substitute
  cases lookupTerm r.terms entry with
  | none => exact hr
  | some c =>
    exact RowOk_addrow g ⟨r.constant, eraseTerm r.terms entry⟩ other c
      (TermsOk_eraseTerm g r.terms entry hr) ho

theorem getRow_symok (g : amcw_Symbol → Prop) (s : amcw_Solver) (k : amcw_Symbol)
    (r : amcw_Row) (hs : SolverOk g s) (h : getRow s k = some r) : RowOk g r := by
  unfold getRow at h
  by_cases h0 : k.id = 0
  · rw [if_pos h0] at h
    exact absurd h (by simp)
  · rw [if_neg h0] at h
    cases hf : s.rows.find? (fun e => e.1.id == k.id) with
    | none => rw [hf] at h; exact absurd h (by simp)
    | some e =>
      rw [hf] at h
      have he : e ∈ s.rows := List.mem_of_find?_eq_some hf
      have : e.2 = r := by simpa using h
      rw [← this]
      exact (hs.2 e he).2

def eraseRowKeyMem : ∀ (l : List (amcw_Symbol × amcw_Row)) (k : amcw_Symbol)
    (e : amcw_Symbol × amcw_Row), e ∈ eraseRowKey l k → e ∈ l
  | [], _, e, h => absurd h (List.not_mem_nil e)
  | a :: l, k, e, h => by
    unfold eraseRowKey at h
    by_cases hid : a.1.id = k.id
    · rw [if_pos hid] at h
      exact List.mem_cons_of_mem a h
    · rw [if_neg hid] at h
      rcases List.mem_cons.mp h with rfl | hmem
      · exact List.mem_cons_self e l
      · exact List.mem_cons_of_mem a (eraseRowKeyMem l k e hmem)

theorem SolverOk_takerow (g : amcw_Symbol → Prop) (s : amcw_Solver) (k : amcw_Symbol)
    (hs : SolverOk g s) :
    SolverOk g (amcw_takerow s k).1 ∧
    (∀ r, (amcw_takerow s k).2 = some r → RowOk g r) := by
  unfold amcw_takerow
  cases hr : getRow s k with
  | none => exact ⟨hs, fun r h => absurd h (by simp)⟩
  | some r0 =>
    refine ⟨⟨hs.1, ?_⟩, ?_⟩
    · intro e he
      exact hs.2 e (eraseRowKeyMem s.rows k e he)
    · intro r h
      have : r0 = r := by simpa using h
      rw [← this]
      exact getRow_symok g s k r0 hs hr

theorem SolverOk_putrow (g : amcw_Symbol → Prop) (s : amcw_Solver) (k : amcw_Symbol)
    (r : amcw_Row) (hs : SolverOk g s) (hk : g k) (hr : RowOk g r) :
    SolverOk g (amcw_putrow s k r) := by
  unfold amcw_putrow
  by_cases h : s.rows.any (fun e => e.1.id == k.id) = true
  · rw [if_pos h]
    refine ⟨hs.1, ?_⟩
    intro e he
    rcases List.mem_map.mp he with ⟨u, hu, rfl⟩
    by_cases hid : u.1.id == k.id
    · simp only [hid, if_true, if_pos]
      exact ⟨(hs.2 u hu).1, hr⟩
    · simp only [if_neg hid]
      exact hs.2 u hu
  · rw [if_neg h]
    refine ⟨hs.1, ?_⟩
    intro e he
    rcases List.mem_append.mp he with hmem | hmem
    · exact hs.2 e hmem
    · rcases List.mem_singleton.mp hmem with rfl
      exact ⟨hk, hr⟩

theorem SolverOk_of_frame (g : amcw_Symbol → Prop) (s s' : amcw_Solver)
    (h1 : s'.objective = s.objective) (h2 : s'.rows = s.rows) (hs : SolverOk g s) :
    SolverOk g s' := by
  refine ⟨?_, ?_⟩
  · rw [show RowOk g s'.objective = RowOk g s.objective from by rw [h1]]
    exact hs.1
  · rw [h2]
    exact hs.2

end AmCassowary

namespace AmCassowary

theorem SolverOk_substRowsStep (g : amcw_Symbol → Prop) (var : amcw_Symbol) (expr : amcw_Row)
    (s : amcw_Solver) (k : amcw_Symbol) (hs : SolverOk g s) (he : RowOk g expr) :
    SolverOk g (substRowsStep var expr s k) := by
  unfold substRowsStep
  have h1 : SolverOk g { s with rows := List.map (fun e => if e.1.id = k.id then (e.1, amcw_substitute e.2 var expr) else e) s.rows } := by
    refine ⟨hs.1, ?_⟩
    intro e hme
    rcases List.mem_map.mp hme with ⟨u, hu, rfl⟩
    by_cases hid : u.1.id = k.id
    · rw [if_pos hid]
      exact ⟨(hs.2 u hu).1, RowOk_substitute g u.2 var expr (hs.2 u hu).2 he⟩
    · rw [if_neg hid]
      exact hs.2 u hu
  by_cases hex : amcw_isexternal k = true
  · rw [if_pos hex]
    exact SolverOk_of_frame g _ _ (markdirtySym_frame _ k).2.2.1 (markdirtySym_frame _ k).1 h1
  · rw [if_neg hex]
    exact SolverOk_of_frame g _ _ (infeasible_frame _ k).2.2.1 (infeasible_frame _ k).1 h1

theorem SolverOk_substitute_rows (g : amcw_Symbol → Prop) (s : amcw_Solver)
    (var : amcw_Symbol) (expr : amcw_Row) (hs : SolverOk g s) (he : RowOk g expr) :
    SolverOk g (amcw_substitute_rows s var expr) := by
  unfold amcw_substitute_rows
  have h1 : SolverOk g ((s.rows.map (fun e => e.1)).foldl (substRowsStep var expr) s) :=
    foldl_preserve (SolverOk g) _ _ s hs
      (fun b a _ hb => SolverOk_substRowsStep g var expr b a hb he)
  exact ⟨RowOk_substitute g _ var expr h1.1 he, h1.2⟩

theorem chooseEnter_ok (g : amcw_Symbol → Prop) (obj : amcw_Row) (hobj : RowOk g obj)
    (hnull : g amcw_null) : g (chooseEnter obj) := by
  unfold chooseEnter
  cases hf : obj.terms.find? (fun t => !(amcw_isdummy t.1) && decide (t.2 < 0)) with
  | none => exact hnull
  | some t => exact hobj t (List.mem_of_find?_eq_some hf)

theorem chooseLeave_ok (g : amcw_Symbol → Prop) (s : amcw_Solver) (enterSym : amcw_Symbol)
    (hs : SolverOk g s) (hnull : g amcw_null) : g (chooseLeave s enterSym) := by
  unfold chooseLeave
  exact foldl_preserve (fun (acc : amcw_Num × amcw_Symbol) => g acc.2) (leaveStep enterSym)
    s.rows (AMCW_NUM_MAX, amcw_null) hnull
    (fun b e he hb => by
      show g (leaveStep enterSym b e).2
      unfold leaveStep
      cases lookupTerm e.2.terms enterSym with
      | none => exact hb
      | some c =>
        dsimp only
        split
        · exact hb
        · split
          · exact (hs.2 e he).1
          · exact hb)

theorem SolverOk_optimize_main (g : amcw_Symbol → Prop) (hnull : g amcw_null) :
    ∀ (fuel : Nat) (s : amcw_Solver), SolverOk g s → SolverOk g (amcw_optimize_main fuel s).1
  | 0, s, hs => hs
  | fuel + 1, s, hs => by
    unfold amcw_optimize_main
    by_cases h1 : (chooseEnter s.objective).id = 0
    · rw [if_pos h1]
      exact hs
    · rw [if_neg h1]
      by_cases h2 : (chooseLeave s (chooseEnter s.objective)).id = 0
      · rw [if_pos h2]
        exact hs
      · rw [if_neg h2]
        cases htk : amcw_takerow s (chooseLeave s (chooseEnter s.objective)) with
        | mk s1 o =>
          have htake := SolverOk_takerow g s (chooseLeave s (chooseEnter s.objective)) hs
          rw [htk] at htake
          cases o with
          | none => exact htake.1
          | some tmp0 =>
            dsimp only
            have hsf : RowOk g (amcw_solvefor tmp0 (chooseEnter s.objective)
                (chooseLeave s (chooseEnter s.objective))) :=
              RowOk_solvefor g tmp0 _ _ (htake.2 tmp0 rfl) (chooseLeave_ok g s _ hs hnull)
            exact SolverOk_optimize_main g hnull fuel _
              (SolverOk_putrow g _ _ _ (SolverOk_substitute_rows g s1 _ _ htake.1 hsf)
                (chooseEnter_ok g s.objective hs.1 hnull) hsf)

theorem SolverOk_optimize_aux (g : amcw_Symbol → Prop) (hnull : g amcw_null) :
    ∀ (fuel : Nat) (s : amcw_Solver) (obj : amcw_Row), SolverOk g s → RowOk g obj →
      SolverOk g (amcw_optimize_aux fuel s obj).1
  | 0, s, obj, hs, _ => hs
  | fuel + 1, s, obj, hs, hobj => by
    unfold amcw_optimize_aux
    by_cases h1 : (chooseEnter obj).id = 0
    · rw [if_pos h1]
      exact hs
    · rw [if_neg h1]
      by_cases h2 : (chooseLeave s (chooseEnter obj)).id = 0
      · rw [if_pos h2]
        exact hs
      · rw [if_neg h2]
        cases htk : amcw_takerow s (chooseLeave s (chooseEnter obj)) with
        | mk s1 o =>
          have htake := SolverOk_takerow g s (chooseLeave s (chooseEnter obj)) hs
          rw [htk] at htake
          cases o with
          | none => exact htake.1
          | some tmp0 =>
            dsimp only
            have hsf : RowOk g (amcw_solvefor tmp0 (chooseEnter obj)
                (chooseLeave s (chooseEnter obj))) :=
              RowOk_solvefor g tmp0 _ _ (htake.2 tmp0 rfl) (chooseLeave_ok g s _ hs hnull)
            exact SolverOk_optimize_aux g hnull fuel _ _
              (SolverOk_putrow g _ _ _ (SolverOk_substitute_rows g s1 _ _ htake.1 hsf)
                (chooseEnter_ok g obj hobj hnull) hsf)
              (RowOk_substitute g obj (chooseEnter obj) _ hobj hsf)

theorem SolverOk_mergerowObj (g : amcw_Symbol → Prop) (s : amcw_Solver) (var : amcw_Symbol)
    (m : amcw_Num) (hs : SolverOk g s) (hv : g var) : SolverOk g (mergerowObj s var m) := by
  unfold mergerowObj amcw_mergerow
  cases hr : getRow s var with
  | some oldrow =>
    dsimp only
    exact ⟨RowOk_addrow g _ _ m hs.1 (getRow_symok g s var oldrow hs hr), hs.2⟩
  | none =>
    dsimp only
    exact ⟨RowOk_addvar g _ var m hs.1 hv, hs.2⟩

theorem SolverOk_remove_errors (g : amcw_Symbol → Prop) (s : amcw_Solver)
    (cons : amcw_Constraint) (hs : SolverOk g s) (hm : g cons.marker) (ho : g cons.other) :
    SolverOk g (amcw_remove_errors s cons).1 := by
  unfold amcw_remove_errors
  dsimp only
  have htail : ∀ (s2 : amcw_Solver), SolverOk g s2 →
      SolverOk g (if amcw_isconstant s2.objective = true then
        { s2 with objective := ⟨0, s2.objective.terms⟩ } else s2) := by
    intro s2 h2
    split
    · exact ⟨h2.1, h2.2⟩
    · exact h2
  by_cases h1 : amcw_iserror cons.marker = true
  · rw [if_pos h1]
    by_cases h2 : amcw_iserror cons.other = true
    · rw [if_pos h2]
      exact htail _ (SolverOk_mergerowObj g _ cons.other _
        (SolverOk_mergerowObj g s cons.marker _ hs hm) ho)
    · rw [if_neg h2]
      exact htail _ (SolverOk_mergerowObj g s cons.marker _ hs hm)
  · rw [if_neg h1]
    by_cases h2 : amcw_iserror cons.other = true
    · rw [if_pos h2]
      exact htail _ (SolverOk_mergerowObj g s cons.other _ hs ho)
    · rw [if_neg h2]
      exact htail s hs

theorem SolverOk_delColA (g : amcw_Symbol → Prop) (s : amcw_Solver) (a : amcw_Symbol)
    (hs : SolverOk g s) : SolverOk g (delColA s a) := by
  unfold delColA
  split
  · exact hs
  · refine ⟨TermsOk_eraseTerm g _ a hs.1, ?_⟩
    intro e he
    rcases List.mem_map.mp he with ⟨u, hu, rfl⟩
    exact ⟨(hs.2 u hu).1, TermsOk_eraseTerm g _ a (hs.2 u hu).2⟩

theorem SolverOk_updatevars (g : amcw_Symbol → Prop) (s : amcw_Solver) (hs : SolverOk g s) :
    SolverOk g (amcw_updatevars s) := by
  refine SolverOk_of_frame g s (amcw_updatevars s) ?_ ?_ hs
  · show (updList s.dirty_vars s).objective = s.objective
    exact (updList_frame s.dirty_vars s).2.1
  · show (updList s.dirty_vars s).rows = s.rows
    exact (updList_frame s.dirty_vars s).1

theorem get_leaving_row_ok (g : amcw_Symbol → Prop) (s : amcw_Solver) (marker : amcw_Symbol)
    (hs : SolverOk g s) (hnull : g amcw_null) : g (amcw_get_leaving_row s marker) := by
  unfold amcw_get_leaving_row
  have hfold := foldl_preserve
    (fun (acc : LeaveAcc) => g acc.first ∧ g acc.second ∧ g acc.third)
    (fun (acc : LeaveAcc) e =>
      match lookupTerm e.2.terms marker with
      | none => acc
      | some c =>
        if amcw_isexternal e.1 then { acc with third := e.1 }
        else if c < 0 then
          let r := qdiv (-e.2.constant) c
          if r < acc.r1 then { acc with r1 := r, first := e.1 } else acc
        else
          let r := qdiv e.2.constant c
          if r < acc.r2 then { acc with r2 := r, second := e.1 } else acc)
    s.rows
    ⟨AMCW_NUM_MAX, amcw_null, AMCW_NUM_MAX, amcw_null, amcw_null⟩ ⟨hnull, hnull, hnull⟩
    (fun b e he hb => by
      dsimp only
      cases lookupTerm e.2.terms marker with
      | none => exact hb
      | some c =>
        dsimp only
        split
        · exact ⟨hb.1, hb.2.1, (hs.2 e he).1⟩
        · split
          · split
            · exact ⟨(hs.2 e he).1, hb.2⟩
            · exact hb
          · split
            · exact ⟨hb.1, (hs.2 e he).1, hb.2.2⟩
            · exact hb)
  have key : ∀ (fin : LeaveAcc), g fin.first ∧ g fin.second ∧ g fin.third →
      g (if fin.first.id ≠ 0 then fin.first
         else if fin.second.id ≠ 0 then fin.second else fin.third) := by
    intro fin h
    split
    · exact h.1
    · split
      · exact h.2.1
      · exact h.2.2
  exact key _ hfold

end AmCassowary

namespace AmCassowary

theorem SolverOk_removeC (g : amcw_Symbol → Prop) (hnull : g amcw_null) (fuel : Nat)
    (s : amcw_Solver) (cons : amcw_Constraint) (hs : SolverOk g s) (hm : g cons.marker)
    (ho : g cons.other) : SolverOk g (amcw_removeC fuel s cons).1 := by
  unfold amcw_removeC
  by_cases h0 : cons.marker.id = 0
  · rw [if_pos h0]
    exact hs
  · rw [if_neg h0]
    dsimp only
    have hre : SolverOk g (amcw_remove_errors s cons).1 :=
      SolverOk_remove_errors g s cons hs hm ho
    have hmid : ∀ (s2 : amcw_Solver), SolverOk g s2 →
        SolverOk g (if (amcw_optimize_main fuel s2).1.auto_update = true then
            amcw_updatevars (amcw_optimize_main fuel s2).1
          else (amcw_optimize_main fuel s2).1) := by
      intro s2 h2
      split
      · exact SolverOk_updatevars g _ (SolverOk_optimize_main g hnull fuel s2 h2)
      · exact SolverOk_optimize_main g hnull fuel s2 h2
    cases htk : amcw_takerow (amcw_remove_errors s cons).1 cons.marker with
    | mk sA o =>
      have htake := SolverOk_takerow g (amcw_remove_errors s cons).1 cons.marker hre
      rw [htk] at htake
      cases o with
      | some r => exact hmid sA htake.1
      | none =>
        dsimp only
        by_cases hex : (amcw_get_leaving_row sA cons.marker).id = 0
        · rw [if_pos hex]
          exact hmid sA htake.1
        · rw [if_neg hex]
          cases htk2 : amcw_takerow sA (amcw_get_leaving_row sA cons.marker) with
          | mk sB o2 =>
            have htake2 := SolverOk_takerow g sA (amcw_get_leaving_row sA cons.marker) htake.1
            rw [htk2] at htake2
            cases o2 with
            | none => exact hmid sB htake2.1
            | some tmp =>
              dsimp only
              exact hmid _ (SolverOk_substitute_rows g sB cons.marker _ htake2.1
                (RowOk_solvefor g tmp cons.marker _ (htake2.2 tmp rfl)
                  (get_leaving_row_ok g sA cons.marker htake.1 hnull)))

theorem SolverOk_artFinish (g : amcw_Symbol → Prop) (hnull : g amcw_null) (fuel : Nat)
    (s : amcw_Solver) (cons : amcw_Constraint) (ret : Int) (hs : SolverOk g s)
    (hm : g cons.marker) (ho : g cons.other) : SolverOk g (artFinish fuel s cons ret).1 := by
  unfold artFinish
  split
  · exact SolverOk_removeC g hnull fuel s cons hs hm ho
  · exact hs

theorem SolverOk_add_with_artificial (g : amcw_Symbol → Prop) (hnull : g amcw_null)
    (hsl : ∀ n, g (amcw_newsymbol n SymType.slack).1) (fuel : Nat) (s : amcw_Solver)
    (row : amcw_Row) (cons : amcw_Constraint) (hs : SolverOk g s) (hrow : RowOk g row)
    (hm : g cons.marker) (ho : g cons.other) :
    SolverOk g (amcw_add_with_artificial fuel s row cons).1 := by
  unfold amcw_add_with_artificial
  dsimp only
  have hs0 : SolverOk g { s with
      symbol_count := (amcw_newsymbol s.symbol_count SymType.slack).2 - 1 } :=
    SolverOk_of_frame g s _ rfl rfl hs
  have hs1 : SolverOk g (amcw_putrow { s with
      symbol_count := (amcw_newsymbol s.symbol_count SymType.slack).2 - 1 }
      (amcw_newsymbol s.symbol_count SymType.slack).1 row) :=
    SolverOk_putrow g _ _ _ hs0 (hsl s.symbol_count) hrow
  have hs2 : SolverOk g (amcw_optimize_aux fuel (amcw_putrow { s with
      symbol_count := (amcw_newsymbol s.symbol_count SymType.slack).2 - 1 }
      (amcw_newsymbol s.symbol_count SymType.slack).1 row)
      (amcw_addrow amcw_initrow row 1)).1 :=
    SolverOk_optimize_aux g hnull fuel _ _ hs1
      (RowOk_addrow g amcw_initrow row 1 (fun t ht => absurd ht (List.not_mem_nil t)) hrow)
  cases htk : amcw_takerow (amcw_optimize_aux fuel (amcw_putrow { s with
      symbol_count := (amcw_newsymbol s.symbol_count SymType.slack).2 - 1 }
      (amcw_newsymbol s.symbol_count SymType.slack).1 row)
      (amcw_addrow amcw_initrow row 1)).1 (amcw_newsymbol s.symbol_count SymType.slack).1 with
  | mk s3 o =>
    have htake := SolverOk_takerow g _ (amcw_newsymbol s.symbol_count SymType.slack).1 hs2
    rw [htk] at htake
    cases o with
    | none =>
      dsimp only
      exact SolverOk_artFinish g hnull fuel _ cons _
        (SolverOk_delColA g s3 _ htake.1) hm ho
    | some tmp3 =>
      dsimp only
      split
      · exact htake.1
      · cases hfind : tmp3.terms.find? (fun t => amcw_ispivotable t.1) with
        | none => exact htake.1
        | some te =>
          dsimp only
          have hte : g te.1 := htake.2 tmp3 rfl te (List.mem_of_find?_eq_some hfind)
          have hsf : RowOk g (amcw_solvefor tmp3 te.1
              (amcw_newsymbol s.symbol_count SymType.slack).1) :=
            RowOk_solvefor g tmp3 te.1 _ (htake.2 tmp3 rfl) (hsl s.symbol_count)
          exact SolverOk_artFinish g hnull fuel _ cons _
            (SolverOk_delColA g _ _
              (SolverOk_putrow g _ te.1 _
                (SolverOk_substitute_rows g s3 te.1 _ htake.1 hsf) hte hsf)) hm ho

end AmCassowary

namespace AmCassowary

theorem try_addrow_fail_symok (g : amcw_Symbol → Prop) (hnull : g amcw_null)
    (hsl : ∀ n, g (amcw_newsymbol n SymType.slack).1) (fuel : Nat) (s : amcw_Solver)
    (row : amcw_Row) (cons : amcw_Constraint) (hs : SolverOk g s) (hrow : RowOk g row)
    (hm : g cons.marker) (ho : g cons.other)
    (hret : (amcw_try_addrow fuel s row cons).2.2 ≠ AMCW_OK) :
    SolverOk g (amcw_try_addrow fuel s row cons).1 := by
  unfold amcw_try_addrow at hret ⊢
  dsimp only at hret ⊢
  revert hret
  have main : ∀ (subj : amcw_Symbol),
      ((if subj.id ≠ 0 then tryAddPivot s row cons subj
        else if row.terms.all (fun t => amcw_isdummy t.1) then
          if amcw_nearzero row.constant then
            if cons.marker.id ≠ 0 then tryAddPivot s row cons cons.marker
            else amcw_add_with_artificial fuel s row cons
          else (s, cons, AMCW_UNSATISFIED)
        else amcw_add_with_artificial fuel s row cons)).2.2 ≠ AMCW_OK →
      SolverOk g ((if subj.id ≠ 0 then tryAddPivot s row cons subj
        else if row.terms.all (fun t => amcw_isdummy t.1) then
          if amcw_nearzero row.constant then
            if cons.marker.id ≠ 0 then tryAddPivot s row cons cons.marker
            else amcw_add_with_artificial fuel s row cons
          else (s, cons, AMCW_UNSATISFIED)
        else amcw_add_with_artificial fuel s row cons)).1 := by
    intro subj hr
    by_cases h1 : subj.id ≠ 0
    · rw [if_pos h1] at hr
      exact absurd rfl hr
    · rw [if_neg h1] at hr ⊢
      by_cases h2 : row.terms.all (fun t => amcw_isdummy t.1) = true
      · rw [if_pos h2] at hr ⊢
        by_cases h3 : amcw_nearzero row.constant = true
        · rw [if_pos h3] at hr ⊢
          by_cases h4 : cons.marker.id ≠ 0
          · rw [if_pos h4] at hr
            exact absurd rfl hr
          · rw [if_neg h4] at hr ⊢
            exact SolverOk_add_with_artificial g hnull hsl fuel s row cons hs hrow hm ho
        · rw [if_neg h3]
          exact hs
      · rw [if_neg h2]
        exact SolverOk_add_with_artificial g hnull hsl fuel s row cons hs hrow hm ho
  exact main _

theorem newsymbol_type (n : Nat) (ty : SymType) : (amcw_newsymbol n ty).1.type = ty := by
  unfold amcw_newsymbol
  by_cases h : n + 1 > 0x3FFFFFFF
  · show ((if n + 1 > 0x3FFFFFFF then ((⟨1, ty⟩ : amcw_Symbol), 1)
      else (⟨n + 1, ty⟩, n + 1)) : amcw_Symbol × Nat).1.type = ty
    rw [if_pos h]
  · show ((if n + 1 > 0x3FFFFFFF then ((⟨1, ty⟩ : amcw_Symbol), 1)
      else (⟨n + 1, ty⟩, n + 1)) : amcw_Symbol × Nat).1.type = ty
    rw [if_neg h]

theorem newsymbol_iserror_slack (n : Nat) :
    amcw_iserror (amcw_newsymbol n SymType.slack).1 = false := by
  unfold amcw_iserror
  rw [newsymbol_type]
  rfl

theorem newsymbol_iserror_dummy (n : Nat) :
    amcw_iserror (amcw_newsymbol n SymType.dummy).1 = false := by
  unfold amcw_iserror
  rw [newsymbol_type]
  rfl

theorem newsymbol_id_pos (n : Nat) (ty : SymType) : (amcw_newsymbol n ty).1.id ≠ 0 := by
  unfold amcw_newsymbol
  by_cases h : n + 1 > 0x3FFFFFFF
  · show ((if n + 1 > 0x3FFFFFFF then ((⟨1, ty⟩ : amcw_Symbol), 1)
      else (⟨n + 1, ty⟩, n + 1)) : amcw_Symbol × Nat).1.id ≠ 0
    rw [if_pos h]
    exact Nat.one_ne_zero
  · show ((if n + 1 > 0x3FFFFFFF then ((⟨1, ty⟩ : amcw_Symbol), 1)
      else (⟨n + 1, ty⟩, n + 1)) : amcw_Symbol × Nat).1.id ≠ 0
    rw [if_neg h]
    exact Nat.succ_ne_zero n

theorem RowOk_flipIfNeg (g : amcw_Symbol → Prop) (r : amcw_Row) (h : RowOk g r) :
    RowOk g (flipIfNeg r) := by
  unfold flipIfNeg
  split
  · exact RowOk_multiply g r (-1) h
  · exact h

theorem makerowMerge_symok (g : amcw_Symbol → Prop) (s : amcw_Solver)
    (cons : amcw_Constraint) (hs : SolverOk g s) (he : TermsOk g cons.expression.terms) :
    SolverOk g (makerowMerge s cons).1 ∧ RowOk g (makerowMerge s cons).2 := by
  unfold makerowMerge
  exact foldl_preserve
    (fun (acc : amcw_Solver × amcw_Row) => SolverOk g acc.1 ∧ RowOk g acc.2)
    (fun acc t =>
      let s1 := markdirtySym acc.1 t.1
      (s1, amcw_mergerow s1 acc.2 t.1 t.2))
    cons.expression.terms (s, ⟨cons.expression.constant, []⟩)
    ⟨hs, fun t ht => absurd ht (List.not_mem_nil t)⟩
    (fun b t ht hb => by
      have hmd : SolverOk g (markdirtySym b.1 t.1) :=
        SolverOk_of_frame g b.1 _ (markdirtySym_frame b.1 t.1).2.2.1
          (markdirtySym_frame b.1 t.1).1 hb.1
      refine ⟨hmd, ?_⟩
      show RowOk g (amcw_mergerow (markdirtySym b.1 t.1) b.2 t.1 t.2)
      unfold amcw_mergerow
      cases hr : getRow (markdirtySym b.1 t.1) t.1 with
      | some oldrow =>
        exact RowOk_addrow g b.2 oldrow t.2 hb.2
          (getRow_symok g (markdirtySym b.1 t.1) t.1 oldrow hmd hr)
      | none => exact RowOk_addvar g b.2 t.1 t.2 hb.2 (he t ht))

theorem initsymbol_objective (s : amcw_Solver) (k : amcw_Symbol) (ty : SymType) :
    (initsymbol s k ty).1.objective = s.objective := by
  unfold initsymbol
  split <;> rfl

theorem initsymbol_rows (s : amcw_Solver) (k : amcw_Symbol) (ty : SymType) :
    (initsymbol s k ty).1.rows = s.rows := by
  unfold initsymbol
  split <;> rfl

theorem makerow_req (g : amcw_Symbol → Prop) (s : amcw_Solver) (cons : amcw_Constraint)
    (hreq : AMCW_REQUIRED ≤ cons.strength) (hmk : cons.marker = amcw_null)
    (hs : SolverOk g s) (he : TermsOk g cons.expression.terms)
    (hsl : ∀ n, g (amcw_newsymbol n SymType.slack).1)
    (hdm : ∀ n, g (amcw_newsymbol n SymType.dummy).1) :
    SolverOk g (amcw_makerow s cons).1 ∧
    RowOk g (amcw_makerow s cons).2.2 ∧
    g (amcw_makerow s cons).2.1.marker ∧
    (amcw_makerow s cons).2.1.other = cons.other ∧
    amcw_iserror (amcw_makerow s cons).2.1.marker = false := by
  have hmm := makerowMerge_symok g s cons hs he
  unfold amcw_makerow
  dsimp only
  by_cases hrel : cons.relation ≠ AMCW_EQUAL
  · rw [if_pos hrel, if_neg (not_lt.mpr hreq)]
    rw [hmk]
    show SolverOk g (initsymbol (makerowMerge s cons).1 amcw_null SymType.slack).1 ∧ _
    unfold initsymbol
    rw [if_pos (show amcw_null.id = 0 from rfl)]
    dsimp only
    refine ⟨SolverOk_of_frame g (makerowMerge s cons).1 _ rfl rfl hmm.1, ?_, ?_, rfl, ?_⟩
    · exact RowOk_flipIfNeg g _ (RowOk_addvar g _ _ _ hmm.2 (hsl _))
    · exact hsl _
    · exact newsymbol_iserror_slack _
  · rw [if_neg hrel, if_pos hreq]
    rw [hmk]
    show SolverOk g (initsymbol (makerowMerge s cons).1 amcw_null SymType.dummy).1 ∧ _
    unfold initsymbol
    rw [if_pos (show amcw_null.id = 0 from rfl)]
    dsimp only
    refine ⟨SolverOk_of_frame g (makerowMerge s cons).1 _ rfl rfl hmm.1, ?_, ?_, rfl, ?_⟩
    · exact RowOk_flipIfNeg g _ (RowOk_addvar g _ _ _ hmm.2 (hdm _))
    · exact hdm _
    · exact newsymbol_iserror_dummy _

end AmCassowary

namespace AmCassowary

theorem removeC_snd_full (fuel : Nat) (s : amcw_Solver) (cons : amcw_Constraint) :
    (amcw_removeC fuel s cons).2 = cons ∨
    (amcw_removeC fuel s cons).2 = { cons with marker := amcw_null, other := amcw_null } := by
  unfold amcw_removeC
  by_cases h0 : cons.marker.id = 0
  · rw [if_pos h0]
    exact Or.inl rfl
  · rw [if_neg h0]
    exact Or.inr rfl

theorem artFinish_snd (fuel : Nat) (s : amcw_Solver) (cons : amcw_Constraint) (ret : Int) :
    (artFinish fuel s cons ret).2.1 = cons ∨
    (artFinish fuel s cons ret).2.1 = { cons with marker := amcw_null, other := amcw_null } := by
  unfold artFinish
  split
  · exact removeC_snd_full fuel s cons
  · exact Or.inl rfl

theorem awa_snd (fuel : Nat) (s : amcw_Solver) (row : amcw_Row) (cons : amcw_Constraint) :
    (amcw_add_with_artificial fuel s row cons).2.1 = cons ∨
    (amcw_add_with_artificial fuel s row cons).2.1
      = { cons with marker := amcw_null, other := amcw_null } := by
  unfold amcw_add_with_artificial
  dsimp only
  split
  · split
    · exact Or.inl rfl
    · split
      · exact Or.inl rfl
      · exact artFinish_snd _ _ _ _
  · exact artFinish_snd _ _ _ _

theorem try_addrow_snd (fuel : Nat) (s : amcw_Solver) (row : amcw_Row)
    (cons : amcw_Constraint) :
    (amcw_try_addrow fuel s row cons).2.1 = cons ∨
    (amcw_try_addrow fuel s row cons).2.1
      = { cons with marker := amcw_null, other := amcw_null } := by
  unfold amcw_try_addrow
  dsimp only
  have main : ∀ (subj : amcw_Symbol),
      ((if subj.id ≠ 0 then tryAddPivot s row cons subj
        else if row.terms.all (fun t => amcw_isdummy t.1) then
          if amcw_nearzero row.constant then
            if cons.marker.id ≠ 0 then tryAddPivot s row cons cons.marker
            else amcw_add_with_artificial fuel s row cons
          else (s, cons, AMCW_UNSATISFIED)
        else amcw_add_with_artificial fuel s row cons)).2.1 = cons ∨
      ((if subj.id ≠ 0 then tryAddPivot s row cons subj
        else if row.terms.all (fun t => amcw_isdummy t.1) then
          if amcw_nearzero row.constant then
            if cons.marker.id ≠ 0 then tryAddPivot s row cons cons.marker
            else amcw_add_with_artificial fuel s row cons
          else (s, cons, AMCW_UNSATISFIED)
        else amcw_add_with_artificial fuel s row cons)).2.1
        = { cons with marker := amcw_null, other := amcw_null } := by
    intro subj
    by_cases h1 : subj.id ≠ 0
    · rw [if_pos h1]
      exact Or.inl rfl
    · rw [if_neg h1]
      by_cases h2 : row.terms.all (fun t => amcw_isdummy t.1) = true
      · rw [if_pos h2]
        by_cases h3 : amcw_nearzero row.constant = true
        · rw [if_pos h3]
          by_cases h4 : cons.marker.id ≠ 0
          · rw [if_pos h4]
            exact Or.inl rfl
          · rw [if_neg h4]
            exact awa_snd _ _ _ _
        · rw [if_neg h3]
          exact Or.inl rfl
      · rw [if_neg h2]
        exact awa_snd _ _ _ _
  exact main _

theorem iserror_null : amcw_iserror amcw_null = false := rfl

theorem try_addrow_markers_nonerror (fuel : Nat) (s : amcw_Solver) (row : amcw_Row)
    (cons : amcw_Constraint) (hm : amcw_iserror cons.marker = false)
    (ho : amcw_iserror cons.other = false) :
    amcw_iserror (amcw_try_addrow fuel s row cons).2.1.marker = false ∧
    amcw_iserror (amcw_try_addrow fuel s row cons).2.1.other = false := by
  rcases try_addrow_snd fuel s row cons with h | h
  · rw [h]
    exact ⟨hm, ho⟩
  · rw [h]
    exact ⟨iserror_null, iserror_null⟩

theorem remove_errors_objterms (s : amcw_Solver) (cons : amcw_Constraint)
    (h1 : amcw_iserror cons.marker = false) (h2 : amcw_iserror cons.other = false) :
    (amcw_remove_errors s cons).1.objective.terms = s.objective.terms := by
  unfold amcw_remove_errors
  dsimp only
  rw [if_neg (show ¬(amcw_iserror cons.marker = true) from
      fun hc => Bool.false_ne_true (h1 ▸ hc)),
    if_neg (show ¬(amcw_iserror cons.other = true) from
      fun hc => Bool.false_ne_true (h2 ▸ hc))]
  split
  · rfl
  · rfl

end AmCassowary

namespace AmCassowary

theorem addvarTerms_append_fresh : ∀ (ts : Terms) (k : amcw_Symbol) (v : amcw_Num),
    (∀ t ∈ ts, t.1.id ≠ k.id) → amcw_nearzero v = false →
    addvarTerms ts k v = ts ++ [(k, v)]
  | [], k, v, _, hz => by
    unfold addvarTerms
    rw [if_neg (show ¬(amcw_nearzero v = true) from fun hc => Bool.false_ne_true (hz ▸ hc))]
    rfl
  | t :: ts, k, v, h, hz => by
    unfold addvarTerms
    rw [if_neg (fun hc => h t (List.mem_cons_self t ts) hc)]
    rw [addvarTerms_append_fresh ts k v (fun u hu => h u (List.mem_cons_of_mem t hu)) hz]
    rfl

theorem addvar_append_fresh (r : amcw_Row) (k : amcw_Symbol) (v : amcw_Num)
    (hk : k.id ≠ 0) (h : ∀ t ∈ r.terms, t.1.id ≠ k.id) (hz : amcw_nearzero v = false) :
    amcw_addvar r k v = ⟨r.constant, r.terms ++ [(k, v)]⟩ := by
  unfold amcw_addvar
  rw [if_neg hk, addvarTerms_append_fresh r.terms k v h hz]

theorem find?_terms_append_fresh : ∀ (ts : Terms) (k : amcw_Symbol) (v : amcw_Num),
    (∀ t ∈ ts, t.1.id ≠ k.id) →
    ((ts ++ [(k, v)]).find? (fun t => t.1.id == k.id)) = some (k, v)
  | [], k, v, _ => by simp
  | t :: ts, k, v, h => by
    rw [List.cons_append]
    rw [@List.find?_cons_of_neg _ (fun t => t.1.id == k.id) t _
      (by simp only [beq_iff_eq]; exact h t (List.mem_cons_self t ts))]
    exact find?_terms_append_fresh ts k v (fun u hu => h u (List.mem_cons_of_mem t hu))

theorem lookupTerm_append_self (ts : Terms) (k : amcw_Symbol) (v : amcw_Num)
    (h : ∀ t ∈ ts, t.1.id ≠ k.id) (hk : k.id ≠ 0) :
    lookupTerm (ts ++ [(k, v)]) k = some v := by
  unfold lookupTerm
  rw [if_neg hk, find?_terms_append_fresh ts k v h]
  rfl

theorem find?_append_single_ne : ∀ (ts : Terms) (k q : amcw_Symbol) (v : amcw_Num),
    k.id ≠ q.id →
    ((ts ++ [(k, v)]).find? (fun t => t.1.id == q.id)) = ts.find? (fun t => t.1.id == q.id)
  | [], k, q, v, hne => by
    simp only [List.nil_append, List.find?]
    rw [show (((k, v) : amcw_Symbol × amcw_Num).1.id == q.id) = false from by
      simp only [beq_eq_false_iff_ne, ne_eq]; exact hne]
  | t :: ts, k, q, v, hne => by
    rw [List.cons_append]
    by_cases hp : (t.1.id == q.id) = true
    · rw [@List.find?_cons_of_pos _ (fun t => t.1.id == q.id) t _ hp,
        @List.find?_cons_of_pos _ (fun t => t.1.id == q.id) t _ hp]
    · rw [@List.find?_cons_of_neg _ (fun t => t.1.id == q.id) t _ hp,
        @List.find?_cons_of_neg _ (fun t => t.1.id == q.id) t _ hp]
      exact find?_append_single_ne ts k q v hne

theorem lookupTerm_append_ne (ts : Terms) (k q : amcw_Symbol) (v : amcw_Num)
    (hne : k.id ≠ q.id) : lookupTerm (ts ++ [(k, v)]) q = lookupTerm ts q := by
  unfold lookupTerm
  by_cases h0 : q.id = 0
  · rw [if_pos h0, if_pos h0]
  · rw [if_neg h0, if_neg h0, find?_append_single_ne ts k q v hne]

theorem lookupTerm_multiply (r : amcw_Row) (m : amcw_Num) (k : amcw_Symbol) :
    lookupTerm (amcw_multiply r m).terms k
      = (lookupTerm r.terms k).map (fun c => qmul c m) := by
  unfold amcw_multiply lookupTerm
  by_cases h0 : k.id = 0
  · rw [if_pos h0, if_pos h0]
    rfl
  · rw [if_neg h0, if_neg h0]
    dsimp only
    rw [List.find?_map]
    simp only [Option.map_map]
    rfl

theorem makerowMerge_symcount (s : amcw_Solver) (cons : amcw_Constraint) :
    (makerowMerge s cons).1.symbol_count = s.symbol_count := by
  unfold makerowMerge
  exact foldl_preserve (fun (acc : amcw_Solver × amcw_Row) =>
      acc.1.symbol_count = s.symbol_count)
    (fun acc t =>
      let s1 := markdirtySym acc.1 t.1
      (s1, amcw_mergerow s1 acc.2 t.1 t.2))
    cons.expression.terms (s, ⟨cons.expression.constant, []⟩) rfl
    (fun b t _ hb => by
      show (markdirtySym b.1 t.1).symbol_count = s.symbol_count
      rw [(markdirtySym_frame b.1 t.1).2.2.2.2.2.1]
      exact hb)

theorem newsymbol_no_wrap (n : Nat) (ty : SymType) (h : n + 1 ≤ 0x3FFFFFFF) :
    amcw_newsymbol n ty = (⟨n + 1, ty⟩, n + 1) := by
  unfold amcw_newsymbol
  show (if n + 1 > 0x3FFFFFFF then ((⟨1, ty⟩ : amcw_Symbol), 1)
      else (⟨n + 1, ty⟩, n + 1) : amcw_Symbol × Nat) = (⟨n + 1, ty⟩, n + 1)
  rw [if_neg (not_lt.mpr h)]

theorem makerow_nonrequired (s : amcw_Solver) (cons : amcw_Constraint)
    (hlt : cons.strength < AMCW_REQUIRED) (hmk : cons.marker = amcw_null)
    (ho : cons.other = amcw_null) (hhead : s.symbol_count + 2 ≤ 0x3FFFFFFF) :
    ∃ ty, (ty = SymType.slack ∨ ty = SymType.error) ∧
    (amcw_makerow s cons).2.1.marker = ⟨s.symbol_count + 1, ty⟩ ∧
    (amcw_makerow s cons).2.1.other = ⟨s.symbol_count + 2, SymType.error⟩ ∧
    (amcw_makerow s cons).2.2
      = flipIfNeg (amcw_addvar (amcw_addvar (makerowMerge s cons).2
          ⟨s.symbol_count + 1, ty⟩ (-1)) ⟨s.symbol_count + 2, SymType.error⟩ 1) := by
  have h1 : s.symbol_count + 1 ≤ 0x3FFFFFFF := by omega
  have h2 : s.symbol_count + 1 + 1 ≤ 0x3FFFFFFF := by omega
  unfold amcw_makerow
  dsimp only
  rw [hmk, ho]
  by_cases hrel : cons.relation ≠ AMCW_EQUAL
  · rw [if_pos hrel, if_pos hlt]
    unfold initsymbol
    rw [if_pos (show amcw_null.id = 0 from rfl)]
    dsimp only
    rw [makerowMerge_symcount, newsymbol_no_wrap s.symbol_count SymType.slack h1]
    rw [if_pos (show amcw_null.id = 0 from rfl)]
    dsimp only
    rw [newsymbol_no_wrap (s.symbol_count + 1) SymType.error h2]
    exact ⟨SymType.slack, Or.inl rfl, rfl, rfl, rfl⟩
  · rw [if_neg hrel, if_neg (not_le.mpr hlt)]
    unfold initsymbol
    rw [if_pos (show amcw_null.id = 0 from rfl)]
    dsimp only
    rw [makerowMerge_symcount, newsymbol_no_wrap s.symbol_count SymType.error h1]
    rw [if_pos (show amcw_null.id = 0 from rfl)]
    dsimp only
    rw [newsymbol_no_wrap (s.symbol_count + 1) SymType.error h2]
    exact ⟨SymType.error, Or.inr rfl, rfl, rfl, rfl⟩

end AmCassowary

namespace AmCassowary

theorem try_addrow_subject_ok (fuel : Nat) (s' : amcw_Solver) (row1 ROW : amcw_Row)
    (cons' : amcw_Constraint) (M O : amcw_Symbol)
    (hROW : ROW = flipIfNeg (amcw_addvar (amcw_addvar row1 M (-1)) O 1))
    (hMpiv : amcw_ispivotable M = true) (hOpiv : amcw_ispivotable O = true)
    (hM0 : M.id ≠ 0) (hO0 : O.id ≠ 0) (hMO : O.id ≠ M.id)
    (hfreshM : ∀ t ∈ row1.terms, t.1.id ≠ M.id)
    (hfreshO : ∀ t ∈ row1.terms, t.1.id ≠ O.id)
    (hz : ∀ t ∈ row1.terms, t.1.id ≠ 0)
    (hcm : cons'.marker = M) (hco : cons'.other = O) :
    (amcw_try_addrow fuel s' ROW cons').2.2 = AMCW_OK := by
  have hOfresh : ∀ t ∈ row1.terms ++ [(M, (-1 : amcw_Num))], t.1.id ≠ O.id := by
    intro t ht
    rcases List.mem_append.mp ht with h | h
    · exact hfreshO t h
    · rcases List.mem_singleton.mp h with rfl
      exact fun hc => hMO hc.symm
  have h2 : amcw_addvar row1 M (-1) = ⟨row1.constant, row1.terms ++ [(M, -1)]⟩ :=
    addvar_append_fresh row1 M (-1) hM0 hfreshM (by decide)
  have h3 : amcw_addvar (amcw_addvar row1 M (-1)) O 1
      = ⟨row1.constant, (row1.terms ++ [(M, -1)]) ++ [(O, 1)]⟩ := by
    rw [h2]
    exact addvar_append_fresh ⟨row1.constant, row1.terms ++ [(M, -1)]⟩ O 1 hO0 hOfresh
      (by decide)
  have hlookM3 : lookupTerm ((row1.terms ++ [(M, -1)]) ++ [(O, 1)]) M = some (-1) := by
    rw [lookupTerm_append_ne _ O M 1 hMO]
    exact lookupTerm_append_self row1.terms M (-1) hfreshM hM0
  have hlookO3 : lookupTerm ((row1.terms ++ [(M, -1)]) ++ [(O, 1)]) O = some 1 :=
    lookupTerm_append_self _ O 1 hOfresh hO0
  have hz3 : ∀ t ∈ (row1.terms ++ [(M, (-1 : amcw_Num))]) ++ [(O, (1 : amcw_Num))],
      t.1.id ≠ 0 := by
    intro t ht
    rcases List.mem_append.mp ht with h | h
    · rcases List.mem_append.mp h with h2 | h2
      · exact hz t h2
      · rcases List.mem_singleton.mp h2 with rfl
        exact hM0
    · rcases List.mem_singleton.mp h with rfl
      exact hO0
  have walk : ∀ (R : amcw_Row) (cM cO : amcw_Num),
      lookupTerm R.terms M = some cM → lookupTerm R.terms O = some cO →
      ((cM = -1 ∧ cO = 1) ∨ (cM = 1 ∧ cO = -1)) →
      (∀ t ∈ R.terms, t.1.id ≠ 0) →
      (amcw_try_addrow fuel s' R cons').2.2 = AMCW_OK := by
    intro R cM cO hlM hlO hcase hz0
    unfold amcw_try_addrow
    dsimp only
    cases hf0 : R.terms.find? (fun t => amcw_isexternal t.1) with
    | some t =>
      dsimp only
      have ht0 : t.1.id ≠ 0 := hz0 t (List.mem_of_find?_eq_some hf0)
      rw [if_neg (show ¬((decide (t.1.id = 0) && amcw_ispivotable cons'.marker) = true)
        from by simp [ht0])]
      rw [if_neg (show ¬((decide (t.1.id = 0) && amcw_ispivotable cons'.other) = true)
        from by simp [ht0])]
      rw [if_pos ht0]
      rfl
    | none =>
      dsimp only
      rw [hcm, hco]
      rw [if_pos (show ((decide ((amcw_null : amcw_Symbol).id = 0)
        && amcw_ispivotable M) = true) from by rw [hMpiv]; rfl)]
      rw [hlM]
      dsimp only
      rcases hcase with ⟨hM1, hO1⟩ | ⟨hM1, hO1⟩
      · rw [hM1]
        rw [if_pos (show (-1 : amcw_Num) < 0 from by decide)]
        rw [if_neg (show ¬((decide (M.id = 0) && amcw_ispivotable O) = true)
          from by simp [hM0])]
        rw [if_pos hM0]
        rfl
      · rw [hM1]
        rw [if_neg (show ¬((1 : amcw_Num) < 0) from by decide)]
        rw [if_pos (show ((decide ((amcw_null : amcw_Symbol).id = 0)
          && amcw_ispivotable O) = true) from by rw [hOpiv]; rfl)]
        rw [hlO]
        dsimp only
        rw [hO1]
        rw [if_pos (show (-1 : amcw_Num) < 0 from by decide)]
        rw [if_pos hO0]
        rfl
  rw [hROW, h3]
  unfold flipIfNeg
  by_cases hflip :
      (⟨row1.constant, (row1.terms ++ [(M, -1)]) ++ [(O, 1)]⟩ : amcw_Row).constant < 0
  · rw [if_pos hflip]
    refine walk _ (qmul (-1) (-1)) (qmul 1 (-1)) ?_ ?_ (Or.inr ⟨by decide, by decide⟩) ?_
    · rw [lookupTerm_multiply, hlookM3]
      rfl
    · rw [lookupTerm_multiply, hlookO3]
      rfl
    · intro t ht
      rcases List.mem_map.mp ht with ⟨u, hu, rfl⟩
      exact hz3 u hu
  · rw [if_neg hflip]
    exact walk _ (-1) 1 hlookM3 hlookO3 (Or.inl ⟨rfl, rfl⟩) hz3

theorem add_nonrequired_ok (fuel : Nat) (s : amcw_Solver) (cid : Nat)
    (cons : amcw_Constraint) (hc : getCons s cid = some cons)
    (hmk : cons.marker = amcw_null) (ho : cons.other = amcw_null)
    (hlt : cons.strength < AMCW_REQUIRED)
    (hobj : ∀ t ∈ s.objective.terms, t.1.id ≤ s.symbol_count ∧ t.1.id ≠ 0)
    (hrows : ∀ e ∈ s.rows, (e.1.id ≤ s.symbol_count ∧ e.1.id ≠ 0) ∧
      ∀ t ∈ e.2.terms, t.1.id ≤ s.symbol_count ∧ t.1.id ≠ 0)
    (hexpr : ∀ t ∈ cons.expression.terms, t.1.id ≤ s.symbol_count ∧ t.1.id ≠ 0)
    (hhead : s.symbol_count + 2 ≤ 0x3FFFFFFF) :
    (amcw_add fuel s cid).2 = AMCW_OK := by
  have hs0 : SolverOk (fun k => k.id ≤ s.symbol_count ∧ k.id ≠ 0) s :=
    ⟨hobj, fun e he => ⟨(hrows e he).1, (hrows e he).2⟩⟩
  have hmerge := makerowMerge_symok (fun k => k.id ≤ s.symbol_count ∧ k.id ≠ 0) s cons
    hs0 hexpr
  rcases makerow_nonrequired s cons hlt hmk ho hhead with ⟨ty, hty, hcm, hco, hrow⟩
  have hMpiv : amcw_ispivotable (⟨s.symbol_count + 1, ty⟩ : amcw_Symbol) = true := by
    rcases hty with rfl | rfl
    · rfl
    · rfl
  have hQ : (amcw_try_addrow fuel (amcw_makerow s cons).1 (amcw_makerow s cons).2.2
      (amcw_makerow s cons).2.1).2.2 = AMCW_OK :=
    try_addrow_subject_ok fuel (amcw_makerow s cons).1 (makerowMerge s cons).2
      (amcw_makerow s cons).2.2 (amcw_makerow s cons).2.1
      ⟨s.symbol_count + 1, ty⟩ ⟨s.symbol_count + 2, SymType.error⟩ hrow hMpiv rfl
      (Nat.succ_ne_zero _) (Nat.succ_ne_zero _)
      (by show s.symbol_count + 2 ≠ s.symbol_count + 1; omega)
      (fun t ht => by have := (hmerge.2 t ht).1; show t.1.id ≠ s.symbol_count + 1; omega)
      (fun t ht => by have := (hmerge.2 t ht).1; show t.1.id ≠ s.symbol_count + 2; omega)
      (fun t ht => (hmerge.2 t ht).2) hcm hco
  unfold amcw_add
  rw [hc]
  dsimp only
  rw [if_neg (by rw [hmk]; decide)]
  rw [if_neg (show ¬((amcw_try_addrow fuel (amcw_makerow s cons).1
      (amcw_makerow s cons).2.2 (amcw_makerow s cons).2.1).2.2 ≠ AMCW_OK)
    from fun hcon => hcon hQ)]

end AmCassowary

namespace AmCassowary

/-- C1: atomicity of a failed `amcw_add`.  For a fresh constraint record in a
tableau whose symbol ids are positive and bounded by the allocator counter
(with headroom for two fresh symbols), a non-OK return leaves the constraint's
marker and other symbols null, restores the symbol counter to its entry value,
and leaves no error term with a fresh id (above the entry counter) in the
objective — every error contribution added for the constraint is removed. -/
theorem c1_failed_add_rollback (fuel : Nat) (s : amcw_Solver) (cid : Nat)
    (cons : amcw_Constraint) (hc : getCons s cid = some cons)
    (hmk : cons.marker = amcw_null) (ho : cons.other = amcw_null)
    (hobj : ∀ t ∈ s.objective.terms, t.1.id ≤ s.symbol_count ∧ t.1.id ≠ 0)
    (hrows : ∀ e ∈ s.rows, (e.1.id ≤ s.symbol_count ∧ e.1.id ≠ 0) ∧
      ∀ t ∈ e.2.terms, t.1.id ≤ s.symbol_count ∧ t.1.id ≠ 0)
    (hexpr : ∀ t ∈ cons.expression.terms, t.1.id ≤ s.symbol_count ∧ t.1.id ≠ 0)
    (hhead : s.symbol_count + 2 ≤ 0x3FFFFFFF)
    (hret : (amcw_add fuel s cid).2 ≠ AMCW_OK) :
    (∃ cons', getCons (amcw_add fuel s cid).1 cid = some cons' ∧
      cons'.marker = amcw_null ∧ cons'.other = amcw_null) ∧
    (amcw_add fuel s cid).1.symbol_count = s.symbol_count ∧
    (∀ t ∈ (amcw_add fuel s cid).1.objective.terms,
      amcw_iserror t.1 = true → t.1.id ≤ s.symbol_count) := by
  by_cases hstr : cons.strength < AMCW_REQUIRED
  · exact absurd (add_nonrequired_ok fuel s cid cons hc hmk ho hstr hobj hrows hexpr hhead)
      hret
  · have hreq : AMCW_REQUIRED ≤ cons.strength := not_lt.mp hstr
    have hnullErr : (fun k => amcw_iserror k = true → k.id ≤ s.symbol_count) amcw_null :=
      fun h' => absurd h' Bool.false_ne_true
    have hslErr : ∀ n, (fun k => amcw_iserror k = true → k.id ≤ s.symbol_count)
        (amcw_newsymbol n SymType.slack).1 :=
      fun n h' => absurd ((newsymbol_iserror_slack n) ▸ h') Bool.false_ne_true
    have hdmErr : ∀ n, (fun k => amcw_iserror k = true → k.id ≤ s.symbol_count)
        (amcw_newsymbol n SymType.dummy).1 :=
      fun n h' => absurd ((newsymbol_iserror_dummy n) ▸ h') Bool.false_ne_true
    have hsErr : SolverOk (fun k => amcw_iserror k = true → k.id ≤ s.symbol_count) s :=
      ⟨fun t ht _ => (hobj t ht).1,
        fun e he => ⟨fun _ => (hrows e he).1.1, fun t ht _ => ((hrows e he).2 t ht).1⟩⟩
    have hexprErr : TermsOk (fun k => amcw_iserror k = true → k.id ≤ s.symbol_count)
        cons.expression.terms := fun t ht _ => (hexpr t ht).1
    have hmr := makerow_req (fun k => amcw_iserror k = true → k.id ≤ s.symbol_count)
      s cons hreq hmk hsErr hexprErr hslErr hdmErr
    have hootype : amcw_iserror (amcw_makerow s cons).2.1.other = false := by
      rw [hmr.2.2.2.1, ho]
      rfl
    have hgo : (fun k => amcw_iserror k = true → k.id ≤ s.symbol_count)
        (amcw_makerow s cons).2.1.other := by
      rw [hmr.2.2.2.1, ho]
      exact hnullErr
    have hlook : ∀ (u : amcw_Solver), u.constraints = s.constraints →
        getCons u cid = some cons :=
      fun u hu => by rw [getCons_congr_constraints u s hu cid]; exact hc
    have hqr : (amcw_try_addrow fuel (amcw_makerow s cons).1 (amcw_makerow s cons).2.2
        (amcw_makerow s cons).2.1).2.2 ≠ AMCW_OK := by
      intro hq
      apply hret
      unfold amcw_add
      rw [hc]
      dsimp only
      rw [if_neg (by rw [hmk]; decide)]
      rw [if_neg (show ¬((amcw_try_addrow fuel (amcw_makerow s cons).1
          (amcw_makerow s cons).2.2 (amcw_makerow s cons).2.1).2.2 ≠ AMCW_OK)
        from fun hcon => hcon hq)]
    have hmo := try_addrow_markers_nonerror fuel (amcw_makerow s cons).1
      (amcw_makerow s cons).2.2 (amcw_makerow s cons).2.1 hmr.2.2.2.2 hootype
    have hsq := try_addrow_fail_symok
      (fun k => amcw_iserror k = true → k.id ≤ s.symbol_count) hnullErr hslErr fuel
      (amcw_makerow s cons).1 (amcw_makerow s cons).2.2 (amcw_makerow s cons).2.1
      hmr.1 hmr.2.1 hmr.2.2.1 hgo hqr
    have hterms := remove_errors_objterms
      (amcw_try_addrow fuel (amcw_makerow s cons).1 (amcw_makerow s cons).2.2
        (amcw_makerow s cons).2.1).1
      (amcw_try_addrow fuel (amcw_makerow s cons).1 (amcw_makerow s cons).2.2
        (amcw_makerow s cons).2.1).2.1 hmo.1 hmo.2
    unfold amcw_add
    rw [hc]
    dsimp only
    rw [if_neg (by rw [hmk]; decide)]
    rw [if_pos hqr]
    refine ⟨⟨_, getCons_putCons_self _ cid _ cons
      (hlook _ (((remove_errors_frame _ _).1).trans
        (((try_addrow_frame _ _ _ _).1).trans ((makerow_frame _ _).1)))), rfl, rfl⟩,
      rfl, ?_⟩
    intro t ht htype
    have ht2 : t ∈ (amcw_remove_errors
        (amcw_try_addrow fuel (amcw_makerow s cons).1 (amcw_makerow s cons).2.2
          (amcw_makerow s cons).2.1).1
        (amcw_try_addrow fuel (amcw_makerow s cons).1 (amcw_makerow s cons).2.2
          (amcw_makerow s cons).2.1).2.1).1.objective.terms := ht
    rw [hterms] at ht2
    exact hsq.1 t ht2 htype

def w1a := amcw_newvariable amcw_newsolver

def w1b := amcw_newconstraint w1a.1 AMCW_REQUIRED

def w1c := (amcw_setrelation w1b.1 w1b.2 AMCW_EQUAL).1

def w1d := (amcw_addterm w1c w1b.2 w1a.2 1).1

def w1e := (amcw_addconstant w1d w1b.2 (-5)).1

def w1f := (amcw_add 32 w1e w1b.2).1

def w1g := amcw_newconstraint w1f AMCW_REQUIRED

def w1h := (amcw_setrelation w1g.1 w1g.2 AMCW_EQUAL).1

def w1i := (amcw_addterm w1h w1g.2 w1a.2 1).1

def w1s10 := (amcw_addconstant w1i w1g.2 (-6)).1

/-- Witness for C1: adding the required equality `x = 6` to a solver already
holding `x = 5` fails with UNSATISFIED; the rollback nulls the markers,
restores the symbol counter, and leaves no fresh error term in the
objective. -/
theorem c1_failed_add_rollback_witness :
    (∃ cons', getCons (amcw_add 32 w1s10 2).1 2 = some cons' ∧
      cons'.marker = amcw_null ∧ cons'.other = amcw_null) ∧
    (amcw_add 32 w1s10 2).1.symbol_count = w1s10.symbol_count ∧
    (∀ t ∈ (amcw_add 32 w1s10 2).1.objective.terms,
      amcw_iserror t.1 = true → t.1.id ≤ w1s10.symbol_count) :=
  c1_failed_add_rollback 32 w1s10 2
    ⟨⟨-6, [(⟨1, SymType.external⟩, 1)]⟩, amcw_null, amcw_null, AMCW_EQUAL, AMCW_REQUIRED⟩
    (by decide) (by decide) (by decide) (by decide) (by decide) (by decide) (by decide)
    (by decide)

end AmCassowary

namespace AmCassowary

/-! ## C2: uniqueness of term keys and elimination of the pivot subject -/

end AmCassowary

namespace AmCassowary

end AmCassowary

namespace AmCassowary

end AmCassowary

